import Mathlib

/-!
# Verification of the notesdb-export pipeline against its specification

This file gives a shallow embedding, in Lean 4, of the parts of the
notesdb-export repository (a DXL → normalized-IR → attachment-extraction →
rendering pipeline written in Python) that the specification's testable
claims are about, together with theorems settling each claim.

Conventions used throughout:

* Python dictionaries with a fixed key set become Lean structures; keys that
  may be absent become `Option` fields.
* File contents (`bytes`) are modelled as `List Nat`; the filesystem is an
  association list from full path strings to contents, written once and
  threaded explicitly.
* Cryptographic hash functions (BLAKE2b, SHA-256) are modelled as parameters
  (a `HashModel`); theorems that depend on hashes distinguishing different
  contents carry an explicit injectivity hypothesis, which is the intended
  reading of comparing cryptographic digests.
* Fields of the Python data that no modelled computation ever reads
  (e.g. ISO-timestamp normalisation results, which are only used to set
  file modification times) are omitted; each omission is noted at the
  definition it concerns.

Source files embedded: `src/utils/progress_jsonl.py`,
`src/pipelines/flows.py` (`run_unified`), `src/core/render/common.py`
(`BaseRenderer`), `src/core/attachments.py`, `src/core/dxl/parser.py`.
-/

namespace NotesDbExport

/-! ## Progress journal (`src/utils/progress_jsonl.py`)

A journal is a list of already-decoded JSONL records, in file order.
`JsonlProgress.snapshot` keeps, for each `(db, unid)` key, the latest
record; `remaining_unids` replays it against the requested pairs. -/

/-- One progress-journal record (`{"ts":…,"db":…,"unid":…,"status":…,"try":…}`).
The `ts`, `err` and `out` fields are never read by the replay logic and are
omitted. -/
structure JRecord where
  db : String
  unid : String
  status : String
  tryCount : Nat
  deriving Repr, DecidableEq

namespace JsonlProgress

/-- Association-list update used by `snapshot` (`state[key] = rec`). -/
def setKey (m : List ((String × String) × JRecord)) (k : String × String)
    (r : JRecord) : List ((String × String) × JRecord) :=
  match m with
  | [] => [(k, r)]
  | (k', r') :: rest => if k' = k then (k, r) :: rest else (k', r') :: setKey rest k r

/-- Association-list lookup (`state.get(key)`). -/
def getKey (m : List ((String × String) × JRecord)) (k : String × String) :
    Option JRecord :=
  match m with
  | [] => none
  | (k', r') :: rest => if k' = k then some r' else getKey rest k

/-- `JsonlProgress.snapshot`: fold the journal into a latest-record-per-key
map.  Lines that fail JSON decoding are skipped by the source before this
point, so the model receives only well-formed records. -/
def snapshot (journal : List JRecord) : List ((String × String) × JRecord) :=
  journal.foldl (fun st rec => setKey st (rec.db, rec.unid) rec) []

/-- `JsonlProgress.remaining_unids`: for each requested pair, yield
`(db, unid, try)` unless the latest record says `done`/`skipped`, or says
`error` with a try count at or above `retry_max`. -/
def remaining_unids (journal : List JRecord)
    (all_pairs : List (String × String)) (retry_max : Nat) :
    List (String × String × Nat) :=
  all_pairs.filterMap (fun p =>
    match getKey (snapshot journal) p with
    | none => some (p.1, p.2, 0)
    | some rec =>
      if rec.status = "done" ∨ rec.status = "skipped" then none
      else if rec.status = "error" ∧ retry_max ≤ rec.tryCount then none
      else some (p.1, p.2, rec.tryCount))

end JsonlProgress

/-- `run_unified` (src/pipelines/flows.py, lines 409 and 422–427): in normal
mode the iterable is `remaining_unids(pairs, retry_max)`, and each yielded
`(db_file, unid, try_count)` is processed with attempt number
`try_count + 1` (the `"processing"`/`"done"`/`"error"` records it appends
all carry `try_count + 1`). -/
def run_unified_attempts (journal : List JRecord)
    (pairs : List (String × String)) (retry_max : Nat) :
    List (String × String × Nat) :=
  (JsonlProgress.remaining_unids journal pairs retry_max).map
    (fun t => (t.1, t.2.1, t.2.2 + 1))

namespace JsonlProgress

theorem getKey_setKey_self (m : List ((String × String) × JRecord))
    (k : String × String) (r : JRecord) : getKey (setKey m k r) k = some r := by
  induction m with
  | nil => simp [setKey, getKey]
  | cons hd tl ih =>
    obtain ⟨k', r'⟩ := hd
    by_cases h : k' = k <;> simp [setKey, getKey, h, ih]

theorem getKey_setKey_ne (m : List ((String × String) × JRecord))
    (k k' : String × String) (r : JRecord) (h : k' ≠ k) :
    getKey (setKey m k r) k' = getKey m k' := by
  induction m with
  | nil => simp [setKey, getKey, Ne.symm h]
  | cons hd tl ih =>
    obtain ⟨k'', r''⟩ := hd
    by_cases h2 : k'' = k
    · subst h2
      simp [setKey, getKey, Ne.symm h]
    · by_cases h3 : k'' = k'
      · subst h3
        simp [setKey, getKey, h2]
      · simp [setKey, getKey, h2, h3, ih]

/-- The snapshot's entry for a key is determined by the suffix of the journal
after the last record for that key (the latest record wins). -/
theorem snapshot_append_last (pre : List JRecord) (r : JRecord) :
    getKey (snapshot (pre ++ [r])) (r.db, r.unid) = some r := by
  unfold snapshot
  rw [List.foldl_append]
  simp [getKey_setKey_self]

theorem getKey_foldl_not_mem (l : List JRecord)
    (st : List ((String × String) × JRecord)) (k : String × String)
    (h : ∀ x ∈ l, (x.db, x.unid) ≠ k) :
    getKey (l.foldl (fun st rec => setKey st (rec.db, rec.unid) rec) st) k =
      getKey st k := by
  induction l generalizing st with
  | nil => rfl
  | cons hd tl ih =>
    simp only [List.foldl_cons]
    rw [ih _ (fun x hx => h x (List.mem_cons_of_mem _ hx))]
    exact getKey_setKey_ne _ _ _ _ (Ne.symm (h hd (List.mem_cons_self _ _)))

/-- If the journal decomposes as `pre ++ [r] ++ post` with no record for
`r`'s key in `post`, then `r` is the latest record for that key. -/
theorem snapshot_latest (pre post : List JRecord) (r : JRecord)
    (h : ∀ x ∈ post, (x.db, x.unid) ≠ (r.db, r.unid)) :
    getKey (snapshot (pre ++ r :: post)) (r.db, r.unid) = some r := by
  unfold snapshot
  rw [List.foldl_append, List.foldl_cons]
  rw [getKey_foldl_not_mem post _ _ h]
  simp [getKey_setKey_self]

variable {journal : List JRecord} {pairs : List (String × String)}

theorem mem_remaining_iff (cap : Nat) (d u : String) (t : Nat) :
    (d, u, t) ∈ remaining_unids journal pairs cap ↔
      (d, u) ∈ pairs ∧
      ((getKey (snapshot journal) (d, u) = none ∧ t = 0) ∨
       (∃ rec, getKey (snapshot journal) (d, u) = some rec ∧
         ¬(rec.status = "done" ∨ rec.status = "skipped") ∧
         ¬(rec.status = "error" ∧ cap ≤ rec.tryCount) ∧ t = rec.tryCount)) := by
  unfold remaining_unids
  rw [List.mem_filterMap]
  constructor
  · rintro ⟨⟨pd, pu⟩, hmem, heq⟩
    rcases hlook : getKey (snapshot journal) (pd, pu) with _ | rec
    · rw [hlook] at heq
      simp only [Option.some.injEq, Prod.mk.injEq] at heq
      obtain ⟨h1, h2, h3⟩ := heq
      subst h1; subst h2
      exact ⟨hmem, Or.inl ⟨hlook, h3.symm⟩⟩
    · rw [hlook] at heq
      by_cases hds : rec.status = "done" ∨ rec.status = "skipped"
      · simp [hds] at heq
      · by_cases herr : rec.status = "error" ∧ cap ≤ rec.tryCount
        · simp [hds, herr] at heq
        · simp only [hds, if_false, herr, Option.some.injEq, Prod.mk.injEq] at heq
          obtain ⟨h1, h2, h3⟩ := heq
          subst h1; subst h2
          exact ⟨hmem, Or.inr ⟨rec, hlook, hds, herr, h3.symm⟩⟩
  · rintro ⟨hmem, hcase⟩
    refine ⟨(d, u), hmem, ?_⟩
    rcases hcase with ⟨hlook, ht⟩ | ⟨rec, hlook, h1, h2, ht⟩
    · rw [hlook]; simp [ht]
    · rw [hlook]; simp [h1, h2, ht]

end JsonlProgress

open JsonlProgress in
/-- C8: On resume, for every `(db, unid)` pair in the input set, replaying the
journal yields: pairs whose latest record has status `done` are not attempted;
pairs whose latest record has status `error` with a try value below the retry
cap are attempted again with attempt number `try + 1`; pairs with status
`error` at or above the cap are not attempted; untouched pairs are attempted
starting at attempt 1. -/
theorem claim_C8_resume_replay
    (journal : List JRecord) (pairs : List (String × String)) (cap : Nat)
    (d u : String) (hmem : (d, u) ∈ pairs) :
    ((∃ r, getKey (snapshot journal) (d, u) = some r ∧ r.status = "done") →
       ∀ n, (d, u, n) ∉ run_unified_attempts journal pairs cap) ∧
    (∀ r, getKey (snapshot journal) (d, u) = some r → r.status = "error" →
       r.tryCount < cap →
       (d, u, r.tryCount + 1) ∈ run_unified_attempts journal pairs cap) ∧
    (∀ r, getKey (snapshot journal) (d, u) = some r → r.status = "error" →
       cap ≤ r.tryCount →
       ∀ n, (d, u, n) ∉ run_unified_attempts journal pairs cap) ∧
    (getKey (snapshot journal) (d, u) = none →
       (d, u, 1) ∈ run_unified_attempts journal pairs cap) := by
  refine ⟨?_, ?_, ?_, ?_⟩
  · rintro ⟨r, hlook, hdone⟩ n hn
    rw [run_unified_attempts, List.mem_map] at hn
    obtain ⟨⟨d', u', t'⟩, hmemr, heq⟩ := hn
    simp only [Prod.mk.injEq] at heq
    obtain ⟨h1, h2, _⟩ := heq
    subst h1; subst h2
    rw [mem_remaining_iff] at hmemr
    rcases hmemr.2 with ⟨hnone, _⟩ | ⟨rec, hsome, hnds, _, _⟩
    · rw [hlook] at hnone; exact Option.noConfusion hnone
    · rw [hlook] at hsome
      obtain rfl : r = rec := Option.some.inj hsome
      exact hnds (Or.inl hdone)
  · intro r hlook herr hlt
    rw [run_unified_attempts, List.mem_map]
    refine ⟨(d, u, r.tryCount), ?_, rfl⟩
    rw [mem_remaining_iff]
    refine ⟨hmem, Or.inr ⟨r, hlook, ?_, ?_, rfl⟩⟩
    · rintro (h | h) <;> simp [herr] at h
    · rintro ⟨_, hle⟩; omega
  · intro r hlook herr hge n hn
    rw [run_unified_attempts, List.mem_map] at hn
    obtain ⟨⟨d', u', t'⟩, hmemr, heq⟩ := hn
    simp only [Prod.mk.injEq] at heq
    obtain ⟨h1, h2, _⟩ := heq
    subst h1; subst h2
    rw [mem_remaining_iff] at hmemr
    rcases hmemr.2 with ⟨hnone, _⟩ | ⟨rec, hsome, _, hnerr, _⟩
    · rw [hlook] at hnone; exact Option.noConfusion hnone
    · rw [hlook] at hsome
      obtain rfl : r = rec := Option.some.inj hsome
      exact hnerr ⟨herr, hge⟩
  · intro hnone
    rw [run_unified_attempts, List.mem_map]
    refine ⟨(d, u, 0), ?_, rfl⟩
    rw [mem_remaining_iff]
    exact ⟨hmem, Or.inl ⟨hnone, rfl⟩⟩

open JsonlProgress in
/-- C8 witness: with a journal containing `{db: D, unid: U, status: error,
try: 2}` and `{db: D, unid: V, status: done}`, a re-run with retry cap 3
processes U as attempt 3 and skips V. -/
theorem claim_C8_resume_replay_witness :
    ("D", "U", 3) ∈ run_unified_attempts
        [⟨"D", "U", "error", 2⟩, ⟨"D", "V", "done", 1⟩] [("D", "U"), ("D", "V")] 3 ∧
    ∀ n, ("D", "V", n) ∉ run_unified_attempts
        [⟨"D", "U", "error", 2⟩, ⟨"D", "V", "done", 1⟩] [("D", "U"), ("D", "V")] 3 := by
  have hU := claim_C8_resume_replay
    [⟨"D", "U", "error", 2⟩, ⟨"D", "V", "done", 1⟩] [("D", "U"), ("D", "V")] 3
    "D" "U" (by decide)
  have hV := claim_C8_resume_replay
    [⟨"D", "U", "error", 2⟩, ⟨"D", "V", "done", 1⟩] [("D", "U"), ("D", "V")] 3
    "D" "V" (by decide)
  constructor
  · exact hU.2.1 ⟨"D", "U", "error", 2⟩ (by decide) rfl (by decide)
  · exact hV.1 ⟨⟨"D", "V", "done", 1⟩, by decide, rfl⟩

open JsonlProgress in
/-- C9: a pair whose latest journal record has status `processing` is yielded
for re-processing with its recorded try count regardless of the retry cap;
the cap cutoff applies only to `error` records (any status outside
done/skipped/error is yielded regardless of the cap), and `skipped` is
treated like `done` (never re-attempted). -/
theorem claim_C9_processing_resume
    (journal : List JRecord) (pairs : List (String × String)) (cap : Nat)
    (d u : String) (hmem : (d, u) ∈ pairs) :
    (∀ r, getKey (snapshot journal) (d, u) = some r → r.status = "processing" →
       (d, u, r.tryCount) ∈ remaining_unids journal pairs cap) ∧
    (∀ r, getKey (snapshot journal) (d, u) = some r →
       r.status ≠ "done" → r.status ≠ "skipped" → r.status ≠ "error" →
       (d, u, r.tryCount) ∈ remaining_unids journal pairs cap) ∧
    (∀ r, getKey (snapshot journal) (d, u) = some r → r.status = "skipped" →
       ∀ n, (d, u, n) ∉ remaining_unids journal pairs cap) := by
  have hyield : ∀ r, getKey (snapshot journal) (d, u) = some r →
      r.status ≠ "done" → r.status ≠ "skipped" → r.status ≠ "error" →
      (d, u, r.tryCount) ∈ remaining_unids journal pairs cap := by
    intro r hlook h1 h2 h3
    rw [mem_remaining_iff]
    refine ⟨hmem, Or.inr ⟨r, hlook, ?_, ?_, rfl⟩⟩
    · rintro (h | h) <;> [exact h1 h; exact h2 h]
    · rintro ⟨h, _⟩; exact h3 h
  refine ⟨?_, hyield, ?_⟩
  · intro r hlook hproc
    exact hyield r hlook (by simp [hproc]) (by simp [hproc]) (by simp [hproc])
  · intro r hlook hskip n hn
    rw [mem_remaining_iff] at hn
    rcases hn.2 with ⟨hnone, _⟩ | ⟨rec, hsome, hnds, _, _⟩
    · rw [hlook] at hnone; exact Option.noConfusion hnone
    · rw [hlook] at hsome
      obtain rfl : r = rec := Option.some.inj hsome
      exact hnds (Or.inr hskip)

open JsonlProgress in
/-- C9 witness: a `processing` record with try 5 is re-yielded with try 5 even
under retry cap 3, and a `skipped` record is never re-attempted. -/
theorem claim_C9_processing_resume_witness :
    ("D", "U", 5) ∈ remaining_unids [⟨"D", "U", "processing", 5⟩] [("D", "U")] 3 ∧
    ∀ n, ("D", "W", n) ∉ remaining_unids [⟨"D", "W", "skipped", 0⟩] [("D", "W")] 3 := by
  constructor
  · exact (claim_C9_processing_resume [⟨"D", "U", "processing", 5⟩] [("D", "U")] 3
      "D" "U" (by decide)).1 ⟨"D", "U", "processing", 5⟩ (by decide) rfl
  · exact (claim_C9_processing_resume [⟨"D", "W", "skipped", 0⟩] [("D", "W")] 3
      "D" "W" (by decide)).2.2 ⟨"D", "W", "skipped", 0⟩ (by decide) rfl

/-! ## The normalized IR data model (`src/core/dxl/parser.py`, §3 of the spec)

Python style dicts `{"s": [...], "a": {...}}` become `Style`; attribute
values are strings except the `fx` list.  Paragraph attributes (from
`_collect_pardefs`) always use the fixed key set
align/leftmargin/spaceafter/parstyle/list with never-falsy values, so a
structure of `Option`s models dict equality faithfully. -/

/-- A value in a style's `a` dict: a string, or a list of strings (`fx`). -/
inductive AttrVal where
  | str (v : String)
  | lst (v : List String)
  deriving Repr, DecidableEq

/-- Insertion-ordered attribute dict with unique keys. -/
abbrev AttrMap := List (String × AttrVal)

/-- `{"s": [...], "a": {...}}` style dict; both keys optional in Python,
modelled as possibly-empty components. -/
structure Style where
  s : List String := []
  a : AttrMap := []
  deriving Repr, DecidableEq

/-- The `list` entry of a pardef (`{"type": mapped, "raw": raw}`). -/
structure ListAttr where
  ty : String
  raw : String
  deriving Repr, DecidableEq

/-- Paragraph attributes collected by `_collect_pardefs`; values are never
empty strings (each is guarded by a truthiness check in the source), so
structure equality coincides with Python dict equality. -/
structure ParAttrs where
  align : Option String := none
  leftmargin : Option String := none
  spaceafter : Option String := none
  parstyle : Option String := none
  list : Option ListAttr := none
  deriving Repr, DecidableEq

/-- `{}` — the empty paragraph-attribute dict. -/
def ParAttrs.empty : ParAttrs := {}

mutual

/-- Run tokens (§3 "Run tokens", and the emitters of `RichTextParser`).
`img.src` and `attref.content_path` start absent and are filled by the
attachment extractor.  Table rows/cells and section bodies nest runs. -/
inductive Run where
  | par (a : ParAttrs)
  | text (text : String) (s : List String) (a : AttrMap)
  | link (href : String) (label : String) (s : List String) (a : AttrMap)
      (notes : List (String × String))
  | img (alt : String) (src : Option String)
  | attref (name : String) (displayname : String) (s : List String) (a : AttrMap)
      (content_path : Option String)
  | table (rows : List TableRow) (attributes : List (String × String))
      (columns : List (List (String × String)))
  | sect (title_runs : List Run) (body_runs : List Run)
      (attributes : List (String × String))
  | hr (a : List (String × String))
  | br

/-- A table row: `{"attributes": {...}, "cells": [...]}`. -/
inductive TableRow where
  | mk (attributes : List (String × String)) (cells : List TableCell)

/-- A table cell: colspan/rowspan promoted, a style dict, nested runs. -/
inductive TableCell where
  | mk (colspan : Option Int) (rowspan : Option Int)
      (style : List (String × String)) (runs : List Run)

end

/-! ## Render visitor base (`src/core/render/common.py`) -/

/-- `RenderContext.list_state` (`{"level": 0, "type": None}`, with `raw`
added when a list is active). -/
structure ListRState where
  level : Nat := 0
  ty : Option String := none
  raw : Option String := none
  deriving Repr, DecidableEq

/-- `RenderContext`: paragraph style, character-style stack (with a bottom
entry), list state and the `paragraph_started` flag. -/
structure RenderContext where
  current_par_style : ParAttrs := {}
  char_style_stack : List Style := [{}]
  list_state : ListRState := {}
  paragraph_started : Bool := false

/-- `RenderContext.update_par_style`: set the paragraph style and derive the
list state from its `list` entry. -/
def RenderContext.update_par_style (c : RenderContext) (p : ParAttrs) :
    RenderContext :=
  match p.list with
  | some li =>
      { c with current_par_style := p,
               list_state := { level := 1, ty := some li.ty, raw := some li.raw } }
  | none =>
      { c with current_par_style := p,
               list_state := { level := 0, ty := none, raw := none } }

/-- The abstract operations a concrete renderer implements
(`BaseRenderer`'s abstract methods plus `_init_output`/`get_output`), acting
on the renderer's output state `σ` together with the shared
`RenderContext`. -/
structure RendererOps (σ Out : Type) where
  init_output : σ
  get_output : σ → Out
  render_header : σ × RenderContext → σ × RenderContext
  render_footer : σ × RenderContext → σ × RenderContext
  render_appendix : σ × RenderContext → σ × RenderContext
  start_paragraph : ParAttrs → σ × RenderContext → σ × RenderContext
  finalize_paragraph : σ × RenderContext → σ × RenderContext
  ensure_paragraph_started : σ × RenderContext → σ × RenderContext
  handle_text : Run → σ × RenderContext → σ × RenderContext
  handle_link : Run → σ × RenderContext → σ × RenderContext
  handle_img : Run → σ × RenderContext → σ × RenderContext
  handle_table : Run → σ × RenderContext → σ × RenderContext
  handle_attachmentref : Run → σ × RenderContext → σ × RenderContext
  handle_br : Run → σ × RenderContext → σ × RenderContext
  handle_unknown : Run → σ × RenderContext → σ × RenderContext

variable {σ Out : Type}

/-- One iteration of the `_process_runs` loop body. -/
def process_one_run (R : RendererOps σ Out) (st : σ × RenderContext) (run : Run) :
    σ × RenderContext :=
  match run with
  | .par a =>
      let st := R.finalize_paragraph st
      let st := (st.1, st.2.update_par_style a)
      let st := R.start_paragraph a st
      (st.1, { st.2 with paragraph_started := true })
  | _ =>
      let st := R.ensure_paragraph_started st
      match run with
      | .text _ _ _ => R.handle_text run st
      | .link _ _ _ _ _ => R.handle_link run st
      | .img _ _ => R.handle_img run st
      | .table _ _ _ =>
          let st := R.finalize_paragraph st
          let st := R.handle_table run st
          let st := (st.1, st.2.update_par_style {})
          (st.1, { st.2 with paragraph_started := false })
      | .attref _ _ _ _ _ => R.handle_attachmentref run st
      | .br => R.handle_br run st
      -- "hr" and "section" are not dispatched by `BaseRenderer._process_runs`
      -- and fall through to `_handle_unknown`.
      | _ => R.handle_unknown run st

/-- `BaseRenderer._process_runs`: walk the runs, dispatching per token type;
an empty list still ensures and finalizes a default paragraph; a final
`finalize_paragraph` closes the last block. -/
def process_runs (R : RendererOps σ Out) (runs : List Run)
    (st : σ × RenderContext) : σ × RenderContext :=
  if runs.isEmpty then
    R.finalize_paragraph (R.ensure_paragraph_started st)
  else
    R.finalize_paragraph (runs.foldl (process_one_run R) st)

/-- The body runs the renderer processes:
`doc.get("fields", {}).get("Body", {}).get("runs", [])`. -/
def bodyRunsOf (fields : List (String × List Run)) : List Run :=
  match fields.lookup "Body" with
  | some runs => runs
  | none => []

/-- `BaseRenderer.render`: header, body runs, footer, appendix, output.
The renderer state starts from `_init_output` and a fresh `RenderContext`
(as set up in `BaseRenderer.__init__`). -/
def render (R : RendererOps σ Out) (fields : List (String × List Run)) : Out :=
  let st := (R.init_output, ({} : RenderContext))
  let st := R.render_header st
  let st := process_runs R (bodyRunsOf fields) st
  let st := R.render_footer st
  let st := R.render_appendix st
  R.get_output st.1

/-- Modelled from the spec (§4.5): the lifecycle order the claim asserts —
*render_header*, then `process_runs` over the body runs, then
*render_appendix*, then *render_footer*, returning *get_output*. -/
def render_spec_order (R : RendererOps σ Out)
    (fields : List (String × List Run)) : Out :=
  let st := (R.init_output, ({} : RenderContext))
  let st := R.render_header st
  let st := process_runs R (bodyRunsOf fields) st
  let st := R.render_appendix st
  let st := R.render_footer st
  R.get_output st.1

/-- A renderer instance that records the sequence of lifecycle calls:
each operation appends its name to the output, leaving the context alone. -/
def traceOps : RendererOps (List String) (List String) where
  init_output := []
  get_output := id
  render_header := fun st => (st.1 ++ ["render_header"], st.2)
  render_footer := fun st => (st.1 ++ ["render_footer"], st.2)
  render_appendix := fun st => (st.1 ++ ["render_appendix"], st.2)
  start_paragraph := fun _ st => (st.1 ++ ["start_paragraph"], st.2)
  finalize_paragraph := fun st => (st.1 ++ ["finalize_paragraph"], st.2)
  ensure_paragraph_started := fun st => (st.1 ++ ["ensure_paragraph_started"], st.2)
  handle_text := fun _ st => (st.1 ++ ["handle_text"], st.2)
  handle_link := fun _ st => (st.1 ++ ["handle_link"], st.2)
  handle_img := fun _ st => (st.1 ++ ["handle_img"], st.2)
  handle_table := fun _ st => (st.1 ++ ["handle_table"], st.2)
  handle_attachmentref := fun _ st => (st.1 ++ ["handle_attachmentref"], st.2)
  handle_br := fun _ st => (st.1 ++ ["handle_br"], st.2)
  handle_unknown := fun _ st => (st.1 ++ ["handle_unknown"], st.2)

/-- The per-run trace of the `_process_runs` loop under `traceOps`. -/
def runTrace (run : Run) : List String :=
  match run with
  | .par _ => ["finalize_paragraph", "start_paragraph"]
  | .text _ _ _ => ["ensure_paragraph_started", "handle_text"]
  | .link _ _ _ _ _ => ["ensure_paragraph_started", "handle_link"]
  | .img _ _ => ["ensure_paragraph_started", "handle_img"]
  | .table _ _ _ => ["ensure_paragraph_started", "finalize_paragraph", "handle_table"]
  | .attref _ _ _ _ _ => ["ensure_paragraph_started", "handle_attachmentref"]
  | .br => ["ensure_paragraph_started", "handle_br"]
  | _ => ["ensure_paragraph_started", "handle_unknown"]

/-- The trace of `process_runs` under `traceOps`. -/
def runsTrace (runs : List Run) : List String :=
  if runs.isEmpty then ["ensure_paragraph_started", "finalize_paragraph"]
  else (runs.flatMap runTrace) ++ ["finalize_paragraph"]

theorem process_one_run_traceOps (st : List String × RenderContext) (run : Run) :
    (process_one_run traceOps st run).1 = st.1 ++ runTrace run := by
  cases run <;> simp [process_one_run, traceOps, runTrace]

theorem foldl_process_traceOps (runs : List Run) (st : List String × RenderContext) :
    (runs.foldl (process_one_run traceOps) st).1 = st.1 ++ runs.flatMap runTrace := by
  induction runs generalizing st with
  | nil => simp
  | cons hd tl ih =>
    rw [List.foldl_cons, ih]
    rw [List.flatMap_cons, ← List.append_assoc]
    congr 1
    exact process_one_run_traceOps st hd

theorem process_runs_traceOps (runs : List Run) (st : List String × RenderContext) :
    (process_runs traceOps runs st).1 = st.1 ++ runsTrace runs := by
  have hfin : ∀ x : List String × RenderContext,
      traceOps.finalize_paragraph x = (x.1 ++ ["finalize_paragraph"], x.2) :=
    fun _ => rfl
  by_cases h : runs.isEmpty
  · simp [process_runs, h, runsTrace, traceOps]
  · simp only [process_runs, runsTrace]
    rw [if_neg h, if_neg h, hfin]
    rw [foldl_process_traceOps]
    simp

/-- C4 (counterexample): the claimed lifecycle order — header, body runs,
*appendix*, then *footer* — is not the one `BaseRenderer.render` uses: on a
renderer that logs each lifecycle call and a document with an empty body,
`render` produces `render_footer` *before* `render_appendix`, differing from
the spec-order trace. -/
theorem claim_C4_render_order_counterexample :
    render traceOps [] =
      ["render_header", "ensure_paragraph_started", "finalize_paragraph",
       "render_footer", "render_appendix"] ∧
    render_spec_order traceOps [] =
      ["render_header", "ensure_paragraph_started", "finalize_paragraph",
       "render_appendix", "render_footer"] ∧
    render traceOps [] ≠ render_spec_order traceOps [] := by
  refine ⟨rfl, rfl, ?_⟩
  decide

/-- C4 (amended): for every renderer and every document, `render()` invokes
the visitor lifecycle in the order: `render_header`, then `process_runs`
over the body runs, then `render_footer`, then `render_appendix`, and
returns `get_output`; witnessed by the call-logging renderer, whose output
is exactly that call sequence for every document. -/
theorem claim_C4_render_lifecycle (fields : List (String × List Run)) :
    render traceOps fields =
      ["render_header"] ++ runsTrace (bodyRunsOf fields) ++
        ["render_footer", "render_appendix"] := by
  show (traceOps.render_appendix (traceOps.render_footer
      (process_runs traceOps (bodyRunsOf fields)
        (traceOps.render_header (traceOps.init_output, {}))))).1 = _
  have h1 : traceOps.render_header (traceOps.init_output, ({} : RenderContext)) =
      (["render_header"], {}) := rfl
  rw [h1]
  have h2 := process_runs_traceOps (bodyRunsOf fields) (["render_header"], {})
  have h3 : ∀ x : List String × RenderContext,
      (traceOps.render_appendix (traceOps.render_footer x)).1 =
        x.1 ++ ["render_footer", "render_appendix"] := fun x => by
    show (x.1 ++ ["render_footer"]) ++ ["render_appendix"] = _
    simp
  rw [h3]
  rw [h2]

/-! ## String and path utilities

Models of the Python string/path primitives the pipeline uses:
`str.strip`, `pathlib.PurePath.name/stem/suffix`, `os.path.splitext`.
Python's `str.strip()` whitespace set is modelled by its ASCII members
(space, `\t`, `\n`, `\r`, `\v`, `\f`); no claim involves non-ASCII
whitespace. -/

/-- Structural split of a character list on a separator character
(used instead of `String.splitOn`, whose well-founded recursion does not
reduce definitionally). -/
def splitOnChar (sep : Char) : List Char → List (List Char)
  | [] => [[]]
  | c :: rest =>
    match splitOnChar sep rest with
    | [] => if c = sep then [[], [c]] else [[c]]  -- unreachable: result is never []
    | h :: t => if c = sep then [] :: h :: t else (c :: h) :: t

/-- `str.lower()` (ASCII, via `Char.toLower`). -/
def pyLower (s : String) : String := ⟨s.data.map Char.toLower⟩

/-- ASCII whitespace as stripped by Python's `str.strip()`. -/
def isPyWs (c : Char) : Bool :=
  c = ' ' ∨ c = '\t' ∨ c = '\n' ∨ c = '\r' ∨ c.val = 11 ∨ c.val = 12

/-- Drop trailing characters satisfying `p`. -/
def dropTrailing (p : Char → Bool) (l : List Char) : List Char :=
  (l.reverse.dropWhile p).reverse

/-- `s.strip(chars)` on an explicit character predicate. -/
def pyStripWith (p : Char → Bool) (s : String) : String :=
  ⟨dropTrailing p (s.toList.dropWhile p)⟩

/-- Python `s.strip()`. -/
def pyStrip (s : String) : String := pyStripWith isPyWs s

/-- The last `/`-separated component (`pathlib.PurePosixPath(s).name` for the
paths this code builds). -/
def pathName (s : String) : String :=
  match (splitOnChar '/' s.data).getLast? with
  | some n => ⟨n⟩
  | none => s

/-- `pathlib` suffix rule: the part of the name from its last dot, provided
that dot is neither the first nor the last character of the name. -/
def pathSuffix (s : String) : String :=
  let n := (pathName s).toList
  match (n.reverse.takeWhile (· ≠ '.')).length with
  | 0 => ""  -- name ends in '.' (or is empty): no suffix
  | k =>
    if k = n.length then ""  -- no dot at all
    else if k = n.length - 1 then ""  -- the only dot is the leading char
    else ⟨n.drop (n.length - k - 1)⟩

/-- `pathlib` stem: the name with `pathSuffix` removed. -/
def pathStem (s : String) : String :=
  let n := pathName s
  ⟨n.toList.take (n.length - (pathSuffix s).length)⟩

/-- `os.path.splitext` (for names without directory separators): split at the
last dot provided some earlier character of the name is not a dot. -/
def splitext (s : String) : String × String :=
  let l := s.toList
  let ext := l.reverse.takeWhile (· ≠ '.')
  if ext.length = l.length then (s, "")  -- no dot
  else
    let stemLen := l.length - ext.length - 1
    if (l.take stemLen).all (· = '.') then (s, "")
    else (⟨l.take stemLen⟩, ⟨l.drop stemLen⟩)

/-- `_strip_seq_suffix` (src/core/attachments.py): remove a `.NNN`
(three-digit) suffix sitting immediately before the extension. -/
def strip_seq_suffix (fname : String) : String :=
  let stem := (pathStem fname).toList
  let suf := pathSuffix fname
  -- regex ^(.+?)\.(\d{3})$ on the stem: it matches iff the stem ends with a
  -- dot followed by exactly three digits, with a nonempty base before them.
  if stem.length ≥ 5 ∧ (stem.drop (stem.length - 4)).head? = some '.' ∧
      (stem.drop (stem.length - 3)).all (·.isDigit) then
    ⟨stem.take (stem.length - 4)⟩ ++ suf
  else fname

/-- The characters `_sanitize_filename` replaces: `<>:"/\|?*`, space, newline,
carriage return, tab, and all of U+0000..U+001F. -/
def isBadFilenameChar (c : Char) : Bool :=
  c = '<' ∨ c = '>' ∨ c = ':' ∨ c = '"' ∨ c = '/' ∨ c = '\\' ∨ c = '|' ∨
  c = '?' ∨ c = '*' ∨ c = ' ' ∨ c = '\n' ∨ c = '\r' ∨ c = '\t' ∨ c.val < 32

/-- `_sanitize_filename` (src/core/attachments.py): replace forbidden
characters with `_`, strip ``' ._'`` from both ends, collapse `_` runs,
truncate to `max_length` preserving the extension, fall back to
`"_sanitized_"`. -/
def sanitize_filename (filename : String) (max_length : Nat := 200) : String :=
  if filename = "" then "_no_name_"
  else
    let replaced : String := ⟨filename.toList.map (fun c => if isBadFilenameChar c then '_' else c)⟩
    let stripped := pyStripWith (fun c => c = ' ' ∨ c = '.' ∨ c = '_') replaced
    let collapsed :=
      if stripped = "" then stripped
      else String.intercalate "_"
        (((splitOnChar '_' stripped.data).map (fun l => (⟨l⟩ : String))).filter (· ≠ ""))
    let truncated :=
      if collapsed.length > max_length then
        let (namePart, extPart) := splitext collapsed
        let allowed : Int := (max_length : Int) - extPart.length
        if allowed < 1 then ⟨collapsed.toList.take max_length⟩
        else
          let np : String := ⟨dropTrailing (· = '_') (namePart.toList.take allowed.toNat)⟩
          np ++ extPart
      else collapsed
    if truncated = "" then "_sanitized_" else truncated

/-- `_sanitize_xml_text` (src/core/attachments.py): remove the XML-1.0
forbidden C0 control characters `U+0000..U+0008, U+000B, U+000C,
U+000E..U+001F`. -/
def forbiddenC0 (c : Char) : Bool :=
  c.val ≤ 8 ∨ c.val = 11 ∨ c.val = 12 ∨ (14 ≤ c.val ∧ c.val ≤ 31)

def sanitize_xml_text (s : String) : String :=
  ⟨s.toList.filter (fun c => ¬ forbiddenC0 c)⟩

/-! ## Bytes and base64 -/

/-- File contents: a list of byte values. -/
abbrev Bytes := List Nat

/-- Value of a base64 alphabet character. -/
def b64Val (c : Char) : Option Nat :=
  if 'A' ≤ c ∧ c ≤ 'Z' then some (c.toNat - 'A'.toNat)
  else if 'a' ≤ c ∧ c ≤ 'z' then some (c.toNat - 'a'.toNat + 26)
  else if '0' ≤ c ∧ c ≤ '9' then some (c.toNat - '0'.toNat + 52)
  else if c = '+' then some 62
  else if c = '/' then some 63
  else none

/-- Decode one 4-character base64 group (with optional trailing padding). -/
def b64Group (a b : Char) (c d : Char) : Option Bytes := do
  let va ← b64Val a
  let vb ← b64Val b
  if c = '=' ∧ d = '=' then
    some [(va <<< 2) + (vb >>> 4)]
  else do
    let vc ← b64Val c
    if d = '=' then
      some [(va <<< 2) + (vb >>> 4), ((vb % 16) <<< 4) + (vc >>> 2)]
    else do
      let vd ← b64Val d
      some [(va <<< 2) + (vb >>> 4), ((vb % 16) <<< 4) + (vc >>> 2),
            ((vc % 4) <<< 6) + vd]

/-- Decode a list of base64 characters, 4 at a time; padding groups must be
final. -/
def b64Chunks : List Char → Option Bytes
  | [] => some []
  | a :: b :: c :: d :: rest => do
    let g ← b64Group a b c d
    if rest.isEmpty then
      some g
    else if g.length = 3 then do
      let r ← b64Chunks rest
      some (g ++ r)
    else none  -- padding before the final group
  | _ => none

/-- `base64.b64decode`: characters outside the alphabet (and `=`) are
discarded; the remaining length must be a multiple of 4; malformed input
yields `none` (`binascii.Error` in Python). -/
def b64decode (s : String) : Option Bytes :=
  b64Chunks (s.toList.filter (fun c => (b64Val c).isSome ∨ c = '='))

/-! ## XML model (`xml.etree.ElementTree` as used by this code)

An element has a tag (namespaces are uniform in DXL and dropped here),
attributes, the text before its first child, and children each carrying
their tail text — exactly ElementTree's data model. -/

inductive Xml where
  | mk (tag : String) (attrs : List (String × String)) (text : Option String)
       (children : List (Xml × Option String))

namespace Xml

def tag : Xml → String
  | .mk t _ _ _ => t

def attrs : Xml → List (String × String)
  | .mk _ a _ _ => a

def text : Xml → Option String
  | .mk _ _ t _ => t

def children : Xml → List (Xml × Option String)
  | .mk _ _ _ c => c

/-- `el.get(name)`. -/
def get (el : Xml) (name : String) : Option String :=
  el.attrs.lookup name

/-- `el.get(name, default)`. -/
def getD (el : Xml) (name default : String) : String :=
  (el.get name).getD default

/-- Direct child elements, in order (`list(el)`). -/
def childEls (el : Xml) : List Xml := el.children.map Prod.fst

end Xml

mutual

/-- All strict descendants of `el`, in document (preorder) order — the
element sequence of `el.iterfind(".//tag")` before tag filtering. -/
def descendants : Xml → List Xml
  | .mk _ _ _ children => descendantsGo children

def descendantsGo : List (Xml × Option String) → List Xml
  | [] => []
  | (c, _) :: rest => c :: (descendants c ++ descendantsGo rest)

end

/-- `root.iterfind(f".//{tag}")` / `root.findall(f".//{tag}")`. -/
def findAllDesc (el : Xml) (tag : String) : List Xml :=
  (descendants el).filter (fun d => d.tag = tag)

/-- `el.find(f"./{tag}")`: first direct child with the tag. -/
def findDirect (el : Xml) (tag : String) : Option Xml :=
  el.childEls.find? (fun c => c.tag = tag)

/-- `el.findall(f"./{tag}")`. -/
def findAllDirect (el : Xml) (tag : String) : List Xml :=
  el.childEls.filter (fun c => c.tag = tag)

mutual

/-- `"".join(el.itertext())`: all text and tails inside `el`, in order. -/
def itertext : Xml → String
  | .mk _ _ text children => (text.getD "") ++ itertextGo children

def itertextGo : List (Xml × Option String) → String
  | [] => ""
  | (c, tl) :: rest => itertext c ++ (tl.getD "") ++ itertextGo rest

end

/-! ## Filesystem and hash model -/

/-- The filesystem: full path → contents, unique keys, threaded explicitly.
Modification times (`os.utime` in `_set_file_timestamp`) are not modelled;
no claim reads them. -/
abbrev FS := List (String × Bytes)

def fsRead (fs : FS) (p : String) : Option Bytes := fs.lookup p

def fsExists (fs : FS) (p : String) : Bool := (fsRead fs p).isSome

/-- Write (create or overwrite) a file. -/
def fsSet (fs : FS) (p : String) (b : Bytes) : FS :=
  match fs with
  | [] => [(p, b)]
  | (q, c) :: rest => if q = p then (p, b) :: rest else (q, c) :: fsSet rest p b

/-- Remove a file. -/
def fsDel (fs : FS) (p : String) : FS := fs.filter (fun e => e.1 ≠ p)

def pathJoin (dir name : String) : String := dir ++ "/" ++ name

/-- Write-to-temp-then-rename (`tmp.write_bytes(data); tmp.replace(target)`). -/
def atomicWrite (fs : FS) (dir name : String) (data : Bytes) : FS :=
  let tmp := pathJoin dir (name ++ ".tmp")
  fsSet (fsDel (fsSet fs tmp data) tmp) (pathJoin dir name) data

/-- The cryptographic hash functions, as parameters: `hashlib.blake2b` and
`hashlib.sha256` hexdigests.  Theorems needing hashes to separate different
contents state injectivity explicitly. -/
structure HashModel where
  blake2b : Bytes → String
  sha256 : Bytes → String

/-- `FIRST_N = 1 * 1024 * 1024` — the first-MiB prefilter size. -/
def FIRST_N : Nat := 1048576

/-- `_firstN_hash_bytes`: SHA-256 of the first `n` bytes. -/
def firstN_hash_bytes (H : HashModel) (data : Bytes) (n : Nat) : String :=
  H.sha256 (data.take n)

/-- `_same_by_chain`: the three-stage identity test against an existing file
(size, first-MiB SHA-256, full BLAKE2b); a missing file compares unequal. -/
def same_by_chain (H : HashModel) (fs : FS) (existing : String) (size : Nat)
    (first1_hash full_b2b : String) : Bool :=
  match fsRead fs existing with
  | none => false
  | some content =>
    if content.length ≠ size then false
    else if firstN_hash_bytes H content FIRST_N ≠ first1_hash then false
    else if H.blake2b content ≠ full_b2b then false
    else true

/-- The digest record `_decide_and_maybe_write` computes (returned to the
caller, which ignores it). -/
structure DigestMeta where
  size : Nat
  first1_sha256 : String
  b2b : String
  sha256 : String
  deriving Repr, DecidableEq

/-- The `while True` search in `_decide_and_maybe_write`'s collision branch:
the first `n ≥ start` whose slot name `stem_n ext` is free.  `fs.length + 1`
steps of fuel always suffice (pigeonhole; see `find_free_slot_spec`). -/
def find_free_slot (fs : FS) (dir stem ext : String) : Nat → Nat → Nat
  | 0, n => n
  | fuel + 1, n =>
    if fsExists fs (pathJoin dir (stem ++ "_" ++ toString n ++ ext)) then
      find_free_slot fs dir stem ext fuel (n + 1)
    else n

/-- `_decide_and_maybe_write` (src/core/attachments.py, lines 315–400):
decide whether to reuse an existing identical file, allocate a `_n` slot on
a content mismatch, or write fresh; writes go through a temp name plus
rename.  The manifest (`_load_manifest`) is disabled and always empty, so
the manifest-reuse step never fires.  Raising `ValueError` when neither
bytes nor a source path is given becomes `Except.error`. -/
def decide_and_maybe_write (H : HashModel) (fs : FS) (pretty_name out_dir : String)
    (data_bytes : Option Bytes) (source_path : Option String) :
    Except String (String × Bool × DigestMeta × FS) := do
  let pretty_safe := sanitize_filename pretty_name
  if data_bytes.isNone ∧ source_path.isNone then
    throw "data_bytes か source_path のどちらかは必須です"
  let data ← match data_bytes with
    | some d => pure d
    | none =>
      match fsRead fs (source_path.getD "") with
      | some d => pure d
      | none => throw "FileNotFoundError"  -- source_path.read_bytes() on a missing file
  let size := data.length
  let first1_sha := firstN_hash_bytes H data FIRST_N
  let b2b := H.blake2b data
  let sha := H.sha256 data
  let meta : DigestMeta := ⟨size, first1_sha, b2b, sha⟩
  let candidate := pathJoin out_dir pretty_safe
  if fsExists fs candidate then
    if same_by_chain H fs candidate size first1_sha b2b then
      pure (candidate, true, meta, fs)
    else
      let stem := pathStem pretty_safe
      let ext := pathSuffix pretty_safe
      let n := find_free_slot fs out_dir stem ext (fs.length + 1) 2
      let new_name := stem ++ "_" ++ toString n ++ ext
      pure (pathJoin out_dir new_name, false, meta, atomicWrite fs out_dir new_name data)
  else
    pure (candidate, false, meta, atomicWrite fs out_dir pretty_safe data)

/-! ## Attachment metadata -/

/-- The `ref` discriminator of an attachment entry. -/
structure RefInfo where
  element : String
  index : Option Nat := none
  name : Option String := none
  deriving Repr, DecidableEq

/-- One attachment-metadata dict.  `created`/`modified` (only used to set
file timestamps) are omitted; `Option.none` models an absent key. -/
structure AttMeta where
  name : Option String := none
  ty : String := "file"
  ref : RefInfo := { element := "file" }
  size : Int := 0
  content_path : Option String := none
  saved_name : Option String := none
  icon_path : Option String := none
  sha256 : Option String := none
  file_ext : Option String := none
  bytes_b64 : Option String := none
  raw_bytes : Option Bytes := none
  source_path : Option String := none
  extraction_error : Option String := none
  displayname : Option String := none
  deriving Repr, DecidableEq

/-- Python falsy-`or` on optional strings: `a or b` skips `None` and `""`. -/
def strOr (a b : Option String) : Option String :=
  match a with
  | some s => if s = "" then b else some s
  | none => b

/-- `att_meta.update(stored)`: keys present in `stored` overwrite; absent
keys (`none`) leave the base value. -/
def AttMeta.updateFrom (base upd : AttMeta) : AttMeta where
  name := upd.name.orElse (fun _ => base.name)
  ty := upd.ty
  ref := upd.ref
  size := upd.size
  content_path := upd.content_path.orElse (fun _ => base.content_path)
  saved_name := upd.saved_name.orElse (fun _ => base.saved_name)
  icon_path := upd.icon_path.orElse (fun _ => base.icon_path)
  sha256 := upd.sha256.orElse (fun _ => base.sha256)
  file_ext := upd.file_ext.orElse (fun _ => base.file_ext)
  bytes_b64 := upd.bytes_b64.orElse (fun _ => base.bytes_b64)
  raw_bytes := upd.raw_bytes.orElse (fun _ => base.raw_bytes)
  source_path := upd.source_path.orElse (fun _ => base.source_path)
  extraction_error := upd.extraction_error.orElse (fun _ => base.extraction_error)
  displayname := upd.displayname.orElse (fun _ => base.displayname)

/-- Association-list update (`m[k] = v`, last assignment wins on lookup). -/
def setAssoc {α : Type} (m : List (String × α)) (k : String) (v : α) :
    List (String × α) :=
  match m with
  | [] => [(k, v)]
  | (k', v') :: rest => if k' = k then (k, v) :: rest else (k', v') :: setAssoc rest k v

/-- The processed-attachment map (`meta_name → updated meta`). -/
abbrev PMap := List (String × AttMeta)

/-- Step 3 of `extract_and_save` (lines 549–573): locate the payload bytes —
base64 wins (a failed decode does not fall through to `raw_bytes`), then raw
bytes, then a non-empty source file; a 0-byte payload is nulled. -/
def payload_of (fs : FS) (att : AttMeta) : Option Bytes × Option String :=
  let p : Option Bytes × Option String :=
    match att.bytes_b64 with
    | some b64 =>
      if b64 ≠ "" then (b64decode b64, none)
      else (none, none)
    | none =>
      match att.raw_bytes with
      | some raw => if raw.length > 0 then (some raw, none) else (none, none)
      | none =>
        match att.source_path with
        | some s =>
          if s ≠ "" then
            match fsRead fs s with
            | some content => if content.length > 0 then (none, some s) else (none, none)
            | none => (none, none)
          else (none, none)
        | none => (none, none)
  if p.1 = some [] then (none, p.2) else p

/-- `extract_and_save` (src/core/attachments.py, lines 494–660): decide the
desired on-disk name (displayname over `$FILE` name, extension repair,
`.NNN` strip, sanitize), run the dedup chain, and fill
`content_path`/`saved_name`.  The unused `used_saved_names` parameter is
dropped.  Timestamp setting is not modelled. -/
def extract_and_save (H : HashModel) (att : AttMeta)
    (attachment_output_dir : String) (fs : FS) (pm : PMap)
    (displayname_map : List (String × String)) :
    Except String (AttMeta × FS × PMap) := do
  let meta_name := att.name
  -- 1) preferred name: displayname keyed by $FILE name, then by its
  -- `.NNN`-stripped variant
  let preferred0 : Option String :=
    match meta_name with
    | some n =>
      if n ≠ "" then
        strOr (displayname_map.lookup n)
          (displayname_map.lookup (strip_seq_suffix n))
      else none
    | none => none
  -- displayname without an extension inherits the original's
  let preferred : Option String :=
    match preferred0, meta_name with
    | some p, some n =>
      if p ≠ "" ∧ ¬ (pathName p).toList.contains '.' ∧ n ≠ "" then
        some (p ++ pathSuffix n)
      else some p
    | _, _ => preferred0
  let desired0 : String :=
    (strOr (strOr (strOr preferred meta_name) att.saved_name)
      (some "attachment")).getD "attachment"
  -- picture entries get the detected (or gif) extension
  let (desired, att) :=
    if att.ty = "image" ∧ att.ref.element = "picture" ∧ desired0 ≠ "" ∧
        ¬ (pathName desired0).toList.contains '.' then
      let ext := (strOr att.file_ext (some "gif")).getD "gif"
      let d := desired0 ++ "." ++ ext
      (d, { att with saved_name := some d })
    else (desired0, att)
  -- 2) strip .NNN, sanitize
  let pretty_safe := sanitize_filename (strip_seq_suffix desired)
  -- 3) locate payload bytes
  let payload := payload_of fs att
  -- 4) dedup chain decides the path (and may write)
  let (save_path, _reused, _dig, fs) ←
    decide_and_maybe_write H fs pretty_safe attachment_output_dir
      payload.1 payload.2
  let saved_name := pathName save_path
  -- already-processed shortcut
  let alreadyProcessed : Bool :=
    match meta_name with
    | some n => n ≠ "" ∧ (pm.lookup n).isSome ∧ fsExists fs save_path
    | none => false
  if alreadyProcessed then
    let stored := (pm.lookup (meta_name.getD "")).getD {}
    pure (att.updateFrom stored, fs, pm)
  else do
    -- fallback write cascade (only reachable if the dedup chain neither
    -- reused nor wrote, i.e. never after a successful decide)
    let (att, fs, wrote_missing) ←
      if ¬ fsExists fs save_path then do
        let wrote_data : Option Bytes :=
          match att.bytes_b64 with
          | some b64 =>
            if b64 ≠ "" then
              match b64decode b64 with
              | some d => if d.length > 0 then some d else none
              | none => none
            else none
          | none => none
        let wrote_data :=
          match wrote_data with
          | some d => some d
          | none =>
            match att.raw_bytes with
            | some raw => if raw.length > 0 then some raw else none
            | none => none
        let wrote_data :=
          match wrote_data with
          | some d => some d
          | none =>
            match att.source_path with
            | some s =>
              match fsRead fs s with
              | some content => if content.length > 0 then some content else none
              | none => none
            | none => none
        match wrote_data with
        | some d => pure (att, fsSet fs save_path d, false)
        | none =>
          let msg := "No non-empty data found (0KB file)."
          pure ({ att with extraction_error := some msg }, fs, true)
      else pure (att, fs, false)
    if wrote_missing then
      -- content_path is not set
      pure (att, fs, pm)
    else do
      let att := { att with
        content_path := some ("attachments/" ++ saved_name),
        saved_name := some saved_name }
      let pm :=
        match meta_name with
        | some n => if n ≠ "" then setAssoc pm n att else pm
        | none => pm
      pure (att, fs, pm)

/-! ## The NDoc (normalized IR) -/

/-- A typed field value (§3 "Field variants").  Datetime(-list) values are
carried as their already-normalised strings; the normalisation itself
(`_parse_dxl_datetime`) is only string formatting never read by a claim and
is not modelled. -/
inductive FieldData where
  | richtext (text : String) (runs : List Run)
  | scalar (ty : String) (value : String) (notes : Option String)
  | slist (ty : String) (value : List String)

/-- `meta` of an NDoc.  The `created`/`modified`/`revised` timestamps are
omitted (never read by a modelled computation). -/
structure NMeta where
  db_title : String := ""
  unid : Option String := none
  form : String := "Document"
  schema_version : String := ""
  error : Option String := none

/-- The normalized document. -/
structure NDoc where
  schema_version : String := ""
  meta : NMeta := {}
  fields : List (String × FieldData) := []
  attachments : List AttMeta := []
  links_notes : List (List (String × String)) := []
  links_http : List (List (String × String)) := []
  layout_primary : List String := []
  layout_used : List String := []

/-! ## Icons, finalization, and IR path rewriting -/

/-- `_GIF_PLACEHOLDER`: the fallback 1×1 transparent GIF. -/
def GIF_PLACEHOLDER : Bytes :=
  [71, 73, 70, 56, 57, 97, 1, 0, 1, 0, 128, 0, 0, 0, 0, 0,
   255, 255, 255, 33, 249, 4, 1, 0, 0, 0, 0, 44, 0, 0,
   0, 0, 1, 0, 1, 0, 0, 2, 2, 76, 1, 0, 59]

/-- `ICON_DIR_NAME = "icons"`. -/
def ICON_DIR_NAME : String := "icons"

/-- `(ext or "unknown").lstrip(".").lower()`. -/
def safe_ext_of (ext : String) : String :=
  pyLower ⟨(if ext = "" then "unknown" else ext).toList.dropWhile (· = '.')⟩

/-- `_ensure_extension_icon` (src/core/attachments.py, lines 119–172): write
the per-extension icon under `icon_root_dir` if missing (DXL-extracted bytes
if available, else the placeholder) and return the relative `icon_path`
according to the mode. -/
def ensure_extension_icon (ext : String) (icon_root_dir : String)
    (icon_path_mode : String) (ext_icon_b64_map : List (String × String))
    (fs : FS) : String × FS :=
  let safe_ext := safe_ext_of ext
  let physical := pathJoin icon_root_dir (safe_ext ++ ".gif")
  let fs :=
    if fsExists fs physical then fs
    else
      let icon_data : Option Bytes :=
        match ext_icon_b64_map.lookup safe_ext with
        | some b64 => b64decode b64
        | none => none
      -- `if not icon_data:` — a decode failure or empty bytes both fall back
      let icon_data :=
        match icon_data with
        | some d => if d.isEmpty then GIF_PLACEHOLDER else d
        | none => GIF_PLACEHOLDER
      fsSet fs physical icon_data
  let icon_rel_path :=
    if icon_path_mode = "shared" then ICON_DIR_NAME ++ "/" ++ safe_ext ++ ".gif"
    else "attachments/" ++ ICON_DIR_NAME ++ "/" ++ safe_ext ++ ".gif"
  (icon_rel_path, fs)

/-- `_finalize_attachment_meta` (src/core/attachments.py, lines 451–491):
strip transient payload fields and, when a saved file exists, record its
SHA-256 and refresh `size`. -/
def finalize_attachment_meta (H : HashModel) (att : AttMeta)
    (attachment_output_dir : String) (fs : FS) : AttMeta :=
  let att := { att with bytes_b64 := none, raw_bytes := none, source_path := none }
  match strOr att.content_path att.saved_name with
  | none => att
  | some cp =>
    let target := pathJoin attachment_output_dir (pathName cp)
    match fsRead fs target with
    | some content =>
      { att with sha256 := some (H.sha256 content), size := (content.length : Int) }
    | none => att

mutual

/-- `_collect_attachmentref_displaynames`'s walk, one run:
`(name, displayname-or-name)` pairs in walk order. -/
def attrefPairsRun : Run → List (String × String)
  | .attref name disp _ _ _ =>
    let d := if disp ≠ "" then disp else name
    if name ≠ "" ∧ d ≠ "" then [(name, d)] else []
  | .table rows _ _ => attrefPairsRows rows
  | .sect t b _ => attrefPairsList t ++ attrefPairsList b
  | _ => []

def attrefPairsList : List Run → List (String × String)
  | [] => []
  | r :: rest => attrefPairsRun r ++ attrefPairsList rest

def attrefPairsRows : List TableRow → List (String × String)
  | [] => []
  | .mk _ cells :: rest => attrefPairsCells cells ++ attrefPairsRows rest

def attrefPairsCells : List TableCell → List (String × String)
  | [] => []
  | .mk _ _ _ runs :: rest => attrefPairsList runs ++ attrefPairsCells rest

end

/-- `_collect_attachmentref_displaynames` (src/core/attachments.py, lines
84–116): map `$FILE name → displayname` collected from all richtext runs
(later assignments overwrite). -/
def collect_attachmentref_displaynames (fields : List (String × FieldData)) :
    List (String × String) :=
  (fields.foldl (fun acc f =>
    match f.2 with
    | .richtext _ runs => acc ++ attrefPairsList runs
    | _ => acc) []).foldl (fun m p => setAssoc m p.1 p.2) []

/-- `dict.setdefault(k, v)` on an association list. -/
def setdefaultAssoc {α : Type} (m : List (String × α)) (k : String) (v : α) :
    List (String × α) :=
  if (m.lookup k).isSome then m else m ++ [(k, v)]

/-- Pass 1 of `_update_runs_paths`: `attref_path_map` — `type:"file"` metas
keyed by name (assignment) and displayname (setdefault). -/
def build_attref_path_map (pm : PMap) : List (String × String) :=
  pm.foldl (fun m e =>
    let meta := e.2
    if meta.ty = "file" then
      let m :=
        match meta.name, meta.content_path with
        | some n, some cp => if n ≠ "" ∧ cp ≠ "" then setAssoc m n cp else m
        | _, _ => m
      match meta.displayname, meta.content_path with
      | some d, some cp => if d ≠ "" ∧ cp ≠ "" then setdefaultAssoc m d cp else m
      | _, _ => m
    else m) []

/-- Pass 2 of `_update_runs_paths`: `img_path_map` — inline-picture metas
keyed by name, name-stem and displayname (all setdefault). -/
def build_img_path_map (pm : PMap) : List (String × String) :=
  pm.foldl (fun m e =>
    let meta := e.2
    if meta.ty = "image" ∧ meta.ref.element = "picture" then
      match meta.content_path with
      | some cp =>
        if cp ≠ "" then
          let m :=
            match meta.name with
            | some n =>
              if n ≠ "" then
                let m := setdefaultAssoc m n cp
                let stem := pathStem n
                if stem ≠ n then setdefaultAssoc m stem cp else m
              else m
            | none => m
          match meta.displayname with
          | some d => if d ≠ "" then setdefaultAssoc m d cp else m
          | none => m
        else m
      | none => m
    else m) []

/-- Lookup in a path map with Python truthiness on the value. -/
def pathMapGet (m : List (String × String)) (k : String) : Option String :=
  match m.lookup k with
  | some v => if v ≠ "" then some v else none
  | none => none

mutual

/-- `_update_runs_paths`'s recursive walker, one run. -/
def updatePathsRun (am im : List (String × String)) : Run → Run
  | .img alt src =>
    let key_candidates := if alt ≠ "" then [alt] else []
    let found := key_candidates.firstM (pathMapGet im)
    match found with
    | some p => .img alt (some p)
    | none => .img alt src
  | .attref name disp s a cp =>
    let key := if disp ≠ "" then disp else name
    if key ≠ "" then
      let path :=
        match pathMapGet am key with
        | some p => some p
        | none => if key ≠ name ∧ name ≠ "" then pathMapGet am name else none
      match path with
      | some p => .attref name disp s a (some p)
      | none => .attref name disp s a cp
    else .attref name disp s a cp
  | .table rows attrs cols => .table (updatePathsRows am im rows) attrs cols
  | .sect t b attrs => .sect (updatePathsList am im t) (updatePathsList am im b) attrs
  | r => r

def updatePathsList (am im : List (String × String)) : List Run → List Run
  | [] => []
  | r :: rest => updatePathsRun am im r :: updatePathsList am im rest

def updatePathsRows (am im : List (String × String)) : List TableRow → List TableRow
  | [] => []
  | .mk attrs cells :: rest =>
    .mk attrs (updatePathsCells am im cells) :: updatePathsRows am im rest

def updatePathsCells (am im : List (String × String)) : List TableCell → List TableCell
  | [] => []
  | .mk cs rs st runs :: rest =>
    .mk cs rs st (updatePathsList am im runs) :: updatePathsCells am im rest

end

/-- `_update_runs_paths` (src/core/attachments.py, lines 840–957): build the
two lookup maps from the processed-attachment map and rewrite `img.src` and
`attachmentref.content_path` recursively. -/
def update_runs_paths (pm : PMap) (runs : List Run) : List Run :=
  updatePathsList (build_attref_path_map pm) (build_img_path_map pm) runs

/-! ## Locating payloads in the DXL -/

mutual

/-- Child-list traversal for `inlinePics`: `skipActive` is true while the
first direct `picture` child of an `attachmentref` (its icon) has not yet
been seen. -/
def inlinePicsGo : Bool → List (Xml × Option String) → List Xml
  | _, [] => []
  | skipActive, (c, _) :: rest =>
    let isIcon := skipActive ∧ c.tag = "picture"
    (if c.tag = "picture" ∧ ¬ isIcon then [c] else []) ++ inlinePics c ++
      inlinePicsGo (skipActive ∧ c.tag ≠ "picture") rest

/-- The inline (non-icon) `<picture>` occurrences under `el`, in document
order: every `picture` descendant except, for each `attachmentref`, its
first direct `picture` child.  This is the occurrence-based semantics of the
Python identity sets (`icon_pictures`) used in `_find_base64_data_node` and
`_extract_attachments_metadata`. -/
def inlinePics : Xml → List Xml
  | .mk tag _ _ children => inlinePicsGo (tag = "attachmentref") children

end

/-- `['gif', 'jpeg', 'png', 'bmp', 'notesbitmap']`. -/
def imgTagNames : List String := ["gif", "jpeg", "png", "bmp", "notesbitmap"]

/-- The first image-data child of a `<picture>` element, with the detected
extension (`notesbitmap` maps to `bin`). -/
def findImgDataNode (picture_el : Xml) : Option (Xml × String) :=
  imgTagNames.firstM (fun tag =>
    match findDirect picture_el tag with
    | some node => some (node, if tag = "notesbitmap" then "bin" else tag)
    | none => none)

/-- `_find_base64_data_node` (src/core/attachments.py, lines 668–835): find
the element holding the Base64 payload for an attachment entry, plus the
detected image extension where applicable.  The source's three
quote-escaping XPath variants all implement a direct attribute comparison
and are modelled as such. -/
def find_base64_data_node (root : Xml) (att : AttMeta) :
    Option Xml × Option String :=
  if att.ref.element = "file" then
    match att.name with
    | some file_name =>
      if file_name = "" then (none, none)
      else
        let file_items := (findAllDesc root "item").filter
          (fun it => it.get "name" = some "$FILE")
        let file_el := file_items.firstM (fun item_el =>
          match ((findAllDirect item_el "object").flatMap
              (fun o => findAllDirect o "file")).find?
              (fun f => f.get "name" = some file_name) with
          | some f => some f
          | none => (findAllDirect item_el "file").find?
              (fun f => f.get "name" = some file_name))
        match file_el with
        | none => (none, none)
        | some fe => (findDirect fe "filedata", none)
    | none => (none, none)
  else if att.ref.element = "attachmentref" then
    match att.ref.name with
    | some ref_name =>
      if ref_name = "" then (none, none)
      else
        match (findAllDesc root "attachmentref").find?
            (fun el => el.get "name" = some ref_name) with
        | none => (none, none)
        | some attref_el =>
          match findDirect attref_el "picture" with
          | none => (none, none)
          | some picture_el =>
            match findImgDataNode picture_el with
            | some (node, ext) => (some node, some ext)
            | none => (none, none)
    | none => (none, none)
  else if att.ref.element = "picture" then
    match att.ref.index with
    | none => (none, none)
    | some idx =>
      match (inlinePics root).get? idx with
      | none => (none, none)
      | some pic =>
        match findImgDataNode pic with
        | some (node, ext) => (some node, some ext)
        | none => (none, none)
  else (none, none)

/-- The extension → icon-Base64 map built by `extract_and_save_json_paths`
(lines 1043–1077) from the DXL's `attachmentref` icons (first extension
found wins). -/
def buildExtIconMap (root : Xml) : List (String × String) :=
  (findAllDesc root "attachmentref").foldl (fun m attref_el =>
    match attref_el.get "name" with
    | none => m
    | some related =>
      if related = "" then m
      else
        let ext := pyLower ⟨(pathSuffix related).toList.dropWhile (· = '.')⟩
        if ext = "" ∨ (m.lookup ext).isSome then m
        else
          match findDirect attref_el "picture" with
          | none => m
          | some picture_el =>
            match findImgDataNode picture_el with
            | none => m
            | some (node, _) =>
              match node.text with
              | some txt =>
                if txt ≠ "" then
                  let b64 := pyStrip txt
                  if b64 ≠ "" then m ++ [(ext, b64)] else m
                else m
              | none => m) []

/-! ## A model of `xml.etree.ElementTree.fromstring`

A recursive-descent parser for the XML subset these DXL documents use
(elements, attributes with single- or double-quoted values, text, tails,
self-closing tags, an optional `<?xml …?>` prolog).  Documents containing
the XML-1.0-forbidden C0 controls are rejected up front, since expat rejects
them wherever they occur.  Entities and comments are outside the subset and
fail to parse; any malformed document is an `Except.error`, matching
`ET.ParseError`. -/

def isXmlWs (c : Char) : Bool := c = ' ' ∨ c = '\t' ∨ c = '\n' ∨ c = '\r'

def skipXmlWs (l : List Char) : List Char := l.dropWhile isXmlWs

def isXmlNameChar (c : Char) : Bool :=
  c.isAlphanum ∨ c = '_' ∨ c = '-' ∨ c = '.' ∨ c = ':' ∨ c = '$'

def parseXmlName (l : List Char) : String × List Char :=
  (⟨l.takeWhile isXmlNameChar⟩, l.dropWhile isXmlNameChar)

def parseAttrList : Nat → List Char → Except String (List (String × String) × List Char)
  | 0, _ => .error "attribute list too long"
  | fuel + 1, l =>
    let l := skipXmlWs l
    match l with
    | '/' :: _ => .ok ([], l)
    | '>' :: _ => .ok ([], l)
    | c :: _ =>
      if isXmlNameChar c then
        let (name, l) := parseXmlName l
        match l with
        | '=' :: l2 =>
          match l2 with
          | q :: l3 =>
            if q = '"' ∨ q = '\'' then
              let v := l3.takeWhile (· ≠ q)
              match l3.dropWhile (· ≠ q) with
              | _ :: l4 => do
                let (rest, l5) ← parseAttrList fuel l4
                .ok ((name, ⟨v⟩) :: rest, l5)
              | [] => .error "unterminated attribute value"
            else .error "expected quote"
          | [] => .error "unexpected end of input"
        | _ => .error "expected = after attribute name"
      else .error "malformed tag"
    | [] => .error "unexpected end of input in tag"

mutual

def parseElement : Nat → List Char → Except String (Xml × List Char)
  | 0, _ => .error "document too deep"
  | fuel + 1, l =>
    match l with
    | '<' :: l1 =>
      let (tag, l2) := parseXmlName l1
      if tag = "" then .error "malformed tag name"
      else
        match parseAttrList (l2.length + 1) l2 with
        | .error e => .error e
        | .ok (attrs, l3) =>
          match l3 with
          | '/' :: '>' :: l4 => .ok (.mk tag attrs none [], l4)
          | '>' :: l4 =>
            let textRaw := l4.takeWhile (· ≠ '<')
            let l5 := l4.dropWhile (· ≠ '<')
            (match parseChildren fuel tag l5 with
             | .error e => .error e
             | .ok (children, l6) =>
               .ok (.mk tag attrs
                 (if textRaw.isEmpty then none else some ⟨textRaw⟩) children, l6))
          | _ => .error "expected >"
    | _ => .error "expected <"

def parseChildren : Nat → String → List Char →
    Except String (List (Xml × Option String) × List Char)
  | 0, _, _ => .error "document too deep"
  | fuel + 1, tag, l =>
    match l with
    | '<' :: '/' :: l1 =>
      let (close, l2) := parseXmlName l1
      if close = tag then
        match skipXmlWs l2 with
        | '>' :: l3 => .ok ([], l3)
        | _ => .error "malformed closing tag"
      else .error "mismatched closing tag"
    | '<' :: _ =>
      (match parseElement fuel l with
       | .error e => .error e
       | .ok (child, l1) =>
         let tailRaw := l1.takeWhile (· ≠ '<')
         let l2 := l1.dropWhile (· ≠ '<')
         match parseChildren fuel tag l2 with
         | .error e => .error e
         | .ok (rest, l3) =>
           .ok ((child, if tailRaw.isEmpty then none else some ⟨tailRaw⟩) :: rest, l3))
    | _ => .error "unexpected end of input"

end

/-- Drop an optional `<?xml …?>` prolog. -/
def dropPrologEnd : List Char → List Char
  | [] => []
  | '?' :: '>' :: rest => rest
  | _ :: rest => dropPrologEnd rest

def skipProlog (l : List Char) : List Char :=
  match l with
  | '<' :: '?' :: rest => dropPrologEnd rest
  | _ => l

/-- `ET.fromstring`. -/
def ET_fromstring (s : String) : Except String Xml :=
  if s.toList.any forbiddenC0 then
    .error "not well-formed (invalid token)"
  else
    let l := skipXmlWs (skipProlog (skipXmlWs s.toList))
    match parseElement (s.length + 1) l with
    | .ok (x, rest) =>
      if (skipXmlWs rest).isEmpty then .ok x
      else .error "junk after document element"
    | .error e => .error e

/-! ## `extract_and_save_json_paths` (src/core/attachments.py, lines 961–1161) -/

/-- The process environment (`os.getenv`). -/
abbrev Env := List (String × String)

/-- Lines 1020–1025: `os.getenv("DXL_ICON_PATH_MODE", "local").lower()`, with
anything other than `shared`/`local` falling back to `local`. -/
def icon_path_mode_of (env : Env) : String :=
  let env_icon_path_mode := pyLower ((env.lookup "DXL_ICON_PATH_MODE").getD "local")
  if env_icon_path_mode ≠ "shared" ∧ env_icon_path_mode ≠ "local" then "local"
  else env_icon_path_mode

/-- Lines 1019, 1027–1035: the physical icon directory —
`os.getenv("DXL_SHARED_ICONS_DIR")` if set (and truthy), else
`<attach_dir>/icons`. -/
def icon_root_dir_of (env : Env) (attachment_output_dir : String) : String :=
  match env.lookup "DXL_SHARED_ICONS_DIR" with
  | some d => if d ≠ "" then d else pathJoin attachment_output_dir ICON_DIR_NAME
  | none => pathJoin attachment_output_dir ICON_DIR_NAME

/-- Step 1 of the main loop body (lines 1088–1097): install the Base64
payload text located in the DXL into `bytes_b64` and repair an
extension-less inline-picture name. -/
def locate_payload (root : Xml) (att0 : AttMeta) : AttMeta :=
  let t := att0.ty
  let ref := att0.ref
  if t = "file" ∨ (t = "image" ∧ ref.element = "picture") then
    let (data_node, file_ext) := find_base64_data_node root att0
    let att :=
      match data_node with
      | some node =>
        match node.text with
        | some txt => if txt ≠ "" then { att0 with bytes_b64 := some (pyStrip txt) } else att0
        | none => att0
      | none => att0
    -- picture entries whose parser-given name lacks an extension get one
    match file_ext with
    | some fe =>
      if t = "image" ∧ fe ≠ "" ∧ ¬ ((att.name.getD "").toList.contains '.') then
        { att with
          name := some ((strOr att.name (some "inline_pic")).getD "inline_pic" ++ "." ++ fe),
          file_ext := some fe }
      else att
    | none => att
  else att0

/-- The per-attachment body of the main extraction loop, threading the
output list, processed map and filesystem.  A failure from
`extract_and_save` is the per-attachment `except` branch: the entry gets
`extraction_error` and is still appended. -/
def extract_one_attachment (H : HashModel) (root : Xml)
    (attachment_output_dir : String) (icon_root_dir icon_path_mode : String)
    (ext_icon_b64_map : List (String × String))
    (displayname_map : List (String × String))
    (acc : List AttMeta × PMap × FS) (att0 : AttMeta) :
    List AttMeta × PMap × FS :=
  let (out, pm, fs) := acc
  let t := att0.ty
  let ref := att0.ref
  -- 1. find the Base64 data node ($FILE / inline picture)
  let att := locate_payload root att0
  -- 2. persist and set content_path/saved_name
  if t = "file" then
    match extract_and_save H att attachment_output_dir fs pm displayname_map with
    | .ok (att, fs, pm) =>
      let (att, fs) :=
        match att.content_path with
        | some cp =>
          if cp ≠ "" then
            let ext := ⟨(pathSuffix ((strOr (strOr att.saved_name att.name)
              (some "")).getD "")).toList.dropWhile (· = '.')⟩
            let (icon_rel_path, fs) :=
              ensure_extension_icon ext icon_root_dir icon_path_mode ext_icon_b64_map fs
            ({ att with icon_path := some icon_rel_path }, fs)
          else (att, fs)
        | none => (att, fs)
      (out ++ [att], pm, fs)
    | .error e => (out ++ [{ att with extraction_error := some e }], pm, fs)
  else if t = "image" ∧ ref.element = "picture" then
    match extract_and_save H att attachment_output_dir fs pm displayname_map with
    | .ok (att, fs, pm) => (out ++ [att], pm, fs)
    | .error e => (out ++ [{ att with extraction_error := some e }], pm, fs)
  else if t = "image" ∧ ref.element = "attachmentref" then
    -- per-attachment icon entries are dropped (v1.5 schema)
    (out, pm, fs)
  else
    match extract_and_save H att attachment_output_dir fs pm displayname_map with
    | .ok (att, fs, pm) => (out ++ [att], pm, fs)
    | .error e => (out ++ [{ att with extraction_error := some e }], pm, fs)

/-- `extract_and_save_json_paths`: sanitize and re-parse the DXL, collect
displaynames and DXL icons, read the icon environment variables
(`DXL_SHARED_ICONS_DIR`, `DXL_ICON_PATH_MODE`), run the per-attachment loop,
finalize each entry, and rewrite run paths.  Returns `none` on a DXL parse
failure (the source returns `None`). -/
def extract_and_save_json_paths (H : HashModel) (env : Env) (dxl_text : String)
    (initial_json : NDoc) (attachment_output_dir : String) (fs : FS) :
    Option (NDoc × FS) :=
  match ET_fromstring (sanitize_xml_text dxl_text) with
  | .error _ => none
  | .ok root =>
    let updated_json := initial_json  -- copy.deepcopy
    let displayname_map := collect_attachmentref_displaynames updated_json.fields
    let icon_path_mode := icon_path_mode_of env
    let icon_root_dir := icon_root_dir_of env attachment_output_dir
    let ext_icon_b64_map := buildExtIconMap root
    let (attachments_out, pm, fs) :=
      updated_json.attachments.foldl
        (extract_one_attachment H root attachment_output_dir icon_root_dir
          icon_path_mode ext_icon_b64_map displayname_map)
        ([], [], fs)
    let attachments_out :=
      attachments_out.map (fun m => finalize_attachment_meta H m attachment_output_dir fs)
    let fields := updated_json.fields.map (fun f =>
      match f.2 with
      | .richtext txt runs =>
        if ¬ runs.isEmpty then (f.1, FieldData.richtext txt (update_runs_paths pm runs))
        else (f.1, f.2)
      | _ => (f.1, f.2))
    some ({ updated_json with attachments := attachments_out, fields := fields }, fs)

/-! ## Slot-name arithmetic

Facts about the `stem_2`, `stem_3`, … collision slots: decimal renderings
of distinct numbers are distinct, so among `fs.length + 1` candidate slot
names one must be free. -/

/-- Decimal value of a digit-character list (left fold). -/
def val10 (l : List Char) : Nat :=
  l.foldl (fun a c => 10 * a + (c.toNat - 48)) 0

theorem toDigitsCore_append (b f n : Nat) (ds : List Char) :
    Nat.toDigitsCore b f n ds = Nat.toDigitsCore b f n [] ++ ds := by
  induction f generalizing n ds with
  | zero => simp [Nat.toDigitsCore]
  | succ f ih =>
    simp only [Nat.toDigitsCore]
    by_cases h : n / b = 0
    · simp [h]
    · simp only [h, if_false]
      rw [ih (n / b) (Nat.digitChar (n % b) :: ds), ih (n / b) [Nat.digitChar (n % b)]]
      simp

theorem digitChar_toNat {d : Nat} (h : d < 10) : (Nat.digitChar d).toNat = 48 + d := by
  interval_cases d <;> rfl

theorem val10_append_singleton (l : List Char) (c : Char) :
    val10 (l ++ [c]) = 10 * val10 l + (c.toNat - 48) := by
  simp [val10, List.foldl_append]

theorem val10_toDigitsCore (f : Nat) : ∀ n : Nat, n < 10 ^ f →
    val10 (Nat.toDigitsCore 10 f n []) = n := by
  induction f with
  | zero =>
    intro n hn
    interval_cases n
    rfl
  | succ f ih =>
    intro n hn
    simp only [Nat.toDigitsCore]
    by_cases h : n / 10 = 0
    · have hlt : n < 10 := by omega
      simp only [h, if_true, val10, List.foldl]
      rw [digitChar_toNat (Nat.mod_lt _ (by norm_num))]
      omega
    · simp only [h, if_false]
      rw [toDigitsCore_append, val10_append_singleton]
      rw [ih (n / 10) (by
        have := Nat.pow_succ 10 f
        exact Nat.div_lt_of_lt_mul (by omega))]
      rw [digitChar_toNat (Nat.mod_lt _ (by norm_num))]
      omega

theorem val10_repr (n : Nat) : val10 (Nat.repr n).data = n := by
  have hf : n < 10 ^ (n + 1) := by
    calc n < 10 ^ n := Nat.lt_pow_self (by norm_num) n
    _ ≤ 10 ^ (n + 1) := Nat.pow_le_pow_right (by norm_num) (Nat.le_succ n)
  have h := val10_toDigitsCore (n + 1) n hf
  simpa [Nat.repr, Nat.toDigits, List.asString] using h

theorem natRepr_injective {n m : Nat} (h : Nat.repr n = Nat.repr m) : n = m := by
  have h2 := congrArg (fun s => val10 s.data) h
  simpa [val10_repr] using h2

/-- Distinct slot numbers give distinct slot names. -/
theorem slotName_injective (stem ext : String) {n m : Nat}
    (h : stem ++ "_" ++ toString n ++ ext = stem ++ "_" ++ toString m ++ ext) :
    n = m := by
  have hdata := congrArg String.data h
  simp only [String.data_append] at hdata
  have h2 := List.append_cancel_right hdata
  have h3 := List.append_cancel_left h2
  exact natRepr_injective (String.ext h3)

theorem mem_keys_of_fsExists {fs : FS} {p : String} (h : fsExists fs p) :
    p ∈ fs.map Prod.fst := by
  induction fs with
  | nil => simp [fsExists, fsRead] at h
  | cons hd tl ih =>
    obtain ⟨a, b⟩ := hd
    by_cases he : p = a
    · simp [he]
    · right
      apply ih
      simp only [fsExists, fsRead] at h ⊢
      rw [List.lookup_cons] at h
      have : (p == a) = false := beq_false_of_ne he
      rw [this] at h
      exact h

/-- Pigeonhole: among the `fs.length + 1` slot names `stem_2 … stem_(len+2)`,
at least one is not a file of `fs`. -/
theorem exists_free_slot (fs : FS) (dir stem ext : String) :
    ∃ k, 2 ≤ k ∧ k ≤ fs.length + 2 ∧
      ¬ fsExists fs (pathJoin dir (stem ++ "_" ++ toString k ++ ext)) := by
  by_contra hall
  push_neg at hall
  set name : Nat → String :=
    fun k => pathJoin dir (stem ++ "_" ++ toString k ++ ext) with hname
  have hmem : ∀ k, 2 ≤ k → k ≤ fs.length + 2 → name k ∈ fs.map Prod.fst := by
    intro k h1 h2
    exact mem_keys_of_fsExists (by simpa using hall k h1 h2)
  set cands : List String := (List.range (fs.length + 1)).map (fun i => name (i + 2))
    with hcands
  have hinj : Function.Injective (fun i : Nat => name (i + 2)) := by
    intro a b hab
    simp only [hname, pathJoin] at hab
    have hdata := congrArg String.data hab
    simp only [String.data_append] at hdata
    have h2 := List.append_cancel_left hdata
    have heq : stem ++ "_" ++ toString (a + 2) ++ ext =
        stem ++ "_" ++ toString (b + 2) ++ ext := by
      apply String.ext
      simpa [String.data_append] using h2
    have := slotName_injective stem ext heq
    omega
  have hnodup : cands.Nodup := by
    exact (List.nodup_range _).map hinj
  have hsub : cands ⊆ fs.map Prod.fst := by
    intro x hx
    simp only [hcands, List.mem_map, List.mem_range] at hx
    obtain ⟨i, hi, rfl⟩ := hx
    exact hmem (i + 2) (by omega) (by omega)
  have hlen : cands.length ≤ (fs.map Prod.fst).length :=
    (List.subperm_of_subset hnodup hsub).length_le
  simp [hcands] at hlen

/-- `find_free_slot` finds the least free slot, given enough fuel. -/
theorem find_free_slot_spec (fs : FS) (dir stem ext : String) :
    ∀ (fuel n : Nat),
    (∃ k, n ≤ k ∧ k ≤ n + fuel ∧
      ¬ fsExists fs (pathJoin dir (stem ++ "_" ++ toString k ++ ext))) →
    let r := find_free_slot fs dir stem ext fuel n
    n ≤ r ∧ ¬ fsExists fs (pathJoin dir (stem ++ "_" ++ toString r ++ ext)) ∧
      ∀ j, n ≤ j → j < r → fsExists fs (pathJoin dir (stem ++ "_" ++ toString j ++ ext)) := by
  intro fuel
  induction fuel with
  | zero =>
    intro n hex
    obtain ⟨k, h1, h2, h3⟩ := hex
    have hk : k = n := by omega
    subst hk
    simp only [find_free_slot]
    exact ⟨Nat.le_refl _, h3, fun j h1 h2 => by omega⟩
  | succ fuel ih =>
    intro n hex
    simp only [find_free_slot]
    cases hocc : fsExists fs (pathJoin dir (stem ++ "_" ++ toString n ++ ext)) with
    | true =>
      simp only [if_true]
      obtain ⟨k, h1, h2, h3⟩ := hex
      have hkn : k ≠ n := by
        intro h
        rw [h] at h3
        exact h3 hocc
      have hrec := ih (n + 1) ⟨k, by omega, by omega, h3⟩
      obtain ⟨ha, hb, hc⟩ := hrec
      refine ⟨by omega, hb, ?_⟩
      intro j hj1 hj2
      rcases Nat.eq_or_lt_of_le hj1 with rfl | hlt
      · exact hocc
      · exact hc j (by omega) hj2
    | false =>
      simp only [Bool.false_eq_true, if_false]
      refine ⟨Nat.le_refl _, ?_, fun j h1 h2 => by omega⟩
      simp [hocc]

/-! ## The deduplication chain (claim C5) -/

/-- The digest record for payload `B`. -/
def digestOf (H : HashModel) (B : Bytes) : DigestMeta :=
  ⟨B.length, firstN_hash_bytes H B FIRST_N, H.blake2b B, H.sha256 B⟩

theorem decide_reuse_of_identical (H : HashModel) (fs : FS) (P D : String) (B : Bytes)
    (h : fsRead fs (pathJoin D (sanitize_filename P)) = some B) :
    decide_and_maybe_write H fs P D (some B) none =
      .ok (pathJoin D (sanitize_filename P), true, digestOf H B, fs) := by
  have hex : fsExists fs (pathJoin D (sanitize_filename P)) = true := by
    simp [fsExists, h]
  have hchain : same_by_chain H fs (pathJoin D (sanitize_filename P)) B.length
      (firstN_hash_bytes H B FIRST_N) (H.blake2b B) = true := by
    simp [same_by_chain, h]
  simp [decide_and_maybe_write, hex, hchain, digestOf, pure, Except.pure, bind, Except.bind]

theorem same_by_chain_false_of_ne (H : HashModel) (fs : FS) (p : String)
    (B C : Bytes) (h : fsRead fs p = some C) (hne : C ≠ B)
    (hinj : ∀ x y, H.blake2b x = H.blake2b y → x = y) :
    same_by_chain H fs p B.length (firstN_hash_bytes H B FIRST_N) (H.blake2b B) = false := by
  simp only [same_by_chain, h]
  by_cases hlen : C.length ≠ B.length
  · simp [hlen]
  · simp only [hlen, if_false]
    have hb2b : H.blake2b C ≠ H.blake2b B := fun he => hne (hinj _ _ he)
    by_cases hsha : firstN_hash_bytes H C FIRST_N ≠ firstN_hash_bytes H B FIRST_N
    · simp [hsha]
    · simp [hsha, hb2b]

theorem decide_collision (H : HashModel) (fs : FS) (P D : String) (B : Bytes)
    (hex : fsExists fs (pathJoin D (sanitize_filename P)) = true)
    (hchain : same_by_chain H fs (pathJoin D (sanitize_filename P)) B.length
      (firstN_hash_bytes H B FIRST_N) (H.blake2b B) = false) :
    let P' := sanitize_filename P
    let k := find_free_slot fs D (pathStem P') (pathSuffix P') (fs.length + 1) 2
    let slot := pathStem P' ++ "_" ++ toString k ++ pathSuffix P'
    decide_and_maybe_write H fs P D (some B) none =
      .ok (pathJoin D slot, false, digestOf H B, atomicWrite fs D slot B) := by
  simp [decide_and_maybe_write, hex, hchain, digestOf, pure, Except.pure, bind, Except.bind]

theorem decide_fresh (H : HashModel) (fs : FS) (P D : String) (B : Bytes)
    (hex : fsExists fs (pathJoin D (sanitize_filename P)) = false) :
    decide_and_maybe_write H fs P D (some B) none =
      .ok (pathJoin D (sanitize_filename P), false, digestOf H B,
        atomicWrite fs D (sanitize_filename P) B) := by
  simp [decide_and_maybe_write, hex, digestOf, pure, Except.pure, bind, Except.bind]

theorem fsRead_fsSet_self (fs : FS) (p : String) (b : Bytes) :
    fsRead (fsSet fs p b) p = some b := by
  induction fs with
  | nil => simp [fsSet, fsRead, List.lookup]
  | cons hd tl ih =>
    obtain ⟨q, c⟩ := hd
    by_cases h : q = p
    · simp [fsSet, h, fsRead, List.lookup]
    · simp only [fsSet, h, if_false]
      simp only [fsRead, List.lookup, beq_false_of_ne (Ne.symm h)] at ih ⊢
      exact ih

theorem fsRead_fsSet_ne (fs : FS) (p q : String) (b : Bytes) (h : q ≠ p) :
    fsRead (fsSet fs p b) q = fsRead fs q := by
  induction fs with
  | nil => simp [fsSet, fsRead, List.lookup, beq_false_of_ne h]
  | cons hd tl ih =>
    obtain ⟨r, c⟩ := hd
    by_cases hr : r = p
    · subst hr
      simp [fsSet, fsRead, List.lookup, beq_false_of_ne h]
    · simp only [fsSet, hr, if_false]
      by_cases hq : r = q
      · subst hq
        simp [fsRead, List.lookup]
      · simp only [fsRead, List.lookup, beq_false_of_ne (Ne.symm hq)] at ih ⊢
        exact ih

theorem fsRead_fsDel_ne (fs : FS) (p q : String) (h : q ≠ p) :
    fsRead (fsDel fs p) q = fsRead fs q := by
  induction fs with
  | nil => simp [fsDel, fsRead]
  | cons hd tl ih =>
    obtain ⟨r, c⟩ := hd
    by_cases hr : r = p
    · subst hr
      rw [show fsDel ((r, c) :: tl) r = fsDel tl r from by
        simp [fsDel, List.filter_cons]]
      rw [ih]
      simp [fsRead, List.lookup, beq_false_of_ne h]
    · rw [show fsDel ((r, c) :: tl) p = (r, c) :: fsDel tl p from by
        simp [fsDel, List.filter_cons, hr]]
      by_cases hq : q = r
      · subst hq
        simp [fsRead, List.lookup]
      · simp only [fsRead, List.lookup, beq_false_of_ne hq]
        simpa [fsRead] using ih

/-- Reading back the file just written by `atomicWrite`. -/
theorem fsRead_atomicWrite_self (fs : FS) (dir name : String) (data : Bytes) :
    fsRead (atomicWrite fs dir name data) (pathJoin dir name) = some data := by
  simp [atomicWrite, fsRead_fsSet_self]

/-- Scenario harness (not part of the source): run the dedup chain once per
payload — `n` payloads with identical bytes `B` and the same desired name
`P` — collecting the resolved paths. -/
def dedup_payloads (H : HashModel) (P D : String) (B : Bytes) :
    Nat → FS → FS × List String
  | 0, fs => (fs, [])
  | n + 1, fs =>
    match decide_and_maybe_write H fs P D (some B) none with
    | .ok (path, _, _, fs') =>
      let r := dedup_payloads H P D B n fs'
      (r.1, path :: r.2)
    | .error _ => (fs, [])

theorem dedup_payloads_reuse (H : HashModel) (P D : String) (B : Bytes)
    (fs : FS) (h : fsRead fs (pathJoin D (sanitize_filename P)) = some B) :
    ∀ n, dedup_payloads H P D B n fs =
      (fs, List.replicate n (pathJoin D (sanitize_filename P))) := by
  intro n
  induction n with
  | zero => rfl
  | succ n ih =>
    simp only [dedup_payloads, decide_reuse_of_identical H fs P D B h, ih]
    rfl

open JsonlProgress in
/-- C5 (amended): with desired filename `P`, candidate bytes `B` and output
directory `D` (writing `P' := sanitize(P)`):
1. if `D/P'` holds bytes identical to `B`, the three-stage test passes and
   `D/P'` is reused with nothing written;
2. if `D/P'` holds different bytes, then (for hashes that separate different
   contents) the three-stage test fails and `B` is written — via a temp name
   plus rename — to the first free slot among `D/P'_2`, `D/P'_3`, …;
3. if `D/P'` does not exist, `B` is written to `D/P'` via a temp name plus
   rename;
4. consequently, for `n ≥ 1` payloads with identical bytes and the same
   desired name **into a directory where `D/P'` does not already exist**,
   exactly one file is written (the first call's) and all `n` entries
   resolve to the same saved path `D/P'`.  (Without that proviso the
   consequence fails: see the counterexample.) -/
theorem claim_C5_dedup_chain (H : HashModel) (fs : FS) (P D : String) (B : Bytes) :
    (fsRead fs (pathJoin D (sanitize_filename P)) = some B →
       decide_and_maybe_write H fs P D (some B) none =
         .ok (pathJoin D (sanitize_filename P), true, digestOf H B, fs)) ∧
    (∀ C, fsRead fs (pathJoin D (sanitize_filename P)) = some C → C ≠ B →
       (∀ x y, H.blake2b x = H.blake2b y → x = y) →
       same_by_chain H fs (pathJoin D (sanitize_filename P)) B.length
         (firstN_hash_bytes H B FIRST_N) (H.blake2b B) = false) ∧
    (fsExists fs (pathJoin D (sanitize_filename P)) = true →
     same_by_chain H fs (pathJoin D (sanitize_filename P)) B.length
         (firstN_hash_bytes H B FIRST_N) (H.blake2b B) = false →
       ∃ k, 2 ≤ k ∧
         decide_and_maybe_write H fs P D (some B) none =
           .ok (pathJoin D (pathStem (sanitize_filename P) ++ "_" ++ toString k ++
                  pathSuffix (sanitize_filename P)), false, digestOf H B,
                atomicWrite fs D (pathStem (sanitize_filename P) ++ "_" ++ toString k ++
                  pathSuffix (sanitize_filename P)) B) ∧
         ¬ fsExists fs (pathJoin D (pathStem (sanitize_filename P) ++ "_" ++ toString k ++
             pathSuffix (sanitize_filename P))) ∧
         (∀ j, 2 ≤ j → j < k →
           fsExists fs (pathJoin D (pathStem (sanitize_filename P) ++ "_" ++ toString j ++
             pathSuffix (sanitize_filename P))))) ∧
    (fsExists fs (pathJoin D (sanitize_filename P)) = false →
       decide_and_maybe_write H fs P D (some B) none =
         .ok (pathJoin D (sanitize_filename P), false, digestOf H B,
           atomicWrite fs D (sanitize_filename P) B)) ∧
    (fsExists fs (pathJoin D (sanitize_filename P)) = false → ∀ n,
       dedup_payloads H P D B (n + 1) fs =
         (atomicWrite fs D (sanitize_filename P) B,
          List.replicate (n + 1) (pathJoin D (sanitize_filename P)))) := by
  refine ⟨decide_reuse_of_identical H fs P D B,
         fun C h hne hinj => same_by_chain_false_of_ne H fs _ B C h hne hinj,
         ?_, decide_fresh H fs P D B, ?_⟩
  · intro hex hchain
    have hfree := exists_free_slot fs D (pathStem (sanitize_filename P))
      (pathSuffix (sanitize_filename P))
    obtain ⟨k0, hk1, hk2, hk3⟩ := hfree
    have hspec := find_free_slot_spec fs D (pathStem (sanitize_filename P))
      (pathSuffix (sanitize_filename P)) (fs.length + 1) 2 ⟨k0, hk1, by omega, hk3⟩
    obtain ⟨ha, hb, hc⟩ := hspec
    refine ⟨find_free_slot fs D (pathStem (sanitize_filename P))
      (pathSuffix (sanitize_filename P)) (fs.length + 1) 2, ha, ?_, hb, fun j h1 h2 => hc j h1 h2⟩
    exact decide_collision H fs P D B hex hchain
  · intro hex n
    simp only [dedup_payloads, decide_fresh H fs P D B hex]
    rw [dedup_payloads_reuse H P D B _ (fsRead_atomicWrite_self fs D _ B) n]
    simp [List.replicate_succ]

/-- C5 witness: a concrete reuse — `x.txt` already on disk with the payload
bytes; the chain reuses it without writing, and two further identical
payloads resolve to the same path with the filesystem unchanged. -/
theorem claim_C5_dedup_chain_witness :
    decide_and_maybe_write ⟨fun b => toString b, fun b => toString b⟩
        [("A/x.txt", [7, 8])] "x.txt" "A" (some [7, 8]) none =
      .ok ("A/x.txt", true, digestOf ⟨fun b => toString b, fun b => toString b⟩ [7, 8],
        [("A/x.txt", [7, 8])]) ∧
    dedup_payloads ⟨fun b => toString b, fun b => toString b⟩ "x.txt" "A" [7, 8] 2
        [("A/x.txt", [7, 8])] =
      ([("A/x.txt", [7, 8])], ["A/x.txt", "A/x.txt"]) := by
  have h := claim_C5_dedup_chain ⟨fun b => toString b, fun b => toString b⟩
    [("A/x.txt", [7, 8])] "x.txt" "A" [7, 8]
  constructor
  · exact h.1 (by rfl)
  · exact dedup_payloads_reuse _ _ _ _ _ (by rfl) 2

/-- C5 (counterexample to the unrestricted consequence): if `D/P` already
exists with *different* content, two payloads with identical bytes and the
same desired name produce **two** new files (`a_2.pdf` and `a_3.pdf`) that
resolve to different saved names — the slot search compares content only
against `D/P` itself, never against the slots. -/
theorem claim_C5_dedup_chain_counterexample :
    dedup_payloads ⟨fun b => toString b, fun b => toString b⟩ "a.pdf" "A" [1, 2] 2
        [("A/a.pdf", [9])] =
      ([("A/a.pdf", [9]), ("A/a_2.pdf", [1, 2]), ("A/a_3.pdf", [1, 2])],
       ["A/a_2.pdf", "A/a_3.pdf"]) ∧
    ("A/a_2.pdf" : String) ≠ "A/a_3.pdf" := by
  constructor
  · rfl
  · decide

/-! ## Zero-length payloads (claim C6) -/

/-- "The located payload is zero bytes long": no raw bytes, no source path,
and the Base64 text (if any) is empty, undecodable, or decodes to zero
bytes. -/
def locatedPayloadEmpty (att : AttMeta) : Prop :=
  att.raw_bytes = none ∧ att.source_path = none ∧
  (match att.bytes_b64 with
   | some b => b = "" ∨ b64decode b = none ∨ b64decode b = some []
   | none => True)

/-- The `ValueError` message raised by `_decide_and_maybe_write` when
neither bytes nor a source path is available. -/
def NO_DATA_MSG : String := "data_bytes か source_path のどちらかは必須です"

theorem payload_of_empty (fs : FS) (att : AttMeta) (h : locatedPayloadEmpty att) :
    payload_of fs att = (none, none) := by
  obtain ⟨hraw, hsrc, hb⟩ := h
  unfold payload_of
  rcases hbb : att.bytes_b64 with _ | b64
  · rw [hbb] at hb
    simp [hraw, hsrc]
  · rw [hbb] at hb
    rcases hb with rfl | hd | hd
    · simp
    · by_cases hb0 : b64 = "" <;> simp [hb0, hd]
    · by_cases hb0 : b64 = "" <;> simp [hb0, hd]

/-- The payload-location fields ignore `saved_name`. -/
theorem payload_of_saved_name (fs : FS) (att : AttMeta) (x : Option String) :
    payload_of fs { att with saved_name := x } = payload_of fs att := rfl

theorem decide_no_data (H : HashModel) (fs : FS) (p d : String) :
    decide_and_maybe_write H fs p d none none = .error NO_DATA_MSG := by
  simp [decide_and_maybe_write, NO_DATA_MSG, throw, throwThe, MonadExceptOf.throw,
    bind, Except.bind]

theorem extract_and_save_empty_payload (H : HashModel) (att : AttMeta)
    (dir : String) (fs : FS) (pm : PMap) (dmap : List (String × String))
    (h : locatedPayloadEmpty att) :
    extract_and_save H att dir fs pm dmap = .error NO_DATA_MSG := by
  unfold extract_and_save
  simp only
  split
  · rw [payload_of_saved_name, payload_of_empty fs att h, decide_no_data]
    rfl
  · rw [payload_of_empty fs att h, decide_no_data]
    rfl

theorem extract_one_attachment_error (H : HashModel) (root : Xml)
    (dir ir mode : String) (eim dmap : List (String × String))
    (att0 : AttMeta)
    (hskip : ¬ (att0.ty = "image" ∧ att0.ref.element = "attachmentref"))
    (h : locatedPayloadEmpty (locate_payload root att0)) :
    ∀ (out : List AttMeta) (pm : PMap) (fs : FS),
    extract_one_attachment H root dir ir mode eim dmap (out, pm, fs) att0 =
      (out ++ [{ locate_payload root att0 with extraction_error := some NO_DATA_MSG }],
       pm, fs) := by
  intro out pm fs
  unfold extract_one_attachment
  simp only
  by_cases ht : att0.ty = "file"
  · simp [ht, extract_and_save_empty_payload H _ dir fs pm dmap h]
  · by_cases hp : att0.ty = "image" ∧ att0.ref.element = "picture"
    · simp [ht, hp, extract_and_save_empty_payload H _ dir fs pm dmap h]
    · have hia : ¬ (att0.ty = "image" ∧ att0.ref.element = "attachmentref") := hskip
      simp [ht, hp, hia, extract_and_save_empty_payload H _ dir fs pm dmap h]

/-- C6: an attachment entry whose located payload is zero bytes long writes
no file; the entry receives `extraction_error` and its `content_path` stays
as it was (unset in an initial IR); and the extraction of the rest of the
document proceeds exactly as if from the same state — the failure is
per-attachment, not fatal. -/
theorem claim_C6_zero_length_payload (H : HashModel) (root : Xml)
    (dir ir mode : String) (eim dmap : List (String × String))
    (att0 : AttMeta) (out : List AttMeta) (pm : PMap) (fs : FS)
    (hskip : ¬ (att0.ty = "image" ∧ att0.ref.element = "attachmentref"))
    (h : locatedPayloadEmpty (locate_payload root att0)) :
    -- the dedup chain is never reached with data: extract_and_save raises
    extract_and_save H (locate_payload root att0) dir fs pm dmap = .error NO_DATA_MSG ∧
    -- the loop body catches it: entry appended with extraction_error set,
    -- content_path unchanged, filesystem and processed map untouched
    (extract_one_attachment H root dir ir mode eim dmap (out, pm, fs) att0 =
      (out ++ [{ locate_payload root att0 with extraction_error := some NO_DATA_MSG }],
       pm, fs)) ∧
    ({ locate_payload root att0 with
        extraction_error := some NO_DATA_MSG }.extraction_error = some NO_DATA_MSG) ∧
    ({ locate_payload root att0 with
        extraction_error := some NO_DATA_MSG }.content_path = att0.content_path) ∧
    -- the rest of the document's extraction still completes: folding over
    -- pre ++ [att0] ++ post processes post from the same pm/fs state
    (∀ (pre post : List AttMeta),
      (pre ++ att0 :: post).foldl
          (extract_one_attachment H root dir ir mode eim dmap) (out, pm, fs) =
        post.foldl (extract_one_attachment H root dir ir mode eim dmap)
          ((pre.foldl (extract_one_attachment H root dir ir mode eim dmap)
              (out, pm, fs)).1 ++
             [{ locate_payload root att0 with extraction_error := some NO_DATA_MSG }],
           (pre.foldl (extract_one_attachment H root dir ir mode eim dmap)
              (out, pm, fs)).2.1,
           (pre.foldl (extract_one_attachment H root dir ir mode eim dmap)
              (out, pm, fs)).2.2)) := by
  refine ⟨extract_and_save_empty_payload H _ dir fs pm dmap h,
    extract_one_attachment_error H root dir ir mode eim dmap att0 hskip h out pm fs,
    rfl, ?_, ?_⟩
  · show (locate_payload root att0).content_path = att0.content_path
    unfold locate_payload
    dsimp only
    repeat' split
    all_goals rfl
  · intro pre post
    rw [List.foldl_append, List.foldl_cons]
    rcases hS : pre.foldl (extract_one_attachment H root dir ir mode eim dmap)
      (out, pm, fs) with ⟨o1, p1, f1⟩
    rw [extract_one_attachment_error H root dir ir mode eim dmap att0 hskip h o1 p1 f1]

/-! ## Icon environment variables (claim C3) -/

/-- C3 (amended): the environment variables carry a `DXL_` prefix.  If
`DXL_SHARED_ICONS_DIR` is set (non-empty), icon bytes are written under it,
otherwise under `<attach_dir>/icons`; if `DXL_ICON_PATH_MODE` is `shared`,
each file attachment's `icon_path` is written as `icons/<ext>.gif`, and with
the default `local` (or any unrecognized value) as
`attachments/icons/<ext>.gif`. -/
theorem claim_C3_icon_env (env : Env) (attachDir X ext iconRoot mode : String)
    (eim : List (String × String)) (fs : FS) :
    (env.lookup "DXL_SHARED_ICONS_DIR" = some X → X ≠ "" →
       icon_root_dir_of env attachDir = X) ∧
    ((env.lookup "DXL_SHARED_ICONS_DIR" = none ∨
      env.lookup "DXL_SHARED_ICONS_DIR" = some "") →
       icon_root_dir_of env attachDir = pathJoin attachDir ICON_DIR_NAME) ∧
    (env.lookup "DXL_ICON_PATH_MODE" = none → icon_path_mode_of env = "local") ∧
    (icon_path_mode_of env = "shared" ↔
       pyLower ((env.lookup "DXL_ICON_PATH_MODE").getD "local") = "shared") ∧
    -- `_ensure_extension_icon` writes (at most) under the icon root …
    (∃ data, (ensure_extension_icon ext iconRoot mode eim fs).2 = fs ∨
       (ensure_extension_icon ext iconRoot mode eim fs).2 =
         fsSet fs (pathJoin iconRoot (safe_ext_of ext ++ ".gif")) data) ∧
    -- … and reports the mode-dependent relative path in the IR
    ((ensure_extension_icon ext iconRoot mode eim fs).1 =
       if mode = "shared" then "icons/" ++ safe_ext_of ext ++ ".gif"
       else "attachments/icons/" ++ safe_ext_of ext ++ ".gif") := by
  refine ⟨?_, ?_, ?_, ?_, ?_, ?_⟩
  · intro h hne
    simp [icon_root_dir_of, h, hne]
  · rintro (h | h) <;> simp [icon_root_dir_of, h]
  · intro h
    simp [icon_path_mode_of, h, pyLower]
  · unfold icon_path_mode_of
    constructor
    · intro h
      by_cases hs : pyLower ((env.lookup "DXL_ICON_PATH_MODE").getD "local") = "shared"
      · exact hs
      · by_cases hl : pyLower ((env.lookup "DXL_ICON_PATH_MODE").getD "local") = "local"
        · rw [if_neg (by simp [hs, hl])] at h
          exact absurd h hs
        · rw [if_pos (by exact ⟨hs, hl⟩)] at h
          exact absurd h (by decide)
    · intro h
      rw [if_neg (by simp [h])]
      exact h
  · unfold ensure_extension_icon
    by_cases hex : fsExists fs (pathJoin iconRoot (safe_ext_of ext ++ ".gif")) = true
    · exact ⟨[], by simp [hex]⟩
    · refine ⟨(match eim.lookup (safe_ext_of ext) with
        | some b64 =>
          match b64decode b64 with
          | some d => if d.isEmpty then GIF_PLACEHOLDER else d
          | none => GIF_PLACEHOLDER
        | none => GIF_PLACEHOLDER), Or.inr ?_⟩
      simp only [Bool.not_eq_true] at hex
      simp only [hex, Bool.false_eq_true, if_false]
      rcases eim.lookup (safe_ext_of ext) with _ | b64
      · simp
      · simp only
  · show (ensure_extension_icon ext iconRoot mode eim fs).1 = _
    unfold ensure_extension_icon
    dsimp only
    by_cases hm : mode = "shared" <;> simp [hm, ICON_DIR_NAME]

/-- A concrete DXL note with one file attachment `data.txt` (payload `AAA`)
and a body that references it. -/
def dxlC3 : String := "<note><item name='$FILE'><object><file name='data.txt'><filedata>QUFB</filedata></file></object></item><item name='Body'><richtext><par><attachmentref name='data.txt' displayname='data.txt'/></par></richtext></item></note>"

/-- The IR the parser produces for `dxlC3` (attachment list and body runs). -/
def irC3 : NDoc := {
  attachments := [{ name := some "data.txt", ty := "file", ref := { element := "file" } }],
  fields := [("Body", .richtext "" [.par {}, .attref "data.txt" "data.txt" [] [] none])] }

set_option maxRecDepth 100000 in
/-- C3 counterexample: the program reads `DXL_`-prefixed environment
variables, so the unprefixed `SHARED_ICONS_DIR=/x` and
`ICON_PATH_MODE=shared` of the claim change nothing — the run on `dxlC3`
writes the icon under `A/icons` and records
`icon_path = attachments/icons/txt.gif`, exactly the unset-environment
behaviour. -/
theorem claim_C3_icon_env_counterexample :
    icon_path_mode_of [("SHARED_ICONS_DIR", "/x"), ("ICON_PATH_MODE", "shared")] = "local" ∧
    icon_root_dir_of [("SHARED_ICONS_DIR", "/x"), ("ICON_PATH_MODE", "shared")] "A" = "A/icons" ∧
    (extract_and_save_json_paths ⟨fun b => "b" ++ toString b, fun b => "s" ++ toString b⟩
        [("SHARED_ICONS_DIR", "/x"), ("ICON_PATH_MODE", "shared")] dxlC3 irC3 "A" []).map
      (fun r => (r.2.map Prod.fst, r.1.attachments.map (fun a => a.icon_path)))
      = some (["A/data.txt", "A/icons/txt.gif"], [some "attachments/icons/txt.gif"]) :=
  ⟨rfl, rfl, rfl⟩

/-- C3 witness: with the real `DXL_SHARED_ICONS_DIR=/x` set, the icon root
resolves to `/x`. -/
theorem claim_C3_icon_env_witness :
    ([("DXL_SHARED_ICONS_DIR", "/x"), ("DXL_ICON_PATH_MODE", "shared")] : Env).lookup
        "DXL_SHARED_ICONS_DIR" = some "/x" ∧
    icon_root_dir_of [("DXL_SHARED_ICONS_DIR", "/x"), ("DXL_ICON_PATH_MODE", "shared")] "A"
        = "/x" :=
  ⟨rfl, (claim_C3_icon_env [("DXL_SHARED_ICONS_DIR", "/x"), ("DXL_ICON_PATH_MODE", "shared")]
      "A" "/x" "txt" "A/icons" "shared" [] []).1 rfl (by decide)⟩

/-- C6 witness: a `$FILE` attachment whose `<filedata>` is empty — the loop
body appends it with `extraction_error` set, writes nothing, and its
`content_path` is still unset. -/
theorem claim_C6_zero_length_payload_witness :
    extract_one_attachment ⟨fun b => toString b, fun b => toString b⟩
        (.mk "note" [] none [(.mk "item" [("name", "$FILE")] none
          [(.mk "object" [] none [(.mk "file" [("name", "x.txt")] none
            [(.mk "filedata" [] none [], none)], none)], none)], none)])
        "A" "A/icons" "local" [] [] ([], [], [])
        { name := some "x.txt", ty := "file", ref := { element := "file" } } =
      ([{ locate_payload
            (.mk "note" [] none [(.mk "item" [("name", "$FILE")] none
              [(.mk "object" [] none [(.mk "file" [("name", "x.txt")] none
                [(.mk "filedata" [] none [], none)], none)], none)], none)])
            { name := some "x.txt", ty := "file", ref := { element := "file" } } with
          extraction_error := some NO_DATA_MSG }], [], []) ∧
    (locate_payload
        (.mk "note" [] none [(.mk "item" [("name", "$FILE")] none
          [(.mk "object" [] none [(.mk "file" [("name", "x.txt")] none
            [(.mk "filedata" [] none [], none)], none)], none)], none)])
        { name := some "x.txt", ty := "file", ref := { element := "file" } }).content_path
      = none := by
  have h := claim_C6_zero_length_payload ⟨fun b => toString b, fun b => toString b⟩
    (.mk "note" [] none [(.mk "item" [("name", "$FILE")] none
      [(.mk "object" [] none [(.mk "file" [("name", "x.txt")] none
        [(.mk "filedata" [] none [], none)], none)], none)], none)])
    "A" "A/icons" "local" [] []
    { name := some "x.txt", ty := "file", ref := { element := "file" } }
    [] [] [] (by decide) ⟨rfl, rfl, trivial⟩
  exact ⟨by simpa using h.2.1, by rw [h.2.2.2.1]⟩

/-! ## `parse_dxl_document_from_string` (claim C2)

The entry of the DXL parser (src/core/dxl/parser.py, lines 1199–1256).  The
function hands `dxl_text` to `ET.fromstring` exactly as received; a
`ParseError` produces the fallback document whose `meta.error` is set, and on
success `meta` records the root's `form` and the `noteinfo` (or root) `unid`
with no `error` key.  The richtext field walk that follows is modelled
separately through `RichTextParser`; only the `meta` portion is needed
here. -/

/-- The `meta` dict of the document returned by
`parse_dxl_document_from_string`. -/
structure DxlMeta where
  db_title : String
  unid : Option String
  form : String
  error : Option String
deriving DecidableEq

/-- `parse_dxl_document_from_string(dxl_text, db_title)`, `meta` portion:
`ET.fromstring(dxl_text)` — the text as given, with no sanitization — then
either the `ParseError` fallback with `meta.error` set, or the success `meta`
(`form` from the root with `"Document"` for a falsy value, `unid` from
`.//noteinfo` falling back to the root's own attribute). -/
def parse_dxl_document_from_string (dxl_text db_title : String) : DxlMeta :=
  match ET_fromstring dxl_text with
  | .error e =>
    { db_title := db_title, unid := none, form := "Document",
      error := some ("DXL XML Parse Error: " ++ e) }
  | .ok root =>
    let form := match root.get "form" with
      | some f => if f = "" then "Document" else f
      | none => "Document"
    let unid := match findAllDesc root "noteinfo" with
      | ni :: _ => ni.get "unid"
      | [] => root.get "unid"
    { db_title := db_title, unid := unid, form := form, error := none }

/-- A DXL text that is well-formed XML apart from a `U+0001` control
character. -/
def dxlC2 : String := "<note unid='U1'><item name='X'><text>a</text>\x01</item></note>"

/-- C2 counterexample: `parse_dxl_document_from_string` does not strip the
C0 control characters — `dxlC2` (well-formed apart from its `U+0001`) fails
to parse and comes back with `meta.error` set, while the same text after
`_sanitize_xml_text` parses cleanly with `unid = U1` and no error.  The
sanitization lives in the attachment extractor, not the parser. -/
theorem claim_C2_c0_strip_counterexample :
    (dxlC2.toList.any forbiddenC0 = true) ∧
    parse_dxl_document_from_string dxlC2 "db" =
      { db_title := "db", unid := none, form := "Document",
        error := some "DXL XML Parse Error: not well-formed (invalid token)" } ∧
    parse_dxl_document_from_string (sanitize_xml_text dxlC2) "db" =
      { db_title := "db", unid := some "U1", form := "Document", error := none } :=
  ⟨rfl, rfl, rfl⟩

/-- C2 (amended): the C0 strip happens in the attachment extractor, not in
`parse_dxl_document_from_string`.  A DXL text containing a forbidden C0
character always parses to a document with `meta.error` set;
`_sanitize_xml_text` removes exactly the characters
`U+0000..U+0008, U+000B, U+000C, U+000E..U+001F` (it leaves clean text
unchanged); and `extract_and_save_json_paths` applies it before
`ET.fromstring`, succeeding exactly when the sanitized text parses. -/
theorem claim_C2_c0_sanitize (dxl db_title : String) (H : HashModel) (env : Env)
    (ir : NDoc) (dir : String) (fs : FS) :
    ((∃ c ∈ dxl.toList, forbiddenC0 c = true) →
       (parse_dxl_document_from_string dxl db_title).error =
         some "DXL XML Parse Error: not well-formed (invalid token)") ∧
    (∀ c ∈ (sanitize_xml_text dxl).toList, forbiddenC0 c = false) ∧
    ((∀ c ∈ dxl.toList, forbiddenC0 c = false) → sanitize_xml_text dxl = dxl) ∧
    ((extract_and_save_json_paths H env dxl ir dir fs).isSome ↔
       ∃ root, ET_fromstring (sanitize_xml_text dxl) = .ok root) := by
  refine ⟨?_, ?_, ?_, ?_⟩
  · rintro ⟨c, hc, hf⟩
    have hany : dxl.toList.any forbiddenC0 = true :=
      List.any_eq_true.mpr ⟨c, hc, hf⟩
    unfold parse_dxl_document_from_string ET_fromstring
    rw [if_pos hany]
    rfl
  · intro c hc
    have := List.of_mem_filter (show c ∈ dxl.toList.filter (fun c => ¬ forbiddenC0 c)
      from hc)
    simpa using this
  · intro h
    have : dxl.toList.filter (fun c => ¬ forbiddenC0 c) = dxl.toList :=
      List.filter_eq_self.mpr (fun c hc => by simp [h c hc])
    show (⟨dxl.toList.filter (fun c => ¬ forbiddenC0 c)⟩ : String) = dxl
    rw [this]
    cases dxl
    rfl
  · unfold extract_and_save_json_paths
    rcases hroot : ET_fromstring (sanitize_xml_text dxl) with e | root
    · simp [hroot]
    · constructor
      · intro _; exact ⟨root, rfl⟩
      · intro _; simp

/-- C2 witness: a text holding `U+0007` parses with `meta.error` set, its
sanitized form is the clean remainder, and clean text is left unchanged. -/
theorem claim_C2_c0_sanitize_witness :
    ((∃ c ∈ ("<a>\x07</a>" : String).toList, forbiddenC0 c = true) →
       (parse_dxl_document_from_string "<a>\x07</a>" "db").error =
         some "DXL XML Parse Error: not well-formed (invalid token)") ∧
    ((∀ c ∈ ("<a></a>" : String).toList, forbiddenC0 c = false) →
       sanitize_xml_text "<a></a>" = "<a></a>") ∧
    (∃ c ∈ ("<a>\x07</a>" : String).toList, forbiddenC0 c = true) ∧
    (∀ c ∈ ("<a></a>" : String).toList, forbiddenC0 c = false) := by
  have h1 := claim_C2_c0_sanitize "<a>\x07</a>" "db"
    ⟨fun _ => "", fun _ => ""⟩ [] {} "A" []
  have h2 := claim_C2_c0_sanitize "<a></a>" "db"
    ⟨fun _ => "", fun _ => ""⟩ [] {} "A" []
  exact ⟨h1.1, h2.2.2.1, ⟨'\x07', by decide⟩, by decide⟩

/-! ## `RichTextParser` (src/core/dxl/parser.py, lines 575–1192)

The richtext walker and its emitters.  Python string sorting (`sorted(...)`)
is code-point lexicographic; the helpers below implement it structurally so
concrete runs reduce in the kernel. -/

/-- Code-point lexicographic order on character lists (Python `<` on
strings). -/
def chListLt : List Char → List Char → Bool
  | [], [] => false
  | [], _ :: _ => true
  | _ :: _, [] => false
  | a :: as, b :: bs =>
    if a.val < b.val then true
    else if b.val < a.val then false
    else chListLt as bs

/-- Insert into a sorted duplicate-free list, skipping duplicates. -/
def insortNubStr (x : String) : List String → List String
  | [] => [x]
  | y :: ys =>
    if x = y then y :: ys
    else if chListLt x.data y.data then x :: y :: ys
    else y :: insortNubStr x ys

/-- `sorted(set(l))` for strings. -/
def sortedNubStr : List String → List String
  | [] => []
  | x :: xs => insortNubStr x (sortedNubStr xs)

/-- Insert an attribute pair into a key-sorted pair list (keys are unique). -/
def insortPair (x : String × AttrVal) : AttrMap → AttrMap
  | [] => [x]
  | y :: ys => if chListLt x.1.data y.1.data then x :: y :: ys else y :: insortPair x ys

/-- `{k: a[k] for k in sorted(a.keys())}`. -/
def sortAssocByKey : AttrMap → AttrMap
  | [] => []
  | x :: xs => insortPair x (sortAssocByKey xs)

/-- `list.extend(item for item in v if item not in acc)` where `acc` is the
list being extended (items appended earlier in the extend are seen). -/
def extendUniq (acc : List String) : List String → List String
  | [] => acc
  | v :: vs => if acc.contains v then extendUniq acc vs else extendUniq (acc ++ [v]) vs

/-- `list(dict.fromkeys(l))`: order-preserving dedup. -/
def ordNub (l : List String) : List String := extendUniq [] l

/-- `s.rstrip()`. -/
def pyRStrip (s : String) : String := ⟨dropTrailing isPyWs s.toList⟩

/-- `s.endswith("\n")`. -/
def endsWithNl (s : String) : Bool :=
  match s.data.getLast? with
  | some c => c = '\n'
  | none => false

/-- `"".join(l)`. -/
def joinStrs (l : List String) : String := l.foldl (· ++ ·) ""

/-- `str.split()`: split on whitespace runs, no empty tokens. -/
def splitWsGo (cur : List Char) : List Char → List String
  | [] => if cur.isEmpty then [] else [⟨cur.reverse⟩]
  | c :: rest =>
    if isPyWs c then
      if cur.isEmpty then splitWsGo [] rest
      else ⟨cur.reverse⟩ :: splitWsGo [] rest
    else splitWsGo (c :: cur) rest

def splitWs (s : String) : List String := splitWsGo [] s.toList

/-- `int(s)` on the decimal strings this code meets: optional surrounding
whitespace, optional sign, at least one digit (PEP 515 underscores are not
modelled — `colspan`/`rowspan` values are plain digits). -/
def pyInt? (s : String) : Option Int :=
  let l := dropTrailing isPyWs (s.toList.dropWhile isPyWs)
  let (neg, ds) := match l with
    | '-' :: rest => (true, rest)
    | '+' :: rest => (false, rest)
    | _ => (false, l)
  if ds ≠ [] ∧ ds.all (fun c => c.isDigit) then
    let n := ds.foldl (fun (a : Nat) c => 10 * a + (c.toNat - 48)) 0
    some (if neg then -(n : Int) else (n : Int))
  else none

/-- `{}`-valued lookup of an optional list attribute (`out['a'].setdefault(k,
[])`; an existing non-list value would raise in Python and does not occur
here). -/
def getLstD (m : AttrMap) (k : String) : List String :=
  match m.lookup k with
  | some (.lst l) => l
  | _ => []

/-- One `src` pass of `_merge_styles`' attribute merging: list values extend
uniquely, other non-`None` values overwrite in place. -/
def mergeAttrInto (out : AttrMap) (src : AttrMap) : AttrMap :=
  src.foldl (fun out kv =>
    match kv.2 with
    | .lst l => setAssoc out kv.1 (.lst (extendUniq (getLstD out kv.1) l))
    | .str s => setAssoc out kv.1 (.str s)) out

/-- `_merge_styles` (src/core/dxl/parser.py, lines 198–229): union of the
`s` flags (`sorted(set(...))`), attribute dicts merged left to right with
`b` taking precedence.  The source never builds a style whose components
are all empty but whose dict is truthy, so empty components model missing
keys. -/
def merge_styles (a b : Style) : Style where
  s := if a.s ++ b.s = [] then [] else sortedNubStr (a.s ++ b.s)
  a := mergeAttrInto (mergeAttrInto [] a.a) b.a

/-- `_style_from_font` (lines 232–287). -/
def style_from_font (el : Xml) : Style :=
  let styles := splitWs
    ⟨(pyLower (el.getD "style" "")).data.map (fun c => if c = ',' then ' ' else c)⟩
  let s := (if styles.contains "bold" then ["b"] else []) ++
    (if styles.contains "italic" then ["i"] else []) ++
    (if styles.contains "underline" then ["u"] else []) ++
    (if styles.contains "strikethrough" ∨ styles.contains "strikeout"
      then ["s"] else [])
  let fx := (if styles.contains "shadow" then ["shadow"] else []) ++
    (if styles.contains "emboss" then ["emboss"] else []) ++
    (if styles.contains "extrude" then ["extrude"] else [])
  let bgcolor := strOr (strOr (el.get "bgcolor") (el.get "background")) (el.get "highlight")
  let baseline := strOr (el.get "baseline") (el.get "position")
  let is_super := styles.contains "superscript" ∨
    baseline = some "super" ∨ baseline = some "superscript"
  let is_sub := styles.contains "subscript" ∨
    baseline = some "sub" ∨ baseline = some "subscript"
  let (script, fx) :=
    if is_super ∧ ¬ is_sub then (some "super", fx ++ ["super"])
    else if is_sub ∧ ¬ is_super then (some "sub", fx ++ ["sub"])
    else (none, fx)
  let strAttr := fun (k : String) (v : Option String) =>
    match v with
    | some x => if x = "" then ([] : AttrMap) else [(k, AttrVal.str x)]
    | none => []
  let a := strAttr "color" (el.get "color") ++ strAttr "size" (el.get "size") ++
    strAttr "bgcolor" bgcolor ++ strAttr "font_family" (el.get "name") ++
    strAttr "script" script ++
    (if fx ≠ [] then [("fx", AttrVal.lst (ordNub fx))] else [])
  { s := s, a := a }

/-- `_style_from_generic_tag` (lines 291–333). -/
def style_from_generic_tag (el : Xml) : Style :=
  if el.tag = "font" then style_from_font el
  else if el.tag = "run" then
    match strOr (strOr (el.get "bgcolor") (el.get "background")) (el.get "highlight") with
    | some v => { a := [("bgcolor", .str v)] }
    | none => {}
  else if el.tag = "b" then { s := ["b"] }
  else if el.tag = "i" then { s := ["i"] }
  else if el.tag = "u" then { s := ["u"] }
  else if el.tag = "strike" then { s := ["s"] }
  else if el.tag = "sup" then
    { a := [("script", .str "super"), ("fx", .lst ["super"])] }
  else if el.tag = "sub" then
    { a := [("script", .str "sub"), ("fx", .lst ["sub"])] }
  else {}

/-- `_collect_inline_style` (lines 336–345): the element's own style merged
with that of every style-tag descendant, in document order. -/
def collect_inline_style (el : Xml) : Style :=
  ((descendants el).filter (fun n =>
      n.tag = "font" ∨ n.tag = "b" ∨ n.tag = "i" ∨ n.tag = "u" ∨
      n.tag = "strike" ∨ n.tag = "sup" ∨ n.tag = "sub")).foldl
    (fun agg n => merge_styles agg (style_from_generic_tag n))
    (style_from_generic_tag el)

/-- `_emit_text._norm_style` on a truthy style dict (a token's
`{"s": ..., "a": ...}` is always truthy). -/
def normTok (s : List String) (a : AttrMap) : Style :=
  { s := sortedNubStr s, a := sortAssocByKey a }

/-- `_norm_style(style)`: `none` models the `{}` returned for a falsy
style. -/
def norm_style (st : Style) : Option Style :=
  if st = ({} : Style) then none else some (normTok st.s st.a)

/-- A truthy attribute value (`if val := el.get(k)`), `none` for absent or
empty. -/
def truthyAttr (el : Xml) (k : String) : Option String :=
  match el.get k with
  | some v => if v = "" then none else some v
  | none => none

/-- The `a` dict `_collect_pardefs` builds for one `<pardef>`. -/
def pardefAttrs (pd : Xml) : ParAttrs where
  align :=
    match pd.get "align" with
    | some "full" => some "justify"
    | some "center" => some "center"
    | some "right" => some "right"
    | _ => none
  leftmargin := truthyAttr pd "leftmargin"
  spaceafter := truthyAttr pd "spaceafter"
  parstyle :=
    match findDirect pd "parstyle" with
    | some ps =>
      match truthyAttr ps "name" with
      | some n => some n
      | none => truthyAttr pd "name"
    | none => truthyAttr pd "name"
  list :=
    match truthyAttr pd "list" with
    | some lt =>
      let lower := pyLower lt
      let mapped := if ["bullet", "number", "uncheck", "square", "alphaupper",
          "alphalower", "romanupper", "romanlower"].contains lower then lower else lt
      some ⟨mapped, lt⟩
    | none => none

/-- `_collect_pardefs` (lines 352–399): all `.//pardef` keyed by `id` (later
ids overwrite). -/
def collect_pardefs (root : Xml) : List (String × ParAttrs) :=
  (findAllDesc root "pardef").foldl (fun m pd =>
    match pd.get "id" with
    | some pid => if pid = "" then m else setAssoc m pid (pardefAttrs pd)
    | none => m) []

/-- The mutable fields of a `RichTextParser` instance. -/
structure RTState where
  runs : List Run := []
  plain : List String := []
  style_stack : List Style := []
  last_par_attrs : Option ParAttrs := none
  pending_par_attrs : Option ParAttrs := some {}
  emitted_anything : Bool := false
  inline_image_index : Nat := 0
  emitted_content_since_last_par : Bool := false

/-- The immutable configuration of a `RichTextParser` (`__init__`
arguments). -/
structure RichTextParser where
  pardefs : List (String × ParAttrs) := []
  attachment_metas : List AttMeta := []

/-- `self._inline_images_meta`: the metas whose `ref.element` is
`picture`. -/
def RichTextParser.inline_images_meta (P : RichTextParser) : List AttMeta :=
  P.attachment_metas.filter (fun m => m.ref.element = "picture")

/-- `self._cur()`: fold the style stack left to right. -/
def RTState.cur (st : RTState) : Style :=
  st.style_stack.foldl merge_styles {}

/-- `_emit_par` (lines 618–659).  Pardef attribute values are never falsy,
so `attrs_filtered == attrs` and `ParAttrs` equality is Python dict
equality. -/
def emit_par (attrs : ParAttrs) (st : RTState) : RTState :=
  let suppress : Bool :=
    match st.runs.getLast? with
    | some (.par lastA) => lastA = attrs && !st.emitted_content_since_last_par
    | _ => false
  if suppress then { st with pending_par_attrs := some attrs }
  else
    let lastNl : Bool :=
      match st.plain.getLast? with
      | some s => endsWithNl s
      | none => false
    let plain :=
      if st.emitted_anything && !lastNl then st.plain ++ ["\n"] else st.plain
    { st with
      runs := st.runs ++ [.par attrs]
      plain := plain
      last_par_attrs := some attrs
      pending_par_attrs := none
      emitted_anything := true
      emitted_content_since_last_par := false }

/-- `_ensure_par_before_content` (lines 601–616). -/
def ensure_par_before_content (st : RTState) : RTState :=
  let st :=
    match st.pending_par_attrs with
    | some attrs => emit_par attrs st
    | none => st
  { st with emitted_content_since_last_par := true }

/-- `_emit_text` (lines 661–723): strip, drop empty, ensure a par, merge
into an identically-styled trailing text run or append a fresh one. -/
def emit_text (t : String) (st : RTState) : RTState :=
  let text := pyStrip t
  if text = "" then st
  else
    let st := ensure_par_before_content st
    let curN := norm_style st.cur
    let fresh : RTState :=
      let sa := match curN with
        | some c => (c.s, c.a)
        | none => ([], [])
      { st with
        runs := st.runs ++ [.text text sa.1 sa.2]
        plain := st.plain ++ [text]
        emitted_anything := true
        emitted_content_since_last_par := true }
    match st.runs.getLast? with
    | some (.text lt ls la) =>
      if curN = some (normTok ls la) then
        { st with
          runs := st.runs.dropLast ++ [.text (lt ++ text) ls la]
          plain :=
            match st.plain.getLast? with
            | some lp => st.plain.dropLast ++ [lp ++ text]
            | none => [text]
          emitted_anything := true
          emitted_content_since_last_par := true }
      else fresh
    | _ => fresh

/-- `_emit_link` (lines 725–750). -/
def emit_link (href label : String) (stl : Style) (notes : List (String × String))
    (st : RTState) : RTState :=
  let st := ensure_par_before_content st
  let label := pyStrip label
  let href := pyStrip href
  let label := if label = "" then (if href ≠ "" then href else "Notes Link") else label
  let merged := merge_styles st.cur stl
  let s := if merged.s.contains "u" then merged.s else merged.s ++ ["u"]
  { st with
    runs := st.runs ++ [.link href label s merged.a notes]
    plain := st.plain ++ [label]
    emitted_anything := true
    emitted_content_since_last_par := true }

/-- `_emit_attachmentref` (lines 752–772). -/
def emit_attachmentref (name : String) (displayname : Option String)
    (st : RTState) : RTState :=
  let st := ensure_par_before_content st
  let eff := pyStrip ((strOr displayname (some name)).getD "")
  let stl := st.cur
  { st with
    runs := st.runs ++ [.attref name eff stl.s stl.a none]
    plain := st.plain ++ ["[" ++ eff ++ "]"]
    emitted_anything := true
    emitted_content_since_last_par := true }

/-- `_emit_inline_image` (lines 774–792): ensure a par, then append an
`img` token for the next inline-image metadata if one remains — the
out-of-range branch only logs, leaving the flag set without appending. -/
def emit_inline_image (P : RichTextParser) (st : RTState) : RTState :=
  let st := ensure_par_before_content st
  match P.inline_images_meta.get? st.inline_image_index with
  | some meta =>
    let alt := meta.name.getD ("inline_image_" ++ Nat.repr st.inline_image_index)
    { st with
      runs := st.runs ++ [.img alt none]
      plain := st.plain ++ ["[Image: " ++ alt ++ "]"]
      emitted_anything := true
      inline_image_index := st.inline_image_index + 1
      emitted_content_since_last_par := true }
  | none => st

/-- Tags `_walk` ignores outright (lines 1170–1180). -/
def rtIgnoredTags : List String :=
  ["pardef", "parstyle", "fonttable", "colortable", "object", "file", "filedata",
   "gif", "jpeg", "png", "bmp", "notesbitmap", "caption", "region"]

/-- The simple style tags of the `is_style_tag` check. -/
def rtStyleTags : List String := ["font", "b", "i", "u", "strike", "sup", "sub"]

mutual

/-- `RichTextParser._walk` (lines 897–1192).  The element is passed with its
own tail because the `<font/>TEXT` rescue emits and then clears `el.tail`;
the returned flag reports that consumption to the caller's loop.  The first
argument is recursion fuel: every branch matches the source, and exhausted
fuel returns the state unchanged. -/
def rtWalk : Nat → RichTextParser → Xml → Option String → RTState → RTState × Bool
  | 0, _, _, _, st => (st, false)
  | fuel + 1, P, el, tl, st =>
    if el.tag = "par" then
      let attrs := ((P.pardefs).lookup (el.getD "def" "")).getD {}
      let st := emit_par attrs st
      (rtWalkContent fuel P el st, false)
    else if el.tag = "table" then
      let st := ensure_par_before_content st
      let r := rtParseTable fuel P el st.plain st.inline_image_index
      ({ st with
         runs := st.runs ++ [r.1]
         plain := r.2.1
         inline_image_index := r.2.2
         emitted_anything := true
         emitted_content_since_last_par := true }, false)
    else if el.tag = "horizrule" then
      let st := ensure_par_before_content st
      ({ st with
         runs := st.runs ++ [.hr el.attrs]
         plain := st.plain ++ ["\n---\n"]
         emitted_anything := true
         emitted_content_since_last_par := true }, false)
    else if el.tag = "section" then
      let st := ensure_par_before_content st
      let subT :=
        match findDirect el "sectiontitle" with
        | some tEl =>
          rtWalkContent fuel P tEl { inline_image_index := st.inline_image_index }
        | none => ({ inline_image_index := st.inline_image_index } : RTState)
      let subB0 : RTState := { inline_image_index := subT.inline_image_index }
      let subB0 :=
        if (el.text.getD "") ≠ "" then emit_text (el.text.getD "") subB0 else subB0
      let subB := rtSectionBody fuel P el.children subB0
      ({ st with
         runs := st.runs ++ [.sect subT.runs subB.runs el.attrs]
         inline_image_index := subB.inline_image_index
         emitted_anything := true
         emitted_content_since_last_par := true }, false)
    else if el.tag = "run" then
      let sa := style_from_generic_tag el
      let pushed := sa ≠ ({} : Style)
      let st := if pushed then { st with style_stack := st.style_stack ++ [sa] } else st
      let st := rtWalkContent fuel P el st
      let st := if pushed then { st with style_stack := st.style_stack.dropLast } else st
      (st, false)
    else if rtStyleTags.contains el.tag then
      let sa := style_from_generic_tag el
      let pushed := sa ≠ ({} : Style)
      if el.tag = "font" ∧ pyStrip (el.text.getD "") = "" ∧
          pyStrip (tl.getD "") ≠ "" ∧ el.children.isEmpty = true then
        let st := if pushed then { st with style_stack := st.style_stack ++ [sa] } else st
        let st := emit_text (tl.getD "") st
        let st := if pushed then { st with style_stack := st.style_stack.dropLast } else st
        (st, true)
      else
        let st := if pushed then { st with style_stack := st.style_stack ++ [sa] } else st
        let st := rtWalkContent fuel P el st
        let st := if pushed then { st with style_stack := st.style_stack.dropLast } else st
        (st, false)
    else if el.tag = "urllink" then
      let href := el.getD "href" ""
      let label :=
        (strOr (strOr (some (pyStrip (itertext el))) (el.get "title")) (some href)).getD ""
      (emit_link href label (collect_inline_style el) [] st, false)
    else if el.tag = "doclink" then
      let entry := fun (k : String) (v : Option String) =>
        match v with
        | some s => if s = "" then ([] : List (String × String)) else [(k, s)]
        | none => []
      let notes := entry "server" (el.get "server") ++
        entry "replica" (strOr (el.get "database") (el.get "db")) ++
        entry "unid" (strOr (el.get "document") (el.get "unid")) ++
        entry "view" (el.get "view")
      let label :=
        (strOr (strOr (some (pyStrip (itertext el))) (el.get "description"))
          (some "DocLink")).getD ""
      (emit_link "" label (collect_inline_style el) notes st, false)
    else if el.tag = "attachmentref" then
      (match el.get "name" with
       | some n => if n ≠ "" then emit_attachmentref n (el.get "displayname") st else st
       | none => st, false)
    else if el.tag = "picture" then
      (emit_inline_image P st, false)
    else if el.tag = "br" ∨ el.tag = "break" then
      let st := ensure_par_before_content st
      ({ st with
         runs := st.runs ++ [.br]
         plain := st.plain ++ ["\n"]
         emitted_anything := true
         emitted_content_since_last_par := true }, false)
    else if rtIgnoredTags.contains el.tag then (st, false)
    else (rtWalkContent fuel P el st, false)

/-- The `if el.text: emit; for ch: walk; if ch.tail: emit` pattern shared by
`parse`, `par`, `run`, style tags, table cells and the unknown-tag
fallback. -/
def rtWalkContent : Nat → RichTextParser → Xml → RTState → RTState
  | 0, _, _, st => st
  | fuel + 1, P, el, st =>
    let st := if (el.text.getD "") ≠ "" then emit_text (el.text.getD "") st else st
    rtWalkChildren fuel P el.children st

def rtWalkChildren : Nat → RichTextParser → List (Xml × Option String) → RTState → RTState
  | 0, _, _, st => st
  | fuel + 1, P, pairs, st =>
    match pairs with
    | [] => st
    | (ch, tl) :: rest =>
      let r := rtWalk fuel P ch tl st
      let st :=
        if r.2 = false ∧ (tl.getD "") ≠ "" then emit_text (tl.getD "") r.1 else r.1
      rtWalkChildren fuel P rest st

/-- The section-body loop: `pardef`/`sectiontitle` children are skipped but
their tails belong to the body. -/
def rtSectionBody : Nat → RichTextParser → List (Xml × Option String) → RTState → RTState
  | 0, _, _, st => st
  | fuel + 1, P, pairs, st =>
    match pairs with
    | [] => st
    | (ch, tl) :: rest =>
      if ch.tag = "pardef" ∨ ch.tag = "sectiontitle" then
        let st := if (tl.getD "") ≠ "" then emit_text (tl.getD "") st else st
        rtSectionBody fuel P rest st
      else
        let r := rtWalk fuel P ch tl st
        let st :=
          if r.2 = false ∧ (tl.getD "") ≠ "" then emit_text (tl.getD "") r.1 else r.1
        rtSectionBody fuel P rest st

/-- `_parse_table` (lines 794–884): it touches only the parser's `_plain`
and `_inline_image_index`, threaded here explicitly. -/
def rtParseTable : Nat → RichTextParser → Xml → List String → Nat →
    Run × List String × Nat
  | 0, _, _, plain, idx => (.table [] [] [], plain, idx)
  | fuel + 1, P, tbl, plain, idx =>
    let columns := (findAllDirect tbl "tablecolumn").map (fun col =>
      match truthyAttr col "width" with
      | some w => [("width", w)]
      | none => ([] : List (String × String)))
    let r := rtTableRows fuel P (findAllDirect tbl "tablerow") plain idx
    (.table r.1 tbl.attrs columns, r.2.1, r.2.2)

def rtTableRows : Nat → RichTextParser → List Xml → List String → Nat →
    List TableRow × List String × Nat
  | 0, _, _, plain, idx => ([], plain, idx)
  | fuel + 1, P, rows, plain, idx =>
    match rows with
    | [] => ([], plain, idx)
    | rowEl :: rest =>
      let c := rtTableCells fuel P (findAllDirect rowEl "tablecell") plain idx
      let r := rtTableRows fuel P rest c.2.1 c.2.2
      (TableRow.mk rowEl.attrs c.1 :: r.1, r.2.1, r.2.2)

def rtTableCells : Nat → RichTextParser → List Xml → List String → Nat →
    List TableCell × List String × Nat
  | 0, _, _, plain, idx => ([], plain, idx)
  | fuel + 1, P, cells, plain, idx =>
    match cells with
    | [] => ([], plain, idx)
    | cellEl :: rest =>
      let colspan :=
        match truthyAttr cellEl "colspan" with
        | some v => pyInt? v
        | none => none
      let rowspan :=
        match truthyAttr cellEl "rowspan" with
        | some v => pyInt? v
        | none => none
      let style := cellEl.attrs.filter (fun kv => kv.1 ≠ "colspan" ∧ kv.1 ≠ "rowspan")
      let sub := rtWalkContent fuel P cellEl { inline_image_index := idx }
      let cell_plain := pyRStrip (joinStrs sub.plain)
      let plain := if cell_plain ≠ "" then plain ++ [cell_plain ++ " "] else plain
      let r := rtTableCells fuel P rest plain sub.inline_image_index
      (TableCell.mk colspan rowspan style sub.runs :: r.1, r.2.1, r.2.2)

end

/-- `RichTextParser.parse` (lines 885–895): fresh state, text+children walk,
`{"text": "".join(plain).rstrip(), "runs": runs}`. -/
def RichTextParser.parse (fuel : Nat) (P : RichTextParser) (richtext_el : Xml) :
    String × List Run :=
  let st := rtWalkContent fuel P richtext_el {}
  (pyRStrip (joinStrs st.plain), st.runs)

/-! ## The C7 and C10 output predicates -/

/-- Two adjacent runs forming an identical-attribute `par` pair. -/
def isDupPar : Run → Run → Bool
  | .par a, .par b => a = b
  | _, _ => false

mutual

/-- No two consecutive identical `par` tokens, recursively inside table
cells and section title/body runs. -/
def runsOk : List Run → Bool
  | [] => true
  | [r] => runDeepOk r
  | r1 :: r2 :: rest => !(isDupPar r1 r2) && runDeepOk r1 && runsOk (r2 :: rest)

def runDeepOk : Run → Bool
  | .table rows _ _ => rowsOk rows
  | .sect t b _ => runsOk t && runsOk b
  | _ => true

def rowsOk : List TableRow → Bool
  | [] => true
  | .mk _ cs :: rest => cellsOk cs && rowsOk rest

def cellsOk : List TableCell → Bool
  | [] => true
  | .mk _ _ _ rs :: rest => runsOk rs && cellsOk rest

end

mutual

/-- Every `text` run carries non-empty, whitespace-stripped text,
recursively inside table cells and section title/body runs. -/
def textsOk : List Run → Bool
  | [] => true
  | r :: rest => textRunOk r && textsOk rest

def textRunOk : Run → Bool
  | .text t _ _ => decide (t ≠ "" ∧ pyStrip t = t)
  | .table rows _ _ => rowsTextsOk rows
  | .sect t b _ => textsOk t && textsOk b
  | _ => true

def rowsTextsOk : List TableRow → Bool
  | [] => true
  | .mk _ cs :: rest => cellsTextsOk cs && rowsTextsOk rest

def cellsTextsOk : List TableCell → Bool
  | [] => true
  | .mk _ _ _ rs :: rest => textsOk rs && cellsTextsOk rest

end

/-- The state invariant behind C7: the runs are adjacent-dup free and, when
the last run is a `par`, no content has been recorded since it (so an
identical `par` would be suppressed). -/
def Inv7 (st : RTState) : Prop :=
  runsOk st.runs = true ∧
  ∀ a, st.runs.getLast? = some (.par a) → st.emitted_content_since_last_par = false

mutual

/-- Walker-reachable `picture` occurrences: everything except
`attachmentref` subtrees (whose children `_walk` never visits). -/
def countPicsNA : Xml → Nat
  | .mk tag _ _ children =>
    if tag = "attachmentref" then 0
    else (if tag = "picture" then 1 else 0) + countPicsNAList children

def countPicsNAList : List (Xml × Option String) → Nat
  | [] => 0
  | (c, _) :: rest => countPicsNA c + countPicsNAList rest

end

/-- Sum of `countPicsNA` over an element list. -/
def picsOfEls : List Xml → Nat
  | [] => 0
  | x :: rest => countPicsNA x + picsOfEls rest

/-- `countPicsNAList` skipping `pardef`/`sectiontitle` children (the
section-body loop). -/
def picsOfSectBody : List (Xml × Option String) → Nat
  | [] => 0
  | (c, _) :: rest =>
    if c.tag = "pardef" ∨ c.tag = "sectiontitle" then picsOfSectBody rest
    else countPicsNA c + picsOfSectBody rest

/-- Whether a run is a `par` token. -/
def Run.isPar : Run → Bool
  | .par _ => true
  | _ => false

lemma isDupPar_nonpar (x r : Run) (h : r.isPar = false) : isDupPar x r = false := by
  cases x <;> cases r <;> simp_all [isDupPar, Run.isPar]

lemma getLast?_app {α : Type} (l : List α) (r : α) : (l ++ [r]).getLast? = some r := by
  induction l with
  | nil => rfl
  | cons x xs ih =>
    rw [List.cons_append, List.getLast?_cons]
    simp [List.getLastD, congrArg (Option.getD · x) ih]

lemma runsOk_cons_cons (r1 r2 : Run) (rest : List Run) :
    runsOk (r1 :: r2 :: rest) =
      (!(isDupPar r1 r2) && runDeepOk r1 && runsOk (r2 :: rest)) := rfl

lemma runsOk_cons_cons_iff (r1 r2 : Run) (rest : List Run) :
    runsOk (r1 :: r2 :: rest) = true ↔
      isDupPar r1 r2 = false ∧ runDeepOk r1 = true ∧ runsOk (r2 :: rest) = true := by
  rw [runsOk_cons_cons]
  simp [Bool.and_eq_true, and_assoc]

lemma runsOk_append (l : List Run) (r : Run) (h : runsOk l = true)
    (hd : runDeepOk r = true)
    (hl : ∀ lr, l.getLast? = some lr → isDupPar lr r = false) :
    runsOk (l ++ [r]) = true := by
  induction l with
  | nil => simpa [runsOk] using hd
  | cons x xs ih =>
    cases xs with
    | nil =>
      have hx : isDupPar x r = false := hl x rfl
      have hxd : runDeepOk x = true := by simpa [runsOk] using h
      show runsOk (x :: [r]) = true
      rw [runsOk_cons_cons_iff]
      exact ⟨hx, hxd, by simpa [runsOk] using hd⟩
    | cons y ys =>
      obtain ⟨hxy, hxd, h23⟩ := (runsOk_cons_cons_iff x y ys).mp h
      have hl' : ∀ lr, (y :: ys).getLast? = some lr → isDupPar lr r = false := by
        intro lr hlr
        exact hl lr (by simpa [List.getLast?_cons, List.getLastD] using hlr)
      have ih' := ih h23 hl'
      show runsOk (x :: (y :: (ys ++ [r]))) = true
      rw [runsOk_cons_cons_iff]
      exact ⟨hxy, hxd, by simpa using ih'⟩

lemma runsOk_prefix (l : List Run) (r : Run) (h : runsOk (l ++ [r]) = true) :
    runsOk l = true := by
  induction l with
  | nil => rfl
  | cons x xs ih =>
    cases xs with
    | nil =>
      obtain ⟨_, hxd, _⟩ := (runsOk_cons_cons_iff x r []).mp (by simpa using h)
      simpa [runsOk] using hxd
    | cons y ys =>
      have h' : runsOk (x :: y :: (ys ++ [r])) = true := by simpa using h
      obtain ⟨hxy, hxd, h23⟩ := (runsOk_cons_cons_iff x y (ys ++ [r])).mp h'
      have := ih (by simpa using h23)
      rw [runsOk_cons_cons_iff]
      exact ⟨hxy, hxd, this⟩

lemma runsOk_replace_last (l : List Run) (r' : Run) (h : runsOk l = true)
    (hne : l ≠ []) (hr' : ∀ x, isDupPar x r' = false) (hd : runDeepOk r' = true) :
    runsOk (l.dropLast ++ [r']) = true := by
  induction l with
  | nil => exact absurd rfl hne
  | cons x xs ih =>
    cases xs with
    | nil => simpa [runsOk] using hd
    | cons y ys =>
      obtain ⟨hxy, hxd, h23⟩ := (runsOk_cons_cons_iff x y ys).mp h
      have ih' := ih h23 (by simp)
      show runsOk (x :: ((y :: ys).dropLast ++ [r'])) = true
      cases ys with
      | nil =>
        rw [show ((y :: []).dropLast ++ [r']) = [r'] from rfl]
        rw [runsOk_cons_cons_iff]
        exact ⟨hr' x, hxd, by simpa [runsOk] using hd⟩
      | cons z zs =>
        rw [show ((y :: z :: zs).dropLast ++ [r']) =
            y :: ((z :: zs).dropLast ++ [r']) from rfl]
        rw [runsOk_cons_cons_iff]
        refine ⟨hxy, hxd, ?_⟩
        have : (y :: z :: zs).dropLast ++ [r'] = y :: ((z :: zs).dropLast ++ [r']) := rfl
        rw [← this]
        exact ih'

lemma textsOk_append (l : List Run) (r : Run) :
    textsOk (l ++ [r]) = (textsOk l && textRunOk r) := by
  induction l with
  | nil => simp [textsOk]
  | cons x xs ih =>
    show (textRunOk x && textsOk (xs ++ [r])) = _
    rw [ih]
    show _ = (textRunOk x && textsOk xs && textRunOk r)
    rw [Bool.and_assoc]

lemma textsOk_dropLast (l : List Run) (h : textsOk l = true) :
    textsOk l.dropLast = true := by
  induction l with
  | nil => rfl
  | cons x xs ih =>
    cases xs with
    | nil => rfl
    | cons y ys =>
      have hx : textRunOk x = true := by
        have := h; simp [textsOk, Bool.and_eq_true] at this; exact this.1
      have h2 : textsOk (y :: ys) = true := by
        have := h; simp [textsOk, Bool.and_eq_true] at this
        simp [textsOk, Bool.and_eq_true, this.2.1, this.2.2]
      have := ih h2
      show textsOk (x :: (y :: ys).dropLast) = true
      cases hzz : (y :: ys).dropLast with
      | nil => simpa [textsOk] using hx
      | cons z zs =>
        show (textRunOk x && textsOk (z :: zs)) = true
        rw [hzz] at this
        simp [Bool.and_eq_true, hx, this]

/-! ### `str.strip()` fixed points -/

/-- A character list with no leading or trailing Python whitespace. -/
def strippedL (l : List Char) : Prop :=
  (∀ c, l.head? = some c → isPyWs c = false) ∧
  (∀ c, l.getLast? = some c → isPyWs c = false)

lemma head_dropWhile {p : Char → Bool} {l : List Char} {c : Char}
    (h : (l.dropWhile p).head? = some c) : p c = false := by
  induction l with
  | nil => simp [List.dropWhile] at h
  | cons x xs ih =>
    rw [List.dropWhile_cons] at h
    by_cases hx : p x = true
    · rw [if_pos hx] at h
      exact ih h
    · rw [if_neg hx] at h
      simp at h
      subst h
      simpa using hx

lemma dropWhile_of_head {p : Char → Bool} {l : List Char}
    (h : ∀ c, l.head? = some c → p c = false) : l.dropWhile p = l := by
  cases l with
  | nil => rfl
  | cons x xs =>
    rw [List.dropWhile_cons, if_neg (by simp [h x rfl])]

lemma dropTrailing_prefix (p : Char → Bool) (m : List Char) :
    dropTrailing p m <+: m := by
  unfold dropTrailing
  have hsuf : m.reverse.dropWhile p <:+ m.reverse := List.dropWhile_suffix _
  have := List.reverse_prefix.mpr hsuf
  simpa using this

lemma strippedL_strip (l : List Char) :
    strippedL (dropTrailing isPyWs (l.dropWhile isPyWs)) := by
  constructor
  · intro c hc
    obtain ⟨t, ht⟩ := dropTrailing_prefix isPyWs (l.dropWhile isPyWs)
    rcases hd : dropTrailing isPyWs (l.dropWhile isPyWs) with _ | ⟨x, xs⟩
    · rw [hd] at hc; simp at hc
    · rw [hd] at hc
      simp at hc
      subst hc
      rw [hd] at ht
      have hm : (l.dropWhile isPyWs).head? = some x := by
        rw [← ht]; rfl
      exact head_dropWhile hm
  · intro c hc
    unfold dropTrailing at hc
    rw [← List.head?_reverse, List.reverse_reverse] at hc
    exact head_dropWhile hc

lemma strip_of_strippedL {l : List Char} (h : strippedL l) :
    dropTrailing isPyWs (l.dropWhile isPyWs) = l := by
  have h1 : l.dropWhile isPyWs = l := dropWhile_of_head h.1
  rw [h1]
  unfold dropTrailing
  have h2 : l.reverse.dropWhile isPyWs = l.reverse := by
    apply dropWhile_of_head
    intro c hc
    exact h.2 c (by rwa [List.head?_reverse] at hc)
  rw [h2, List.reverse_reverse]

lemma pyStrip_data (s : String) :
    (pyStrip s).data = dropTrailing isPyWs (s.data.dropWhile isPyWs) := rfl

lemma pyStrip_fix {s : String} (h : strippedL s.data) : pyStrip s = s := by
  have := strip_of_strippedL h
  apply String.ext
  rw [pyStrip_data, this]

lemma strippedL_pyStrip (s : String) : strippedL (pyStrip s).data := by
  rw [pyStrip_data]
  exact strippedL_strip s.data

lemma pyStrip_idem (s : String) : pyStrip (pyStrip s) = pyStrip s :=
  pyStrip_fix (strippedL_pyStrip s)

lemma strippedL_append {a b : List Char} (ha : strippedL a) (hb : strippedL b)
    (hna : a ≠ []) (hnb : b ≠ []) : strippedL (a ++ b) := by
  constructor
  · intro c hc
    apply ha.1 c
    rcases a with _ | ⟨x, xs⟩
    · exact absurd rfl hna
    · simpa using hc
  · intro c hc
    apply hb.2 c
    rwa [List.getLast?_append_of_ne_nil _ hnb] at hc

/-- Two nonempty stripped strings concatenate to a nonempty stripped
string — the merged text run of `_emit_text` stays normalized. -/
lemma pyStrip_append_fix {a b : String} (ha : pyStrip a = a) (hb : pyStrip b = b)
    (hna : a ≠ "") (hnb : b ≠ "") :
    pyStrip (a ++ b) = a ++ b ∧ a ++ b ≠ "" := by
  have had : strippedL a.data := by rw [← ha]; exact strippedL_pyStrip a
  have hbd : strippedL b.data := by rw [← hb]; exact strippedL_pyStrip b
  have hna' : a.data ≠ [] := fun h => hna (by cases a; simp_all)
  have hnb' : b.data ≠ [] := fun h => hnb (by cases b; simp_all)
  constructor
  · apply pyStrip_fix
    rw [String.data_append]
    exact strippedL_append had hbd hna' hnb'
  · intro h
    apply hna'
    have := congrArg String.data h
    rw [String.data_append] at this
    simpa using (List.append_eq_nil.mp this).1

/-! ### Emitter preservation lemmas -/

lemma emit_par_idx (attrs : ParAttrs) (st : RTState) :
    (emit_par attrs st).inline_image_index = st.inline_image_index := by
  unfold emit_par
  dsimp only
  split <;> rfl

lemma emit_par_stack (attrs : ParAttrs) (st : RTState) :
    (emit_par attrs st).style_stack = st.style_stack := by
  unfold emit_par
  dsimp only
  split <;> rfl

lemma emit_par_inv7 (attrs : ParAttrs) (st : RTState) (h : Inv7 st) :
    Inv7 (emit_par attrs st) := by
  obtain ⟨hok, hlast⟩ := h
  unfold emit_par
  dsimp only
  split
  · exact ⟨hok, hlast⟩
  · next hsup =>
    simp only [Bool.not_eq_true] at hsup
    refine ⟨?_, ?_⟩
    · refine runsOk_append _ _ hok rfl ?_
      intro lr hlr
      cases lr
      case par a0 =>
        rw [hlr] at hsup
        have hf : st.emitted_content_since_last_par = false := hlast a0 hlr
        rw [hf] at hsup
        simp only [Bool.not_false, Bool.and_true] at hsup
        simpa [isDupPar] using hsup
      all_goals rfl
    · intro a _
      rfl

lemma emit_par_textsOk (attrs : ParAttrs) (st : RTState)
    (h : textsOk st.runs = true) : textsOk (emit_par attrs st).runs = true := by
  unfold emit_par
  dsimp only
  split
  · exact h
  · show textsOk (st.runs ++ [.par attrs]) = true
    rw [textsOk_append, h]
    rfl

lemma ensure_idx (st : RTState) :
    (ensure_par_before_content st).inline_image_index = st.inline_image_index := by
  unfold ensure_par_before_content
  dsimp only
  rcases hp : st.pending_par_attrs with _ | a
  · rfl
  · show (emit_par a st).inline_image_index = st.inline_image_index
    exact emit_par_idx a st

lemma ensure_stack (st : RTState) :
    (ensure_par_before_content st).style_stack = st.style_stack := by
  unfold ensure_par_before_content
  dsimp only
  rcases hp : st.pending_par_attrs with _ | a
  · rfl
  · show (emit_par a st).style_stack = st.style_stack
    exact emit_par_stack a st

lemma ensure_runsOk (st : RTState) (h : Inv7 st) :
    runsOk (ensure_par_before_content st).runs = true := by
  unfold ensure_par_before_content
  dsimp only
  rcases hp : st.pending_par_attrs with _ | a
  · exact h.1
  · show runsOk (emit_par a st).runs = true
    exact (emit_par_inv7 a st h).1

lemma ensure_textsOk (st : RTState) (h : textsOk st.runs = true) :
    textsOk (ensure_par_before_content st).runs = true := by
  unfold ensure_par_before_content
  dsimp only
  rcases hp : st.pending_par_attrs with _ | a
  · exact h
  · show textsOk (emit_par a st).runs = true
    exact emit_par_textsOk a st h

lemma textsOk_getLast (l : List Run) (r : Run) (h : textsOk l = true)
    (hl : l.getLast? = some r) : textRunOk r = true := by
  induction l with
  | nil => simp at hl
  | cons x xs ih =>
    obtain ⟨hx, hxs⟩ : textRunOk x = true ∧ textsOk xs = true := by
      simpa [textsOk, Bool.and_eq_true] using h
    cases xs with
    | nil =>
      have hxr : x = r := by simpa using hl
      rw [← hxr]; exact hx
    | cons y ys =>
      refine ih hxs ?_
      simpa [List.getLast?_cons, List.getLastD] using hl

/-- The three outcomes of `_emit_text`: no-op on whitespace, a fresh `text`
run, or a merge into an identically-styled trailing `text` run. -/
lemma emit_text_cases (t : String) (st : RTState) :
    emit_text t st = st ∨
    (∃ s a pl,
      emit_text t st = { ensure_par_before_content st with
        runs := (ensure_par_before_content st).runs ++ [.text (pyStrip t) s a]
        plain := pl
        emitted_anything := true
        emitted_content_since_last_par := true } ∧ pyStrip t ≠ "") ∨
    (∃ lt ls la pl,
      (ensure_par_before_content st).runs.getLast? = some (.text lt ls la) ∧
      emit_text t st = { ensure_par_before_content st with
        runs := (ensure_par_before_content st).runs.dropLast ++
          [.text (lt ++ pyStrip t) ls la]
        plain := pl
        emitted_anything := true
        emitted_content_since_last_par := true } ∧ pyStrip t ≠ "") := by
  unfold emit_text
  dsimp only
  split
  · exact Or.inl rfl
  · next he =>
    rcases hl : (ensure_par_before_content st).runs.getLast? with _ | lr
    · dsimp only
      rcases hc : norm_style (ensure_par_before_content st).cur with _ | c <;> dsimp only
      · exact Or.inr (Or.inl ⟨[], [], _, rfl, he⟩)
      · exact Or.inr (Or.inl ⟨c.s, c.a, _, rfl, he⟩)
    · cases lr
      case text lt ls la =>
        dsimp only
        by_cases hm : norm_style (ensure_par_before_content st).cur = some (normTok ls la)
        · rw [if_pos hm]
          exact Or.inr (Or.inr ⟨lt, ls, la, _, rfl, rfl, he⟩)
        · rw [if_neg hm]
          rcases hc : norm_style (ensure_par_before_content st).cur with _ | c <;> dsimp only
          · exact Or.inr (Or.inl ⟨[], [], _, rfl, he⟩)
          · exact Or.inr (Or.inl ⟨c.s, c.a, _, rfl, he⟩)
      all_goals
        dsimp only
        rcases hc : norm_style (ensure_par_before_content st).cur with _ | c <;> dsimp only
      all_goals first
        | exact Or.inr (Or.inl ⟨[], [], _, rfl, he⟩)
        | exact Or.inr (Or.inl ⟨c.s, c.a, _, rfl, he⟩)

lemma getLast?_some_ne_nil {α : Type} {l : List α} {x : α}
    (h : l.getLast? = some x) : l ≠ [] := by
  intro he
  subst he
  simp at h

lemma emit_text_idx (t : String) (st : RTState) :
    (emit_text t st).inline_image_index = st.inline_image_index := by
  rcases emit_text_cases t st with h | ⟨s, a, pl, h, _⟩ | ⟨lt, ls, la, pl, _, h, _⟩
  · rw [h]
  · rw [h]; exact ensure_idx st
  · rw [h]; exact ensure_idx st

lemma emit_text_stack (t : String) (st : RTState) :
    (emit_text t st).style_stack = st.style_stack := by
  rcases emit_text_cases t st with h | ⟨s, a, pl, h, _⟩ | ⟨lt, ls, la, pl, _, h, _⟩
  · rw [h]
  · rw [h]; exact ensure_stack st
  · rw [h]; exact ensure_stack st

lemma emit_text_inv7 (t : String) (st : RTState) (h7 : Inv7 st) :
    Inv7 (emit_text t st) := by
  rcases emit_text_cases t st with h | ⟨s, a, pl, h, _⟩ | ⟨lt, ls, la, pl, hlast, h, _⟩
  · rw [h]; exact h7
  · rw [h]
    refine ⟨runsOk_append _ _ (ensure_runsOk st h7) rfl
      (fun lr _ => isDupPar_nonpar lr _ rfl), ?_⟩
    intro a' ha
    rw [show ({ ensure_par_before_content st with
        runs := (ensure_par_before_content st).runs ++ [.text (pyStrip t) s a]
        plain := pl
        emitted_anything := true
        emitted_content_since_last_par := true } : RTState).runs =
      (ensure_par_before_content st).runs ++ [.text (pyStrip t) s a] from rfl] at ha
    rw [getLast?_app] at ha
    exact absurd (Option.some.inj ha) (fun hh => Run.noConfusion hh)
  · rw [h]
    refine ⟨runsOk_replace_last _ _ (ensure_runsOk st h7)
      (getLast?_some_ne_nil hlast) (fun x => isDupPar_nonpar x _ rfl) rfl, ?_⟩
    intro a' ha
    rw [show ({ ensure_par_before_content st with
        runs := (ensure_par_before_content st).runs.dropLast ++
          [.text (lt ++ pyStrip t) ls la]
        plain := pl
        emitted_anything := true
        emitted_content_since_last_par := true } : RTState).runs =
      (ensure_par_before_content st).runs.dropLast ++
        [.text (lt ++ pyStrip t) ls la] from rfl] at ha
    rw [getLast?_app] at ha
    exact absurd (Option.some.inj ha) (fun hh => Run.noConfusion hh)

lemma emit_text_textsOk (t : String) (st : RTState) (ht : textsOk st.runs = true) :
    textsOk (emit_text t st).runs = true := by
  rcases emit_text_cases t st with h | ⟨s, a, pl, h, hne⟩ | ⟨lt, ls, la, pl, hlast, h, hne⟩
  · rw [h]; exact ht
  · rw [h]
    show textsOk ((ensure_par_before_content st).runs ++ [.text (pyStrip t) s a]) = true
    rw [textsOk_append, ensure_textsOk st ht]
    have : textRunOk (.text (pyStrip t) s a) = true := by
      simp only [textRunOk, decide_eq_true_eq]
      exact ⟨hne, pyStrip_idem t⟩
    rw [this]
    rfl
  · rw [h]
    show textsOk ((ensure_par_before_content st).runs.dropLast ++
      [.text (lt ++ pyStrip t) ls la]) = true
    have hlt : lt ≠ "" ∧ pyStrip lt = lt := by
      have := textsOk_getLast _ _ (ensure_textsOk st ht) hlast
      simpa [textRunOk, decide_eq_true_eq] using this
    have hcat := pyStrip_append_fix hlt.2 (pyStrip_idem t) hlt.1 hne
    rw [textsOk_append, textsOk_dropLast _ (ensure_textsOk st ht)]
    have : textRunOk (.text (lt ++ pyStrip t) ls la) = true := by
      simp only [textRunOk, decide_eq_true_eq]
      exact ⟨hcat.2, hcat.1⟩
    rw [this]
    rfl

lemma emit_link_idx (href label : String) (stl : Style) (notes : List (String × String))
    (st : RTState) :
    (emit_link href label stl notes st).inline_image_index = st.inline_image_index := by
  unfold emit_link
  dsimp only
  exact ensure_idx st

lemma emit_link_stack (href label : String) (stl : Style) (notes : List (String × String))
    (st : RTState) :
    (emit_link href label stl notes st).style_stack = st.style_stack := by
  unfold emit_link
  dsimp only
  exact ensure_stack st

lemma emit_link_inv7 (href label : String) (stl : Style) (notes : List (String × String))
    (st : RTState) (h7 : Inv7 st) : Inv7 (emit_link href label stl notes st) := by
  unfold emit_link
  dsimp only
  refine ⟨runsOk_append _ _ (ensure_runsOk st h7) rfl
    (fun lr _ => isDupPar_nonpar lr _ rfl), ?_⟩
  intro a' ha
  rw [show (ensure_par_before_content st).runs ++ [_] = _ from rfl, getLast?_app] at ha
  exact absurd (Option.some.inj ha) (fun hh => Run.noConfusion hh)

lemma emit_link_textsOk (href label : String) (stl : Style)
    (notes : List (String × String)) (st : RTState) (ht : textsOk st.runs = true) :
    textsOk (emit_link href label stl notes st).runs = true := by
  unfold emit_link
  dsimp only
  rw [show textsOk ((ensure_par_before_content st).runs ++ [_]) =
    _ from textsOk_append _ _]
  rw [ensure_textsOk st ht]
  rfl

lemma emit_attachmentref_idx (name : String) (displayname : Option String)
    (st : RTState) :
    (emit_attachmentref name displayname st).inline_image_index = st.inline_image_index := by
  unfold emit_attachmentref
  dsimp only
  exact ensure_idx st

lemma emit_attachmentref_stack (name : String) (displayname : Option String)
    (st : RTState) :
    (emit_attachmentref name displayname st).style_stack = st.style_stack := by
  unfold emit_attachmentref
  dsimp only
  exact ensure_stack st

lemma emit_attachmentref_inv7 (name : String) (displayname : Option String)
    (st : RTState) (h7 : Inv7 st) : Inv7 (emit_attachmentref name displayname st) := by
  unfold emit_attachmentref
  dsimp only
  refine ⟨runsOk_append _ _ (ensure_runsOk st h7) rfl
    (fun lr _ => isDupPar_nonpar lr _ rfl), ?_⟩
  intro a' ha
  rw [show (ensure_par_before_content st).runs ++ [_] = _ from rfl, getLast?_app] at ha
  exact absurd (Option.some.inj ha) (fun hh => Run.noConfusion hh)

lemma emit_attachmentref_textsOk (name : String) (displayname : Option String)
    (st : RTState) (ht : textsOk st.runs = true) :
    textsOk (emit_attachmentref name displayname st).runs = true := by
  unfold emit_attachmentref
  dsimp only
  rw [show textsOk ((ensure_par_before_content st).runs ++ [_]) =
    _ from textsOk_append _ _]
  rw [ensure_textsOk st ht]
  rfl

lemma emit_inline_image_idx_le (P : RichTextParser) (st : RTState) :
    (emit_inline_image P st).inline_image_index ≤ st.inline_image_index + 1 := by
  unfold emit_inline_image
  dsimp only
  rcases hg : P.inline_images_meta.get? (ensure_par_before_content st).inline_image_index
    with _ | meta
  · rw [ensure_idx st]
    exact Nat.le_succ _
  · show (ensure_par_before_content st).inline_image_index + 1 ≤ _
    rw [ensure_idx st]

lemma emit_inline_image_stack (P : RichTextParser) (st : RTState) :
    (emit_inline_image P st).style_stack = st.style_stack := by
  unfold emit_inline_image
  dsimp only
  rcases hg : P.inline_images_meta.get? (ensure_par_before_content st).inline_image_index
    with _ | meta
  · exact ensure_stack st
  · exact ensure_stack st

lemma emit_inline_image_textsOk (P : RichTextParser) (st : RTState)
    (ht : textsOk st.runs = true) :
    textsOk (emit_inline_image P st).runs = true := by
  unfold emit_inline_image
  dsimp only
  rcases hg : P.inline_images_meta.get? (ensure_par_before_content st).inline_image_index
    with _ | meta
  · exact ensure_textsOk st ht
  · rw [show textsOk ((ensure_par_before_content st).runs ++ [_]) =
      _ from textsOk_append _ _]
    rw [ensure_textsOk st ht]
    rfl

lemma emit_inline_image_inv7 (P : RichTextParser) (st : RTState) (h7 : Inv7 st)
    (hb : st.inline_image_index < P.inline_images_meta.length) :
    Inv7 (emit_inline_image P st) ∧
      (emit_inline_image P st).inline_image_index = st.inline_image_index + 1 := by
  unfold emit_inline_image
  dsimp only
  rcases hg : P.inline_images_meta.get? (ensure_par_before_content st).inline_image_index
    with _ | meta
  · rw [ensure_idx st] at hg
    rw [List.get?_eq_get hb] at hg
    cases hg
  · dsimp only
    refine ⟨⟨runsOk_append _ _ (ensure_runsOk st h7) rfl
      (fun lr _ => isDupPar_nonpar lr _ rfl), ?_⟩, ?_⟩
    · intro a' ha
      dsimp only at ha
      rw [getLast?_app] at ha
      exact absurd (Option.some.inj ha) (fun hh => Run.noConfusion hh)
    · show (ensure_par_before_content st).inline_image_index + 1 = _
      rw [ensure_idx st]

/-! ### Picture-count arithmetic -/

lemma countPicsNA_eq (el : Xml) :
    countPicsNA el = if el.tag = "attachmentref" then 0
      else (if el.tag = "picture" then 1 else 0) + countPicsNAList el.children := by
  cases el
  rfl

lemma countPicsNAList_children_le (el : Xml) (h : el.tag ≠ "attachmentref") :
    countPicsNAList el.children ≤ countPicsNA el := by
  rw [countPicsNA_eq, if_neg h]
  exact Nat.le_add_left _ _

lemma picsOfEls_filter_le (p : Xml → Bool) (pairs : List (Xml × Option String)) :
    picsOfEls ((pairs.map Prod.fst).filter p) ≤ countPicsNAList pairs := by
  induction pairs with
  | nil => exact Nat.le_refl 0
  | cons hd rest ih =>
    show picsOfEls (((hd.1 :: rest.map Prod.fst)).filter p) ≤
      countPicsNA hd.1 + countPicsNAList rest
    rw [List.filter_cons]
    by_cases hp : p hd.1 = true
    · rw [if_pos hp]
      show countPicsNA hd.1 + picsOfEls ((rest.map Prod.fst).filter p) ≤ _
      exact Nat.add_le_add_left ih _
    · rw [if_neg hp]
      exact Nat.le_trans ih (Nat.le_add_left _ _)

lemma findAllDirect_pics_le (el : Xml) (tag : String) :
    picsOfEls (findAllDirect el tag) ≤ countPicsNAList el.children := by
  unfold findAllDirect Xml.childEls
  exact picsOfEls_filter_le _ _

lemma findAllDirect_tag (el : Xml) (tag : String) (x : Xml)
    (h : x ∈ findAllDirect el tag) : x.tag = tag := by
  unfold findAllDirect at h
  have := List.of_mem_filter h
  simpa using this

lemma picsOfSectBody_le (pairs : List (Xml × Option String)) :
    picsOfSectBody pairs ≤ countPicsNAList pairs := by
  induction pairs with
  | nil => exact Nat.le_refl 0
  | cons hd rest ih =>
    show picsOfSectBody (hd :: rest) ≤ countPicsNA hd.1 + countPicsNAList rest
    rcases hd with ⟨c, tl⟩
    unfold picsOfSectBody
    split
    · exact Nat.le_trans ih (Nat.le_add_left _ _)
    · exact Nat.add_le_add_left ih _

lemma sect_budget_go (pairs : List (Xml × Option String)) (tEl : Xml)
    (h : (pairs.map Prod.fst).find? (fun c => c.tag = "sectiontitle") = some tEl) :
    countPicsNAList tEl.children + picsOfSectBody pairs ≤ countPicsNAList pairs := by
  induction pairs with
  | nil => simp at h
  | cons hd rest ih =>
    rcases hd with ⟨c, tl⟩
    rw [show ((c, tl) :: rest).map Prod.fst = c :: rest.map Prod.fst from rfl,
      List.find?_cons] at h
    by_cases hc : c.tag = "sectiontitle"
    · rw [show decide (c.tag = "sectiontitle") = true from by simpa using hc] at h
      dsimp only at h
      have hce : c = tEl := by simpa using h
      subst hce
      show countPicsNAList c.children + picsOfSectBody ((c, tl) :: rest) ≤
        countPicsNA c + countPicsNAList rest
      unfold picsOfSectBody
      rw [if_pos (Or.inr hc)]
      have h1 : countPicsNAList c.children ≤ countPicsNA c :=
        countPicsNAList_children_le c (by rw [hc]; decide)
      exact Nat.add_le_add h1 (picsOfSectBody_le rest)
    · rw [show decide (c.tag = "sectiontitle") = false from by simpa using hc] at h
      dsimp only at h
      have := ih h
      show countPicsNAList tEl.children + picsOfSectBody ((c, tl) :: rest) ≤
        countPicsNA c + countPicsNAList rest
      unfold picsOfSectBody
      by_cases hcp : c.tag = "pardef" ∨ c.tag = "sectiontitle"
      · rw [if_pos hcp]
        exact Nat.le_trans this (Nat.le_add_left _ _)
      · rw [if_neg hcp]
        calc countPicsNAList tEl.children + (countPicsNA c + picsOfSectBody rest)
            = countPicsNA c + (countPicsNAList tEl.children + picsOfSectBody rest) := by
              omega
          _ ≤ countPicsNA c + countPicsNAList rest := Nat.add_le_add_left this _

lemma sect_title_budget (el : Xml) (tEl : Xml)
    (h : findDirect el "sectiontitle" = some tEl) :
    countPicsNAList tEl.children + picsOfSectBody el.children ≤
      countPicsNAList el.children := by
  unfold findDirect Xml.childEls at h
  exact sect_budget_go el.children tEl h

lemma inv7_append_content (st' : RTState) (X : List Run) (r : Run)
    (hr : st'.runs = X ++ [r]) (hok : runsOk X = true) (hd : runDeepOk r = true)
    (hnp : r.isPar = false) : Inv7 st' := by
  constructor
  · rw [hr]
    exact runsOk_append X r hok hd (fun lr _ => isDupPar_nonpar lr r hnp)
  · intro a ha
    rw [hr, getLast?_app] at ha
    have heq := Option.some.inj ha
    rw [heq] at hnp
    simp [Run.isPar] at hnp

lemma textsOk_build (st' : RTState) (X : List Run) (r : Run)
    (hr : st'.runs = X ++ [r]) (hX : textsOk X = true) (hr' : textRunOk r = true) :
    textsOk st'.runs = true := by
  rw [hr, textsOk_append, hX, hr']
  rfl

lemma textsOk_append_true (X : List Run) (r : Run) (hX : textsOk X = true)
    (hr : textRunOk r = true) : textsOk (X ++ [r]) = true := by
  rw [textsOk_append, hX, hr]
  rfl

/-- `_parse_table` always returns a `table` token. -/
lemma rtParseTable_isPar (f : Nat) (P : RichTextParser) (tbl : Xml)
    (pl : List String) (i : Nat) : ((rtParseTable f P tbl pl i).1).isPar = false := by
  cases f <;> rfl

lemma inv7_fresh (i : Nat) : Inv7 ({ inline_image_index := i } : RTState) := by
  refine ⟨rfl, ?_⟩
  intro a ha
  cases ha

lemma cNA_plain (el : Xml) (ha : el.tag ≠ "attachmentref") (hp : el.tag ≠ "picture") :
    countPicsNA el = countPicsNAList el.children := by
  rw [countPicsNA_eq, if_neg ha, if_neg hp]
  exact Nat.zero_add _

lemma cNA_picture (el : Xml) (hp : el.tag = "picture") :
    countPicsNA el = 1 + countPicsNAList el.children := by
  rw [countPicsNA_eq, if_neg (by rw [hp]; decide), if_pos hp]

set_option maxHeartbeats 1000000 in
theorem rt_master (P : RichTextParser) : ∀ fuel : Nat,
    (∀ el tl st,
      (rtWalk fuel P el tl st).1.inline_image_index ≤
        st.inline_image_index + countPicsNA el ∧
      (textsOk st.runs = true → textsOk (rtWalk fuel P el tl st).1.runs = true) ∧
      (Inv7 st →
        st.inline_image_index + countPicsNA el ≤ P.inline_images_meta.length →
        Inv7 (rtWalk fuel P el tl st).1)) ∧
    (∀ el st,
      (rtWalkContent fuel P el st).inline_image_index ≤
        st.inline_image_index + countPicsNAList el.children ∧
      (textsOk st.runs = true → textsOk (rtWalkContent fuel P el st).runs = true) ∧
      (Inv7 st →
        st.inline_image_index + countPicsNAList el.children ≤
          P.inline_images_meta.length →
        Inv7 (rtWalkContent fuel P el st))) ∧
    (∀ pairs st,
      (rtWalkChildren fuel P pairs st).inline_image_index ≤
        st.inline_image_index + countPicsNAList pairs ∧
      (textsOk st.runs = true → textsOk (rtWalkChildren fuel P pairs st).runs = true) ∧
      (Inv7 st →
        st.inline_image_index + countPicsNAList pairs ≤ P.inline_images_meta.length →
        Inv7 (rtWalkChildren fuel P pairs st))) ∧
    (∀ pairs st,
      (rtSectionBody fuel P pairs st).inline_image_index ≤
        st.inline_image_index + picsOfSectBody pairs ∧
      (textsOk st.runs = true → textsOk (rtSectionBody fuel P pairs st).runs = true) ∧
      (Inv7 st →
        st.inline_image_index + picsOfSectBody pairs ≤ P.inline_images_meta.length →
        Inv7 (rtSectionBody fuel P pairs st))) ∧
    (∀ tbl plain idx,
      (rtParseTable fuel P tbl plain idx).2.2 ≤ idx + countPicsNAList tbl.children ∧
      textRunOk (rtParseTable fuel P tbl plain idx).1 = true ∧
      (idx + countPicsNAList tbl.children ≤ P.inline_images_meta.length →
        runDeepOk (rtParseTable fuel P tbl plain idx).1 = true)) ∧
    (∀ rows plain idx, (∀ x ∈ rows, x.tag ≠ "attachmentref") →
      ((rtTableRows fuel P rows plain idx).2.2 ≤ idx + picsOfEls rows ∧
      rowsTextsOk (rtTableRows fuel P rows plain idx).1 = true ∧
      (idx + picsOfEls rows ≤ P.inline_images_meta.length →
        rowsOk (rtTableRows fuel P rows plain idx).1 = true))) ∧
    (∀ cells plain idx, (∀ x ∈ cells, x.tag ≠ "attachmentref") →
      ((rtTableCells fuel P cells plain idx).2.2 ≤ idx + picsOfEls cells ∧
      cellsTextsOk (rtTableCells fuel P cells plain idx).1 = true ∧
      (idx + picsOfEls cells ≤ P.inline_images_meta.length →
        cellsOk (rtTableCells fuel P cells plain idx).1 = true))) := by
  intro fuel
  induction fuel with
  | zero =>
    refine ⟨?_, ?_, ?_, ?_, ?_, ?_, ?_⟩
    · intro el tl st
      exact ⟨Nat.le_add_right _ _, fun h => h, fun h _ => h⟩
    · intro el st
      exact ⟨Nat.le_add_right _ _, fun h => h, fun h _ => h⟩
    · intro pairs st
      exact ⟨Nat.le_add_right _ _, fun h => h, fun h _ => h⟩
    · intro pairs st
      exact ⟨Nat.le_add_right _ _, fun h => h, fun h _ => h⟩
    · intro tbl plain idx
      exact ⟨Nat.le_add_right _ _, rfl, fun _ => rfl⟩
    · intro rows plain idx _
      exact ⟨Nat.le_add_right _ _, rfl, fun _ => rfl⟩
    · intro cells plain idx _
      exact ⟨Nat.le_add_right _ _, rfl, fun _ => rfl⟩
  | succ fuel ih =>
    obtain ⟨ihW, ihC, ihL, ihS, ihT, ihR, ihX⟩ := ih
    refine ⟨?_, ?_, ?_, ?_, ?_, ?_, ?_⟩
    -- rtWalk
    · intro el tl st
      simp only [rtWalk]
      by_cases h1 : el.tag = "par"
      · rw [if_pos h1]
        dsimp only
        obtain ⟨hC1, hC2, hC3⟩ := ihC el
          (emit_par (((P.pardefs).lookup (el.getD "def" "")).getD {}) st)
        have hcna : countPicsNAList el.children ≤ countPicsNA el :=
          countPicsNAList_children_le el (by rw [h1]; decide)
        rw [emit_par_idx] at hC1
        refine ⟨by omega, ?_, ?_⟩
        · intro h
          exact hC2 (emit_par_textsOk _ _ h)
        · intro h7 hb
          exact hC3 (emit_par_inv7 _ _ h7) (by rw [emit_par_idx]; omega)
      rw [if_neg h1]
      by_cases h2 : el.tag = "table"
      · rw [if_pos h2]
        dsimp only
        obtain ⟨hT1, hT2, hT3⟩ := ihT el (ensure_par_before_content st).plain
          (ensure_par_before_content st).inline_image_index
        have hcna : countPicsNAList el.children ≤ countPicsNA el :=
          countPicsNAList_children_le el (by rw [h2]; decide)
        have hei := ensure_idx st
        refine ⟨by omega, ?_, ?_⟩
        · intro h
          exact textsOk_append_true _ _ (ensure_textsOk st h) hT2
        · intro h7 hb
          refine inv7_append_content _ _ _ rfl (ensure_runsOk st h7)
            (hT3 (by omega)) (rtParseTable_isPar _ _ _ _ _)
      rw [if_neg h2]
      by_cases h3 : el.tag = "horizrule"
      · rw [if_pos h3]
        dsimp only
        refine ⟨?_, ?_, ?_⟩
        · show (ensure_par_before_content st).inline_image_index ≤ _
          rw [ensure_idx]
          exact Nat.le_add_right _ _
        · intro h
          exact textsOk_append_true _ _ (ensure_textsOk st h) rfl
        · intro h7 _
          exact inv7_append_content _ _ _ rfl (ensure_runsOk st h7) rfl rfl
      rw [if_neg h3]
      by_cases h4 : el.tag = "section"
      · rw [if_pos h4]
        dsimp only
        have hcna : countPicsNAList el.children ≤ countPicsNA el :=
          countPicsNAList_children_le el (by rw [h4]; decide)
        rcases hT : findDirect el "sectiontitle" with _ | tEl
        · -- no <sectiontitle>
          have hfb0 : Inv7 ({ inline_image_index :=
              (ensure_par_before_content st).inline_image_index } : RTState) :=
            inv7_fresh _
          set subB0 := (if (el.text.getD "") ≠ "" then
            emit_text (el.text.getD "")
              ({ inline_image_index :=
                (ensure_par_before_content st).inline_image_index } : RTState)
            else ({ inline_image_index :=
              (ensure_par_before_content st).inline_image_index } : RTState)) with hsubB0
          have hb0idx : subB0.inline_image_index =
              (ensure_par_before_content st).inline_image_index := by
            rw [hsubB0]; split
            · exact emit_text_idx _ _
            · rfl
          have hb0texts : textsOk subB0.runs = true := by
            rw [hsubB0]; split
            · exact emit_text_textsOk _ _ rfl
            · rfl
          have hb0inv : Inv7 subB0 := by
            rw [hsubB0]; split
            · exact emit_text_inv7 _ _ (inv7_fresh _)
            · exact inv7_fresh _
          obtain ⟨hS1, hS2, hS3⟩ := ihS el.children subB0
          have hsect : picsOfSectBody el.children ≤ countPicsNAList el.children :=
            picsOfSectBody_le el.children
          refine ⟨?_, ?_, ?_⟩
          · show (rtSectionBody fuel P el.children subB0).inline_image_index ≤ _
            calc (rtSectionBody fuel P el.children subB0).inline_image_index
                ≤ subB0.inline_image_index + picsOfSectBody el.children := hS1
              _ = (ensure_par_before_content st).inline_image_index +
                  picsOfSectBody el.children := by rw [hb0idx]
              _ = st.inline_image_index + picsOfSectBody el.children := by
                  rw [ensure_idx]
              _ ≤ st.inline_image_index + countPicsNA el := by omega
          · intro h
            refine textsOk_append_true _ _ (ensure_textsOk st h) ?_
            show (textsOk ([] : List Run) &&
              textsOk (rtSectionBody fuel P el.children subB0).runs) = true
            rw [hS2 hb0texts]
            rfl
          · intro h7 hb
            refine inv7_append_content _ _ _ rfl (ensure_runsOk st h7) ?_ rfl
            show (runsOk ([] : List Run) &&
              runsOk (rtSectionBody fuel P el.children subB0).runs) = true
            have : Inv7 (rtSectionBody fuel P el.children subB0) := by
              refine hS3 hb0inv ?_
              rw [hb0idx, ensure_idx]
              omega
            rw [this.1]
            rfl
        · -- with <sectiontitle>
          have hbudget := sect_title_budget el tEl hT
          obtain ⟨hC1, hC2, hC3⟩ := ihC tEl
            ({ inline_image_index :=
              (ensure_par_before_content st).inline_image_index } : RTState)
          rw [show ({ inline_image_index :=
            (ensure_par_before_content st).inline_image_index } : RTState).inline_image_index =
            (ensure_par_before_content st).inline_image_index from rfl] at hC1
          set subT := rtWalkContent fuel P tEl
            ({ inline_image_index :=
              (ensure_par_before_content st).inline_image_index } : RTState) with hsubT
          set subB0 := (if (el.text.getD "") ≠ "" then
            emit_text (el.text.getD "")
              ({ inline_image_index := subT.inline_image_index } : RTState)
            else ({ inline_image_index := subT.inline_image_index } : RTState)) with hsubB0
          have hb0idx : subB0.inline_image_index = subT.inline_image_index := by
            rw [hsubB0]; split
            · exact emit_text_idx _ _
            · rfl
          have hb0texts : textsOk subB0.runs = true := by
            rw [hsubB0]; split
            · exact emit_text_textsOk _ _ rfl
            · rfl
          have hb0inv : Inv7 subB0 := by
            rw [hsubB0]; split
            · exact emit_text_inv7 _ _ (inv7_fresh _)
            · exact inv7_fresh _
          obtain ⟨hS1, hS2, hS3⟩ := ihS el.children subB0
          refine ⟨?_, ?_, ?_⟩
          · show (rtSectionBody fuel P el.children subB0).inline_image_index ≤ _
            calc (rtSectionBody fuel P el.children subB0).inline_image_index
                ≤ subB0.inline_image_index + picsOfSectBody el.children := hS1
              _ = subT.inline_image_index + picsOfSectBody el.children := by rw [hb0idx]
              _ ≤ ((ensure_par_before_content st).inline_image_index +
                  countPicsNAList tEl.children) + picsOfSectBody el.children := by
                  exact Nat.add_le_add_right hC1 _
              _ = st.inline_image_index + (countPicsNAList tEl.children +
                  picsOfSectBody el.children) := by rw [ensure_idx]; omega
              _ ≤ st.inline_image_index + countPicsNA el := by omega
          · intro h
            refine textsOk_append_true _ _ (ensure_textsOk st h) ?_
            show (textsOk subT.runs &&
              textsOk (rtSectionBody fuel P el.children subB0).runs) = true
            rw [hC2 rfl, hS2 hb0texts]
            rfl
          · intro h7 hb
            refine inv7_append_content _ _ _ rfl (ensure_runsOk st h7) ?_ rfl
            show (runsOk subT.runs &&
              runsOk (rtSectionBody fuel P el.children subB0).runs) = true
            have hsubTinv : Inv7 subT := by
              refine hC3 (inv7_fresh _) ?_
              rw [show ({ inline_image_index :=
                (ensure_par_before_content st).inline_image_index } : RTState).inline_image_index =
                (ensure_par_before_content st).inline_image_index from rfl, ensure_idx]
              omega
            have hsubBinv : Inv7 (rtSectionBody fuel P el.children subB0) := by
              refine hS3 hb0inv ?_
              rw [hb0idx]
              calc subT.inline_image_index + picsOfSectBody el.children
                  ≤ ((ensure_par_before_content st).inline_image_index +
                    countPicsNAList tEl.children) + picsOfSectBody el.children := by
                    exact Nat.add_le_add_right hC1 _
                _ ≤ P.inline_images_meta.length := by rw [ensure_idx]; omega
            rw [hsubTinv.1, hsubBinv.1]
            rfl
      rw [if_neg h4]
      by_cases h5 : el.tag = "run"
      · rw [if_pos h5]
        dsimp only
        have hcna : countPicsNAList el.children ≤ countPicsNA el :=
          countPicsNAList_children_le el (by rw [h5]; decide)
        by_cases hp : style_from_generic_tag el ≠ ({} : Style)
        · rw [if_pos hp, if_pos hp]
          obtain ⟨hC1, hC2, hC3⟩ := ihC el
            { st with style_stack := st.style_stack ++ [style_from_generic_tag el] }
          have hsidx : ({ st with style_stack :=
              st.style_stack ++ [style_from_generic_tag el] } : RTState).inline_image_index =
              st.inline_image_index := rfl
          refine ⟨?_, ?_, ?_⟩
          · show (rtWalkContent fuel P el _).inline_image_index ≤ _
            omega
          · intro h
            exact hC2 h
          · intro h7 hb
            exact ⟨(hC3 ⟨h7.1, h7.2⟩ (by omega)).1, (hC3 ⟨h7.1, h7.2⟩ (by omega)).2⟩
        · rw [if_neg hp, if_neg hp]
          obtain ⟨hC1, hC2, hC3⟩ := ihC el st
          exact ⟨by show (rtWalkContent fuel P el st).inline_image_index ≤ _; omega,
            hC2, fun h7 hb => hC3 h7 (by omega)⟩
      rw [if_neg h5]
      by_cases h6 : rtStyleTags.contains el.tag = true
      · rw [if_pos h6]
        have hcna : countPicsNAList el.children ≤ countPicsNA el := by
          refine countPicsNAList_children_le el ?_
          intro hc
          rw [hc] at h6
          exact absurd h6 (by decide)
        by_cases h6b : el.tag = "font" ∧ pyStrip (el.text.getD "") = "" ∧
            pyStrip (tl.getD "") ≠ "" ∧ el.children.isEmpty = true
        · rw [if_pos h6b]
          by_cases hp : style_from_generic_tag el ≠ ({} : Style)
          · rw [if_pos hp, if_pos hp]
            refine ⟨?_, ?_, ?_⟩
            · show (emit_text (tl.getD "") _).inline_image_index ≤ _
              rw [emit_text_idx]
              exact Nat.le_add_right _ _
            · intro h
              exact emit_text_textsOk _ _ h
            · intro h7 _
              have := emit_text_inv7 (tl.getD "")
                { st with style_stack := st.style_stack ++ [style_from_generic_tag el] }
                ⟨h7.1, h7.2⟩
              exact ⟨this.1, this.2⟩
          · rw [if_neg hp, if_neg hp]
            refine ⟨?_, ?_, ?_⟩
            · show (emit_text (tl.getD "") st).inline_image_index ≤ _
              rw [emit_text_idx]
              exact Nat.le_add_right _ _
            · intro h
              exact emit_text_textsOk _ _ h
            · intro h7 _
              exact emit_text_inv7 _ _ h7
        · rw [if_neg h6b]
          by_cases hp : style_from_generic_tag el ≠ ({} : Style)
          · rw [if_pos hp, if_pos hp]
            obtain ⟨hC1, hC2, hC3⟩ := ihC el
              { st with style_stack := st.style_stack ++ [style_from_generic_tag el] }
            have hsidx : ({ st with style_stack :=
                st.style_stack ++ [style_from_generic_tag el] } : RTState).inline_image_index =
                st.inline_image_index := rfl
            refine ⟨?_, ?_, ?_⟩
            · show (rtWalkContent fuel P el _).inline_image_index ≤ _
              omega
            · intro h
              exact hC2 h
            · intro h7 hb
              exact ⟨(hC3 ⟨h7.1, h7.2⟩ (by omega)).1, (hC3 ⟨h7.1, h7.2⟩ (by omega)).2⟩
          · rw [if_neg hp, if_neg hp]
            obtain ⟨hC1, hC2, hC3⟩ := ihC el st
            exact ⟨by show (rtWalkContent fuel P el st).inline_image_index ≤ _; omega,
              hC2, fun h7 hb => hC3 h7 (by omega)⟩
      rw [if_neg h6]
      by_cases h7t : el.tag = "urllink"
      · rw [if_pos h7t]
        dsimp only
        refine ⟨?_, ?_, ?_⟩
        · show (emit_link _ _ _ _ st).inline_image_index ≤ _
          rw [emit_link_idx]
          exact Nat.le_add_right _ _
        · intro h
          exact emit_link_textsOk _ _ _ _ _ h
        · intro h7 _
          exact emit_link_inv7 _ _ _ _ _ h7
      rw [if_neg h7t]
      by_cases h8 : el.tag = "doclink"
      · rw [if_pos h8]
        dsimp only
        refine ⟨?_, ?_, ?_⟩
        · show (emit_link _ _ _ _ st).inline_image_index ≤ _
          rw [emit_link_idx]
          exact Nat.le_add_right _ _
        · intro h
          exact emit_link_textsOk _ _ _ _ _ h
        · intro h7 _
          exact emit_link_inv7 _ _ _ _ _ h7
      rw [if_neg h8]
      by_cases h9 : el.tag = "attachmentref"
      · rw [if_pos h9]
        dsimp only
        rcases hn : el.get "name" with _ | n
        · exact ⟨Nat.le_add_right _ _, fun h => h, fun h _ => h⟩
        · dsimp only
          by_cases hne : n ≠ ""
          · rw [if_pos hne]
            refine ⟨?_, ?_, ?_⟩
            · show (emit_attachmentref _ _ st).inline_image_index ≤ _
              rw [emit_attachmentref_idx]
              exact Nat.le_add_right _ _
            · intro h
              exact emit_attachmentref_textsOk _ _ _ h
            · intro h7 _
              exact emit_attachmentref_inv7 _ _ _ h7
          · rw [if_neg hne]
            exact ⟨Nat.le_add_right _ _, fun h => h, fun h _ => h⟩
      rw [if_neg h9]
      by_cases h10 : el.tag = "picture"
      · rw [if_pos h10]
        dsimp only
        have hone : 1 ≤ countPicsNA el := by
          rw [cNA_picture el h10]
          omega
        have hle := emit_inline_image_idx_le P st
        refine ⟨by omega, ?_, ?_⟩
        · intro h
          exact emit_inline_image_textsOk _ _ h
        · intro h7 hb
          exact (emit_inline_image_inv7 P st h7 (by omega)).1
      rw [if_neg h10]
      by_cases h11 : el.tag = "br" ∨ el.tag = "break"
      · rw [if_pos h11]
        dsimp only
        refine ⟨?_, ?_, ?_⟩
        · show (ensure_par_before_content st).inline_image_index ≤ _
          rw [ensure_idx]
          exact Nat.le_add_right _ _
        · intro h
          exact textsOk_append_true _ _ (ensure_textsOk st h) rfl
        · intro h7 _
          exact inv7_append_content _ _ _ rfl (ensure_runsOk st h7) rfl rfl
      rw [if_neg h11]
      by_cases h12 : rtIgnoredTags.contains el.tag = true
      · rw [if_pos h12]
        exact ⟨Nat.le_add_right _ _, fun h => h, fun h _ => h⟩
      rw [if_neg h12]
      dsimp only
      have hcna : countPicsNAList el.children ≤ countPicsNA el :=
        countPicsNAList_children_le el h9
      obtain ⟨hC1, hC2, hC3⟩ := ihC el st
      exact ⟨by omega, hC2, fun h7 hb => hC3 h7 (by omega)⟩
    -- rtWalkContent
    · intro el st
      simp only [rtWalkContent]
      by_cases ht : (el.text.getD "") ≠ ""
      · rw [if_pos ht]
        obtain ⟨hL1, hL2, hL3⟩ := ihL el.children (emit_text (el.text.getD "") st)
        refine ⟨?_, ?_, ?_⟩
        · rw [emit_text_idx] at hL1
          exact hL1
        · intro h
          exact hL2 (emit_text_textsOk _ _ h)
        · intro h7 hb
          refine hL3 (emit_text_inv7 _ _ h7) ?_
          rw [emit_text_idx]
          exact hb
      · rw [if_neg ht]
        exact ihL el.children st
    -- rtWalkChildren
    · intro pairs st
      match pairs with
      | [] =>
        simp only [rtWalkChildren]
        exact ⟨Nat.le_add_right _ _, fun h => h, fun h _ => h⟩
      | (ch, tl) :: rest =>
        simp only [rtWalkChildren]
        obtain ⟨hW1, hW2, hW3⟩ := ihW ch tl st
        set r := rtWalk fuel P ch tl st with hr
        set st2 := if r.2 = false ∧ (tl.getD "") ≠ "" then emit_text (tl.getD "") r.1 else r.1 with hst2
        have hst2idx : st2.inline_image_index = r.1.inline_image_index := by
          rw [hst2]; split
          · exact emit_text_idx _ _
          · rfl
        have hst2texts : textsOk r.1.runs = true → textsOk st2.runs = true := by
          intro h
          rw [hst2]; split
          · exact emit_text_textsOk _ _ h
          · exact h
        have hst2inv : Inv7 r.1 → Inv7 st2 := by
          intro h
          rw [hst2]; split
          · exact emit_text_inv7 _ _ h
          · exact h
        obtain ⟨hL1, hL2, hL3⟩ := ihL rest st2
        have hcount : countPicsNAList ((ch, tl) :: rest) =
            countPicsNA ch + countPicsNAList rest := rfl
        refine ⟨?_, ?_, ?_⟩
        · rw [hcount]
          calc (rtWalkChildren fuel P rest st2).inline_image_index
              ≤ st2.inline_image_index + countPicsNAList rest := hL1
            _ = r.1.inline_image_index + countPicsNAList rest := by rw [hst2idx]
            _ ≤ st.inline_image_index + countPicsNA ch + countPicsNAList rest := by
                exact Nat.add_le_add_right hW1 _
            _ = st.inline_image_index + (countPicsNA ch + countPicsNAList rest) := by
                omega
        · intro h
          exact hL2 (hst2texts (hW2 h))
        · intro h7 hb
          rw [hcount] at hb
          refine hL3 (hst2inv (hW3 h7 ?_)) ?_
          · omega
          · rw [hst2idx]
            omega
    -- rtSectionBody
    · intro pairs st
      match pairs with
      | [] =>
        simp only [rtSectionBody]
        exact ⟨Nat.le_add_right _ _, fun h => h, fun h _ => h⟩
      | (ch, tl) :: rest =>
        simp only [rtSectionBody]
        by_cases hskip : ch.tag = "pardef" ∨ ch.tag = "sectiontitle"
        · rw [if_pos hskip]
          set st2 := if (tl.getD "") ≠ "" then emit_text (tl.getD "") st else st with hst2
          have hst2idx : st2.inline_image_index = st.inline_image_index := by
            rw [hst2]; split
            · exact emit_text_idx _ _
            · rfl
          have hst2texts : textsOk st.runs = true → textsOk st2.runs = true := by
            intro h; rw [hst2]; split
            · exact emit_text_textsOk _ _ h
            · exact h
          have hst2inv : Inv7 st → Inv7 st2 := by
            intro h; rw [hst2]; split
            · exact emit_text_inv7 _ _ h
            · exact h
          obtain ⟨hS1, hS2, hS3⟩ := ihS rest st2
          have hm : picsOfSectBody ((ch, tl) :: rest) = picsOfSectBody rest := by
            rw [show picsOfSectBody ((ch, tl) :: rest) =
              (if ch.tag = "pardef" ∨ ch.tag = "sectiontitle" then picsOfSectBody rest
               else countPicsNA ch + picsOfSectBody rest) from rfl, if_pos hskip]
          refine ⟨?_, ?_, ?_⟩
          · rw [hm]
            calc (rtSectionBody fuel P rest st2).inline_image_index
                ≤ st2.inline_image_index + picsOfSectBody rest := hS1
              _ = st.inline_image_index + picsOfSectBody rest := by rw [hst2idx]
          · intro h
            exact hS2 (hst2texts h)
          · intro h7 hb
            rw [hm] at hb
            exact hS3 (hst2inv h7) (by rw [hst2idx]; exact hb)
        · rw [if_neg hskip]
          obtain ⟨hW1, hW2, hW3⟩ := ihW ch tl st
          set r := rtWalk fuel P ch tl st with hr
          set st2 := if r.2 = false ∧ (tl.getD "") ≠ "" then
            emit_text (tl.getD "") r.1 else r.1 with hst2
          have hst2idx : st2.inline_image_index = r.1.inline_image_index := by
            rw [hst2]; split
            · exact emit_text_idx _ _
            · rfl
          have hst2texts : textsOk r.1.runs = true → textsOk st2.runs = true := by
            intro h; rw [hst2]; split
            · exact emit_text_textsOk _ _ h
            · exact h
          have hst2inv : Inv7 r.1 → Inv7 st2 := by
            intro h; rw [hst2]; split
            · exact emit_text_inv7 _ _ h
            · exact h
          obtain ⟨hS1, hS2, hS3⟩ := ihS rest st2
          have hm : picsOfSectBody ((ch, tl) :: rest) =
              countPicsNA ch + picsOfSectBody rest := by
            rw [show picsOfSectBody ((ch, tl) :: rest) =
              (if ch.tag = "pardef" ∨ ch.tag = "sectiontitle" then picsOfSectBody rest
               else countPicsNA ch + picsOfSectBody rest) from rfl, if_neg hskip]
          refine ⟨?_, ?_, ?_⟩
          · rw [hm]
            calc (rtSectionBody fuel P rest st2).inline_image_index
                ≤ st2.inline_image_index + picsOfSectBody rest := hS1
              _ = r.1.inline_image_index + picsOfSectBody rest := by rw [hst2idx]
              _ ≤ st.inline_image_index + countPicsNA ch + picsOfSectBody rest := by
                  exact Nat.add_le_add_right hW1 _
              _ = st.inline_image_index + (countPicsNA ch + picsOfSectBody rest) := by
                  omega
          · intro h
            exact hS2 (hst2texts (hW2 h))
          · intro h7 hb
            rw [hm] at hb
            refine hS3 (hst2inv (hW3 h7 ?_)) ?_
            · omega
            · rw [hst2idx]
              omega
    -- rtParseTable
    · intro tbl plain idx
      simp only [rtParseTable]
      have htag : ∀ x ∈ findAllDirect tbl "tablerow", x.tag ≠ "attachmentref" := by
        intro x hx
        rw [findAllDirect_tag tbl "tablerow" x hx]
        decide
      obtain ⟨hR1, hR2, hR3⟩ := ihR (findAllDirect tbl "tablerow") plain idx htag
      have hle : picsOfEls (findAllDirect tbl "tablerow") ≤ countPicsNAList tbl.children :=
        findAllDirect_pics_le tbl "tablerow"
      refine ⟨?_, ?_, ?_⟩
      · exact Nat.le_trans hR1 (by omega)
      · show rowsTextsOk _ = true
        exact hR2
      · intro hb
        show rowsOk _ = true
        exact hR3 (by omega)
    -- rtTableRows
    · intro rows plain idx htags
      match rows with
      | [] =>
        simp only [rtTableRows]
        exact ⟨Nat.le_add_right _ _, rfl, fun _ => rfl⟩
      | rowEl :: rest =>
        simp only [rtTableRows]
        have hcelltags : ∀ x ∈ findAllDirect rowEl "tablecell", x.tag ≠ "attachmentref" := by
          intro x hx
          rw [findAllDirect_tag rowEl "tablecell" x hx]
          decide
        obtain ⟨hX1, hX2, hX3⟩ := ihX (findAllDirect rowEl "tablecell") plain idx hcelltags
        have hrow : countPicsNAList rowEl.children ≤ countPicsNA rowEl :=
          countPicsNAList_children_le rowEl (htags rowEl (by simp))
        have hcells : picsOfEls (findAllDirect rowEl "tablecell") ≤ countPicsNA rowEl :=
          Nat.le_trans (findAllDirect_pics_le rowEl "tablecell") hrow
        set c := rtTableCells fuel P (findAllDirect rowEl "tablecell") plain idx with hc
        obtain ⟨hR1, hR2, hR3⟩ := ihR rest c.2.1 c.2.2 (fun x hx => htags x (by simp [hx]))
        have hpics : picsOfEls (rowEl :: rest) = countPicsNA rowEl + picsOfEls rest := rfl
        refine ⟨?_, ?_, ?_⟩
        · rw [hpics]
          calc (rtTableRows fuel P rest c.2.1 c.2.2).2.2
              ≤ c.2.2 + picsOfEls rest := hR1
            _ ≤ (idx + picsOfEls (findAllDirect rowEl "tablecell")) + picsOfEls rest := by
                exact Nat.add_le_add_right hX1 _
            _ ≤ idx + (countPicsNA rowEl + picsOfEls rest) := by omega
        · show rowsTextsOk (TableRow.mk _ c.1 :: _) = true
          show (cellsTextsOk c.1 && rowsTextsOk _) = true
          rw [hX2, hR2]
          rfl
        · intro hb
          rw [hpics] at hb
          show rowsOk (TableRow.mk _ c.1 :: _) = true
          show (cellsOk c.1 && rowsOk _) = true
          rw [hX3 (by omega), hR3 (by omega)]
          rfl
    -- rtTableCells
    · intro cells plain idx htags
      match cells with
      | [] =>
        simp only [rtTableCells]
        exact ⟨Nat.le_add_right _ _, rfl, fun _ => rfl⟩
      | cellEl :: rest =>
        simp only [rtTableCells]
        obtain ⟨hC1, hC2, hC3⟩ := ihC cellEl
          ({ inline_image_index := idx } : RTState)
        rw [show ({ inline_image_index := idx } : RTState).inline_image_index = idx
          from rfl] at hC1
        have hcell : countPicsNAList cellEl.children ≤ countPicsNA cellEl :=
          countPicsNAList_children_le cellEl (htags cellEl (by simp))
        set sub := rtWalkContent fuel P cellEl ({ inline_image_index := idx } : RTState) with hsub
        obtain ⟨hX1, hX2, hX3⟩ := ihX rest
          (if pyRStrip (joinStrs sub.plain) ≠ "" then plain ++ [pyRStrip (joinStrs sub.plain) ++ " "] else plain)
          sub.inline_image_index (fun x hx => htags x (by simp [hx]))
        have hpics : picsOfEls (cellEl :: rest) = countPicsNA cellEl + picsOfEls rest := rfl
        refine ⟨?_, ?_, ?_⟩
        · rw [hpics]
          calc (rtTableCells fuel P rest _ sub.inline_image_index).2.2
              ≤ sub.inline_image_index + picsOfEls rest := hX1
            _ ≤ (idx + countPicsNAList cellEl.children) + picsOfEls rest := by
                exact Nat.add_le_add_right hC1 _
            _ ≤ idx + (countPicsNA cellEl + picsOfEls rest) := by omega
        · show (textsOk sub.runs && cellsTextsOk _) = true
          rw [hC2 rfl, hX2]
          rfl
        · intro hb
          rw [hpics] at hb
          show (runsOk sub.runs && cellsOk _) = true
          have hsubinv : Inv7 sub := hC3 (inv7_fresh idx) (by
            show ({ inline_image_index := idx } : RTState).inline_image_index +
              countPicsNAList cellEl.children ≤ _
            show idx + countPicsNAList cellEl.children ≤ _
            omega)
          rw [hsubinv.1, hX3 (by omega)]
          rfl

/-- `<par def="1"/>` of the C7 fragment. -/
def parC7 : Xml := .mk "par" [("def", "1")] none []

/-- The C7 fragment `<par def="1"/><par def="1"/>TEXT` as richtext
content. -/
def rtElC7 : Xml := .mk "richtext" [] none [(parC7, none), (parC7, some "TEXT")]

/-- A parser configured with the fragment's pardef `1 ↦ {}`. -/
def PC7 : RichTextParser := { pardefs := [("1", {})] }

set_option maxRecDepth 100000 in
/-- C7: in every runs list the richtext parser produces — the runs nested in
table cells and section title/body runs included, via the recursive
`runsOk` — no two consecutive `par` tokens with identical attributes occur,
whenever the inline-image metadata covers the walker-reachable pictures (as
`_extract_attachments_metadata` provides in the pipeline: one entry per
non-icon picture of the whole note); and the DXL fragment
`<par def="1"/><par def="1"/>TEXT` parses to exactly one `par` token
followed by one `text` token. -/
theorem claim_C7_no_duplicate_pars :
    (∀ (fuel : Nat) (P : RichTextParser) (richtext_el : Xml) (st : RTState),
      Inv7 st →
      st.inline_image_index + countPicsNAList richtext_el.children ≤
        P.inline_images_meta.length →
      runsOk (rtWalkContent fuel P richtext_el st).runs = true) ∧
    (∀ (fuel : Nat) (P : RichTextParser) (richtext_el : Xml),
      countPicsNAList richtext_el.children ≤ P.inline_images_meta.length →
      runsOk (RichTextParser.parse fuel P richtext_el).2 = true) ∧
    RichTextParser.parse 4 PC7 rtElC7 = ("TEXT", [.par {}, .text "TEXT" [] []]) := by
  refine ⟨?_, ?_, ?_⟩
  · intro fuel P el st h7 hb
    exact ((((rt_master P) fuel).2.1) el st).2.2 h7 hb |>.1
  · intro fuel P el hb
    have h := ((((rt_master P) fuel).2.1) el ({} : RTState)).2.2
      ⟨rfl, fun a ha => by cases ha⟩ (by show 0 + _ ≤ _; omega)
    exact h.1
  · rfl

/-- C7 witness: the fragment needs no inline-image metadata, and its output
passes the duplicate-free check. -/
theorem claim_C7_no_duplicate_pars_witness :
    countPicsNAList rtElC7.children ≤ PC7.inline_images_meta.length ∧
    runsOk (RichTextParser.parse 4 PC7 rtElC7).2 = true :=
  ⟨by decide, claim_C7_no_duplicate_pars.2.1 4 PC7 rtElC7 (by decide)⟩

/-- C10: every `text` run the parser emits — at any nesting depth, on every
emission path (element text, tails, table cells, section sub-walkers) —
carries non-empty text with surrounding whitespace stripped, and
whitespace-only text is a complete no-op for `_emit_text` (no run, no state
change). -/
theorem claim_C10_text_runs_normalized :
    (∀ (fuel : Nat) (P : RichTextParser) (richtext_el : Xml) (st : RTState),
      textsOk st.runs = true →
      textsOk (rtWalkContent fuel P richtext_el st).runs = true) ∧
    (∀ (fuel : Nat) (P : RichTextParser) (richtext_el : Xml),
      textsOk (RichTextParser.parse fuel P richtext_el).2 = true) ∧
    (∀ (t : String) (st : RTState), pyStrip t = "" → emit_text t st = st) := by
  refine ⟨?_, ?_, ?_⟩
  · intro fuel P el st ht
    exact ((((rt_master P) fuel).2.1) el st).2.1 ht
  · intro fuel P el
    exact ((((rt_master P) fuel).2.1) el ({} : RTState)).2.1 rfl
  · intro t st h
    unfold emit_text
    dsimp only
    rw [if_pos h]

set_option maxRecDepth 100000 in
/-- C10 witness: whitespace-only text leaves the state untouched, and a
concrete parse yields only normalized text runs. -/
theorem claim_C10_text_runs_normalized_witness :
    pyStrip " \t " = "" ∧
    emit_text " \t " ({ pending_par_attrs := none } : RTState) =
      ({ pending_par_attrs := none } : RTState) ∧
    textsOk (RichTextParser.parse 2 ({} : RichTextParser)
      (.mk "richtext" [] (some "  x ") [])).2 = true :=
  ⟨by decide,
   claim_C10_text_runs_normalized.2.2 " \t " ({ pending_par_attrs := none } : RTState)
     (by decide),
   claim_C10_text_runs_normalized.2.1 2 ({} : RichTextParser)
     (.mk "richtext" [] (some "  x ") [])⟩

mutual

/-- Supporting C7: the walker-reachable picture count is covered by the
inline (non-icon) pictures of the same subtree — `_extract_attachments_
metadata` creates one inline-image meta per element of `inlinePics root`,
so the metadata of a note covers every picture its body walk can emit. -/
lemma countPicsNA_le_inlinePics :
    ∀ el : Xml, countPicsNA el ≤
      (if el.tag = "picture" then 1 else 0) + (inlinePics el).length
  | .mk tag a tx children => by
    rw [show inlinePics (.mk tag a tx children) =
      inlinePicsGo (tag = "attachmentref") children from rfl]
    rw [show countPicsNA (.mk tag a tx children) =
      (if tag = "attachmentref" then 0
       else (if tag = "picture" then 1 else 0) + countPicsNAList children) from rfl]
    rw [show (Xml.mk tag a tx children).tag = tag from rfl]
    by_cases h : tag = "attachmentref"
    · rw [if_pos h]
      exact Nat.zero_le _
    · rw [if_neg h]
      rw [show (decide (tag = "attachmentref")) = false by simp [h]]
      have hlist := countPicsNAList_le_inlinePicsGo children
      by_cases hp : tag = "picture"
      · rw [if_pos hp]
        omega
      · rw [if_neg hp]
        omega

lemma countPicsNAList_le_inlinePicsGo :
    ∀ pairs : List (Xml × Option String),
      countPicsNAList pairs ≤ (inlinePicsGo false pairs).length
  | [] => Nat.le_refl 0
  | (c, tl) :: rest => by
    have hel := countPicsNA_le_inlinePics c
    have hrest := countPicsNAList_le_inlinePicsGo rest
    rw [show countPicsNAList ((c, tl) :: rest) =
      countPicsNA c + countPicsNAList rest from rfl]
    rw [show inlinePicsGo false ((c, tl) :: rest) =
      (if c.tag = "picture" ∧ ¬ (false ∧ c.tag = "picture") then [c] else []) ++
        inlinePics c ++ inlinePicsGo (false ∧ c.tag ≠ "picture") rest from rfl]
    rw [show (decide (false = true ∧ c.tag ≠ "picture")) = false by simp]
    rw [show (if c.tag = "picture" then (1:Nat) else 0) + (inlinePics c).length =
      (if c.tag = "picture" then 1 else 0) + (inlinePics c).length from rfl] at hel
    by_cases hp : c.tag = "picture"
    · rw [if_pos (by simp [hp])]
      rw [if_pos hp] at hel
      simp only [List.length_append, List.length_cons, List.length_nil]
      omega
    · rw [if_neg (by simp [hp])]
      rw [if_neg hp] at hel
      simp only [List.length_append, List.length_nil]
      omega

end


/-- C1 (amended): re-running the extractor is a no-op per attachment
precisely when its first run saved it at its own unsuffixed sanitized name
with the same bytes: `extract_and_save` then reuses the existing file via
the dedup chain, writes nothing, and fills the same
`content_path`/`saved_name`.  (When a first-run name collision allocated a
`_N` slot instead, a re-run allocates a fresh slot — the counterexample —
because `_decide_and_maybe_write` never compares content against slot
files.) -/
theorem claim_C1_rerun_noop (H : HashModel) (att : AttMeta)
    (dir : String) (fs : FS) (pm : PMap) (dmap : List (String × String))
    (n b64 p : String) (B : Bytes)
    (hn : att.name = some n) (hne : n ≠ "")
    (hd1 : dmap.lookup n = none) (hd2 : dmap.lookup (strip_seq_suffix n) = none)
    (hpic : ¬ (att.ty = "image" ∧ att.ref.element = "picture"))
    (hb : att.bytes_b64 = some b64) (hb0 : b64 ≠ "")
    (hdec : b64decode b64 = some B) (hB : B ≠ [])
    (hp : sanitize_filename (strip_seq_suffix n) = p)
    (hid : sanitize_filename p = p)
    (hpn : pathName (pathJoin dir p) = p)
    (hfs : fsRead fs (pathJoin dir p) = some B)
    (hpm : pm.lookup n = none) :
    extract_and_save H att dir fs pm dmap =
      .ok ({ att with
              content_path := some ("attachments/" ++ p)
              saved_name := some p },
           fs,
           setAssoc pm n { att with
              content_path := some ("attachments/" ++ p)
              saved_name := some p }) := by
  have hpay : payload_of fs att = (some B, none) := by
    unfold payload_of
    rw [hb]
    dsimp only
    rw [if_pos hb0, hdec]
    dsimp only
    rw [if_neg (by simp [hB])]
  have hdecide : decide_and_maybe_write H fs p dir (some B) none =
      .ok (pathJoin dir p, true, digestOf H B, fs) := by
    have h := decide_reuse_of_identical H fs p dir B (by rw [hid]; exact hfs)
    rw [hid] at h
    exact h
  have hex : fsExists fs (pathJoin dir p) = true := by
    simp [fsExists, hfs]
  unfold extract_and_save
  rw [hn]
  simp only [hne, ne_eq, not_false_iff, if_true, hd1, hd2]
  simp only [strOr]
  rw [if_neg hne]
  simp only [show (match some n with
      | some s => if s = "" then some "attachment" else some s
      | none => some "attachment") = if n = "" then some "attachment" else some n
    from rfl]
  rw [if_neg hne]
  simp only [Option.getD_some]
  rw [if_neg (fun hc => hpic ⟨hc.1, hc.2.1⟩)]
  dsimp only
  rw [hp, hpay]
  dsimp only
  rw [hdecide]
  simp only [bind, Except.bind]
  dsimp only
  simp only [hpm, Option.isSome_none, hex]
  rw [hpn]
  simp [pure, Except.pure, hn]


/-- The C1 hash model: injective tagged renderings. -/
def HC1 : HashModel := ⟨fun b => "b2b:" ++ toString b, fun b => "sha:" ++ toString b⟩

/-- A note with two `$FILE` attachments holding different bytes whose
names `a.001.pdf` and `a.002.pdf` both sanitize (after the `.NNN` sequence
suffix is stripped) to the same on-disk target `a.pdf`. -/
def dxlC1 : String := "<note xmlns='http://www.lotus.com/dxl'><item name='$FILE'><object><file name='a.001.pdf'><filedata>QUFB</filedata></file></object></item><item name='$FILE'><object><file name='a.002.pdf'><filedata>QkJC</filedata></file></object></item></note>"

/-- The initial IR the parser produces for `dxlC1`. -/
def irC1 : NDoc := {
  attachments := [
    { name := some "a.001.pdf", ty := "file", ref := { element := "file" } },
    { name := some "a.002.pdf", ty := "file", ref := { element := "file" } }] }

/-- The filesystem after the first run: the two payloads plus the shared
extension icon. -/
def fs1C1 : FS :=
  [("A/a.pdf", [65, 65, 65]), ("A/icons/pdf.gif", GIF_PLACEHOLDER),
   ("A/a_2.pdf", [66, 66, 66])]

/-- First-run meta for `a.001.pdf`: saved at the unsuffixed target `a.pdf`. -/
def attX1C1 : AttMeta :=
  { name := some "a.001.pdf", ty := "file", ref := { element := "file" }, size := 3,
    content_path := some "attachments/a.pdf", saved_name := some "a.pdf",
    icon_path := some "attachments/icons/pdf.gif", sha256 := some "sha:[65, 65, 65]" }

/-- First-run meta for `a.002.pdf`: the collision pushed it to the
`a_2.pdf` slot. -/
def attY1C1 : AttMeta :=
  { name := some "a.002.pdf", ty := "file", ref := { element := "file" }, size := 3,
    content_path := some "attachments/a_2.pdf", saved_name := some "a_2.pdf",
    icon_path := some "attachments/icons/pdf.gif", sha256 := some "sha:[66, 66, 66]" }

/-- The fully-updated IR the first run returns. -/
def doc1C1 : NDoc := { attachments := [attX1C1, attY1C1] }

set_option maxRecDepth 1000000 in
set_option maxHeartbeats 4000000 in
/-- C1 counterexample: the first run on `dxlC1` saves `a.002.pdf` at the
collision slot `a_2.pdf`, returning exactly `doc1C1` and `fs1C1`; a second
run on that fully-updated IR writes a new file `a_3.pdf` and changes
`a.002.pdf`'s `content_path` — re-running the extractor is not a no-op. -/
theorem claim_C1_rerun_counterexample :
    extract_and_save_json_paths HC1 [] dxlC1 irC1 "A" [] = some (doc1C1, fs1C1) ∧
    (extract_and_save_json_paths HC1 [] dxlC1 doc1C1 "A" fs1C1).map
        (fun r => (r.1.attachments.map (fun a => a.content_path), r.2.map Prod.fst)) =
      some ([some "attachments/a.pdf", some "attachments/a_3.pdf"],
            ["A/a.pdf", "A/icons/pdf.gif", "A/a_2.pdf", "A/a_3.pdf"]) ∧
    doc1C1.attachments.map (fun a => a.content_path) =
      [some "attachments/a.pdf", some "attachments/a_2.pdf"] ∧
    fs1C1.map Prod.fst = ["A/a.pdf", "A/icons/pdf.gif", "A/a_2.pdf"] :=
  ⟨rfl, rfl, rfl, rfl⟩

set_option maxRecDepth 100000 in
set_option maxHeartbeats 1000000 in
/-- C1 witness: an attachment whose bytes already sit at its own name is
re-extracted without writing, keeping `content_path`/`saved_name`. -/
theorem claim_C1_rerun_noop_witness :
    extract_and_save ⟨fun b => "b2b:" ++ toString b, fun b => "sha:" ++ toString b⟩
        { name := some "a.pdf", ty := "file", bytes_b64 := some "QUFB" }
        "A" [("A/a.pdf", [65, 65, 65])] [] [] =
      .ok ({ name := some "a.pdf", ty := "file", bytes_b64 := some "QUFB",
              content_path := some ("attachments/" ++ "a.pdf"), saved_name := some "a.pdf" },
           [("A/a.pdf", [65, 65, 65])],
           setAssoc [] "a.pdf"
             { name := some "a.pdf", ty := "file", bytes_b64 := some "QUFB",
               content_path := some ("attachments/" ++ "a.pdf"), saved_name := some "a.pdf" }) :=
  claim_C1_rerun_noop ⟨fun b => "b2b:" ++ toString b, fun b => "sha:" ++ toString b⟩
    { name := some "a.pdf", ty := "file", bytes_b64 := some "QUFB" }
    "A" [("A/a.pdf", [65, 65, 65])] [] [] "a.pdf" "QUFB" "a.pdf" [65, 65, 65]
    rfl (by decide) rfl rfl (by decide) rfl (by decide) (by decide) (by decide)
    (by decide) (by decide) (by decide) (by decide) rfl

end NotesDbExport
